import Mathlib

/-! # Argobots: work-unit hash table and descriptor allocation

A shallow embedding of two source files of the runtime:

* `src/unit.c`: the table that maps a work-unit handle to its thread
  descriptor (`unit_init_hash_table`, `unit_finalize_hash_table`,
  `unit_map_thread`, `unit_unmap_thread`, `unit_get_hash_index`) and the public
  operation `ABT_unit_set_associated_pool`;
* `src/include/abti_mem.h`: allocation and release of thread and task
  descriptors in the memory-pool build.

Conventions of the embedding.

* Handles and pointers are natural numbers (`uintptr_t`); `size_t` arithmetic
  is reduced modulo `2 ^ 64`.
* A bucket list (`unit_to_thread` nodes chained by `p_next` up to `NULL`) is a
  Lean list of nodes in list order; every node records its own address.
* A C function that can stop in an assertion or in a null dereference returns
  an `Outcome`, together with the state at that point.
* What the allocator answers to a call is an input of the function that makes
  the call; the calls made to the allocator are recorded in the result.
-/

namespace Argobots

/-! ## Definitions: `src/unit.c` -/

/-- Build-time constants and helpers used by `unit.c` and declared in headers
that are not among the sources: the table exponent, the sentinel handle and the
test for handles of built-in pools. They are parameters of the embedding. -/
structure Config where
  /-- The macro `ABTI_UNIT_HASH_TABLE_SIZE_EXP`. -/
  ABTI_UNIT_HASH_TABLE_SIZE_EXP : Nat
  /-- The sentinel handle `ABT_UNIT_NULL`. -/
  ABT_UNIT_NULL : Nat
  /-- The helper `ABTI_unit_is_builtin`. -/
  ABTI_unit_is_builtin : Nat → Bool

/-- Modelled from the spec: `ABTI_UNIT_HASH_TABLE_SIZE`, declared outside the
sources; the number of buckets is fixed and a power of two, here two to the
table exponent. -/
def ABTI_UNIT_HASH_TABLE_SIZE (cfg : Config) : Nat :=
  2 ^ cfg.ABTI_UNIT_HASH_TABLE_SIZE_EXP

/-- Modelled from the spec: the success return code `ABT_SUCCESS` of the public
header, which is not among the sources. -/
def ABT_SUCCESS : Int := 0

/-- Modelled from the spec: the invalid-pool error code of the public header,
which is not among the sources; the spec requires it to be an error code
distinct from the invalid-unit code. -/
def ABT_ERR_INV_POOL : Int := 12

/-- Modelled from the spec: the invalid-unit error code of the public header,
which is not among the sources; the spec requires it to be an error code
distinct from the invalid-pool code. -/
def ABT_ERR_INV_UNIT : Int := 15

/-- `unit_get_hash_index` (unit.c, lines 90-102). -/
def unit_get_hash_index (cfg : Config) (unit : Nat) : Nat :=
  let val := unit % 2 ^ 64
  let base_val := val >>> 3
  let base_val :=
    if cfg.ABTI_UNIT_HASH_TABLE_SIZE_EXP ≤ 14 then
      (base_val + (val >>> (cfg.ABTI_UNIT_HASH_TABLE_SIZE_EXP + 3))) % 2 ^ 64
    else base_val
  let base_val :=
    if cfg.ABTI_UNIT_HASH_TABLE_SIZE_EXP ≤ 9 then
      (base_val + (val >>> (cfg.ABTI_UNIT_HASH_TABLE_SIZE_EXP * 2 + 3))) % 2 ^ 64
    else base_val
  base_val &&& (ABTI_UNIT_HASH_TABLE_SIZE cfg - 1)

/-- A node `struct unit_to_thread` (unit.c, lines 118-128). The field `p_next`
is the position in the list; `addr` is the address of the node itself. -/
structure unit_to_thread where
  /-- Address of the node (the pointer `ABTU_malloc` returned for it). -/
  addr : Nat
  /-- The handle word `unit`, the sentinel when the node is recycled. -/
  unit : Nat
  /-- The thread descriptor pointer `p_thread`. -/
  p_thread : Nat
  deriving DecidableEq, Repr

/-- One bucket `ABTI_unit_to_thread_entry`: the list and its spinlock. -/
structure ABTI_unit_to_thread_entry where
  /-- The nodes reached from the head `list`, in list order. -/
  list : List unit_to_thread
  /-- Whether the spinlock `lock` is held. -/
  lock : Bool
  deriving DecidableEq, Repr

/-- The part of `ABTI_global` that unit.c uses: the bucket array
`unit_to_thread_entires`, indexed by bucket number. -/
structure ABTI_global where
  /-- The bucket array; only the indices below the table size are used. -/
  unit_to_thread_entires : Nat → ABTI_unit_to_thread_entry

/-- Store into one element of the bucket array `unit_to_thread_entires`. -/
def ABTI_global.set_entry (g : ABTI_global) (i : Nat)
    (e : ABTI_unit_to_thread_entry) : ABTI_global :=
  ⟨fun j => if j = i then e else g.unit_to_thread_entires j⟩

/-- Modelled from the spec: `ABTD_spinlock_clear`, declared outside the
sources; it leaves the lock free. -/
def ABTD_spinlock_clear : Bool := false

/-- Modelled from the spec: `ABTD_spinlock_acquire`, declared outside the
sources. No operation blocks indefinitely, so the call returns, and when it
returns the caller holds the lock. -/
def ABTD_spinlock_acquire (_lock : Bool) : Bool := true

/-- Modelled from the spec: `ABTD_spinlock_release`, declared outside the
sources; it leaves the lock free. -/
def ABTD_spinlock_release (_lock : Bool) : Bool := false

/-- Modelled from the spec: `ABTD_spinlock_is_locked`, declared outside the
sources; it reads the lock. -/
def ABTD_spinlock_is_locked (lock : Bool) : Bool := lock

/-- The ways in which a call stops without returning. -/
inductive Fault where
  /-- The entry assertion of map and unmap: the handle is not built-in. -/
  | assert_not_builtin
  /-- The assertion of unmap that the scan did not reach `NULL`
  (unmap() must succeed). -/
  | assert_unmap_must_succeed
  /-- The assertion of teardown that a bucket lock is free. -/
  | assert_lock_free
  /-- The assertion of teardown that a node holds the sentinel. -/
  | assert_unit_null
  /-- A read or write through a null or dangling pointer. -/
  | null_deref
  /-- The assertion of the pool allocation path that the stack size is a
  multiple of the cache line size (abti_mem.h, line 104). -/
  | assert_stacksize_cacheline
  /-- The assertion that the stack size of the attribute is the configured
  one (abti_mem.h, lines 163 and 173). -/
  | assert_attr_stacksize
  deriving DecidableEq, Repr

/-- How a call ends: it returns a value, or it stops in a fault. -/
inductive Outcome (α : Type) where
  /-- The call returned. -/
  | ret (v : α)
  /-- The call stopped. -/
  | fault (f : Fault)
  deriving DecidableEq, Repr

/-- `unit_init_hash_table` (unit.c, lines 156-165): for every bucket number
below the table size, store `NULL` into the list head and clear the lock. -/
def unit_init_hash_table (cfg : Config) (p_global : ABTI_global) : ABTI_global :=
  (List.range (ABTI_UNIT_HASH_TABLE_SIZE cfg)).foldl
    (fun g i => g.set_entry i ⟨[], ABTD_spinlock_clear⟩) p_global

/-- The inner loop of `unit_finalize_hash_table` (lines 175-181) from `p_cur`:
how it ends and the nodes passed to `ABTU_free`, in order. -/
def finalize_list (cfg : Config) :
    List unit_to_thread → Outcome Unit × List unit_to_thread
  | [] => (Outcome.ret (), [])
  | p_cur :: p_next =>
    if p_cur.unit = cfg.ABT_UNIT_NULL then
      ((finalize_list cfg p_next).1, p_cur :: (finalize_list cfg p_next).2)
    else (Outcome.fault Fault.assert_unit_null, [])

/-- The outer loop of `unit_finalize_hash_table` (lines 170-182) over the
bucket numbers still to visit. -/
def finalize_buckets (cfg : Config) (p_global : ABTI_global) :
    List Nat → Outcome Unit × List unit_to_thread
  | [] => (Outcome.ret (), [])
  | i :: rest =>
    if ABTD_spinlock_is_locked (p_global.unit_to_thread_entires i).lock then
      (Outcome.fault Fault.assert_lock_free, [])
    else
      match finalize_list cfg (p_global.unit_to_thread_entires i).list with
      | (Outcome.ret _, freed) =>
        ((finalize_buckets cfg p_global rest).1,
          freed ++ (finalize_buckets cfg p_global rest).2)
      | (Outcome.fault f, freed) => (Outcome.fault f, freed)

/-- `unit_finalize_hash_table` (unit.c, lines 167-183): how the call ends and
the nodes passed to `ABTU_free`, in order. -/
def unit_finalize_hash_table (cfg : Config) (p_global : ABTI_global) :
    Outcome Unit × List unit_to_thread :=
  finalize_buckets cfg p_global (List.range (ABTI_UNIT_HASH_TABLE_SIZE cfg))

/-- What `ABTU_malloc(size, &p_new)` answers: its return code and, on success,
the pointer stored into `p_new`. -/
structure ABTU_malloc_result where
  /-- The return code. -/
  ret : Int
  /-- The pointer written to the out-parameter. -/
  p_new : Nat
  deriving DecidableEq, Repr

/-- The scan of `unit_map_thread` (lines 195-205) from `p_cur`: the list after
the store into the first node holding the sentinel, or `none` when the scan
reaches `NULL`. -/
def map_scan (cfg : Config) (unit p_thread : Nat) :
    List unit_to_thread → Option (List unit_to_thread)
  | [] => none
  | p_cur :: p_next =>
    if p_cur.unit = cfg.ABT_UNIT_NULL then
      some ({ p_cur with unit := unit, p_thread := p_thread } :: p_next)
    else
      (map_scan cfg unit p_thread p_next).map (fun l => p_cur :: l)

/-- Result of `unit_map_thread`: how the call ends, the table at that point and
the number of calls made to `ABTU_malloc`. -/
structure MapResult where
  /-- The return code, or the fault. -/
  out : Outcome Int
  /-- The table when the call ends. -/
  global : ABTI_global
  /-- Number of calls to `ABTU_malloc`. -/
  mallocs : Nat

/-- `unit_map_thread` (unit.c, lines 185-222). The argument `m` is what
`ABTU_malloc` answers if it is called. -/
def unit_map_thread (cfg : Config) (m : ABTU_malloc_result) (p_global : ABTI_global)
    (unit p_thread : Nat) : MapResult :=
  if cfg.ABTI_unit_is_builtin unit then
    ⟨Outcome.fault Fault.assert_not_builtin, p_global, 0⟩
  else
    let hash_index := unit_get_hash_index cfg unit
    let p_entry := p_global.unit_to_thread_entires hash_index
    let held := ABTD_spinlock_acquire p_entry.lock
    match map_scan cfg unit p_thread p_entry.list with
    | some l =>
      ⟨Outcome.ret ABT_SUCCESS,
        p_global.set_entry hash_index ⟨l, ABTD_spinlock_release held⟩, 0⟩
    | none =>
      let p_cur := p_entry.list
      if m.ret ≠ ABT_SUCCESS then
        ⟨Outcome.ret m.ret,
          p_global.set_entry hash_index ⟨p_entry.list, ABTD_spinlock_release held⟩, 1⟩
      else
        ⟨Outcome.ret ABT_SUCCESS,
          p_global.set_entry hash_index
            ⟨⟨m.p_new, unit, p_thread⟩ :: p_cur, ABTD_spinlock_release held⟩, 1⟩

/-- The loop of `unit_unmap_thread` (lines 234-241) entered with `p_cur`
pointing to a node followed by the list `p_next`: the list after the store of
the sentinel, or `none` when the assertion on the next pointer fails. -/
def unmap_scan (cfg : Config) (unit : Nat) :
    unit_to_thread → List unit_to_thread → Option (List unit_to_thread)
  | p_cur, p_next =>
    if p_cur.unit = unit then
      some ({ p_cur with unit := cfg.ABT_UNIT_NULL } :: p_next)
    else
      match p_next with
      | [] => none
      | n :: rest => (unmap_scan cfg unit n rest).map (fun l => p_cur :: l)

/-- `unit_unmap_thread` (unit.c, lines 224-243): how the call ends and the
table at that point. -/
def unit_unmap_thread (cfg : Config) (p_global : ABTI_global) (unit : Nat) :
    Outcome Unit × ABTI_global :=
  if cfg.ABTI_unit_is_builtin unit then
    (Outcome.fault Fault.assert_not_builtin, p_global)
  else
    let hash_index := unit_get_hash_index cfg unit
    let p_entry := p_global.unit_to_thread_entires hash_index
    let held := ABTD_spinlock_acquire p_entry.lock
    match p_entry.list with
    | [] =>
      (Outcome.fault Fault.null_deref,
        p_global.set_entry hash_index ⟨p_entry.list, held⟩)
    | p_cur :: p_next =>
      match unmap_scan cfg unit p_cur p_next with
      | none =>
        (Outcome.fault Fault.assert_unmap_must_succeed,
          p_global.set_entry hash_index ⟨p_entry.list, held⟩)
      | some l =>
        (Outcome.ret (),
          p_global.set_entry hash_index ⟨l, ABTD_spinlock_release held⟩)

/-- Looking a handle up, in the words of the claims (unit.c itself has no
lookup function): the thread pointer of the first entry of bucket
`unit_get_hash_index unit` whose handle equals `unit`. -/
def lookup (cfg : Config) (p_global : ABTI_global) (unit : Nat) : Option Nat :=
  (((p_global.unit_to_thread_entires (unit_get_hash_index cfg unit)).list.find?
    (fun e => decide (e.unit = unit))).map (fun e => e.p_thread))

/-- A call of the table interface, with what the allocator answers to it. -/
inductive Call where
  /-- A call `unit_map_thread(unit, p_thread)`. -/
  | map (unit p_thread : Nat) (m : ABTU_malloc_result)
  /-- A call `unit_unmap_thread(unit)`. -/
  | unmap (unit : Nat)
  deriving DecidableEq, Repr

/-- The handle a call is about. -/
def Call.unit : Call → Nat
  | Call.map unit _ _ => unit
  | Call.unmap unit => unit

/-- The table after a call that returns; `none` when the call stops in a
fault. -/
def step (cfg : Config) (g : ABTI_global) : Call → Option ABTI_global
  | Call.map unit p_thread m =>
    match (unit_map_thread cfg m g unit p_thread).out with
    | Outcome.ret _ => some (unit_map_thread cfg m g unit p_thread).global
    | Outcome.fault _ => none
  | Call.unmap unit =>
    match (unit_unmap_thread cfg g unit).1 with
    | Outcome.ret _ => some (unit_unmap_thread cfg g unit).2
    | Outcome.fault _ => none

/-- The table after a sequence of calls that all return. -/
def run (cfg : Config) : ABTI_global → List Call → Option ABTI_global
  | g, [] => some g
  | g, c :: cs => (step cfg g c).bind (fun g1 => run cfg g1 cs)

/-- The node of bucket `b` at position `i` counted from the tail of the list.
Nodes are only ever linked at the head and never unlinked, so this position
names the same node for as long as the table is in use. -/
def node_at (g : ABTI_global) (b i : Nat) : Option unit_to_thread :=
  (g.unit_to_thread_entires b).list.reverse[i]?

/-! ## Definitions: sequences of calls that respect the contract

The notions that the claims use to speak of sequences of calls: calls that
return successfully, the handles that are live, the contract of the callers,
and the largest number of handles of a bucket that were live at once. None of
them is a function of unit.c. -/

/-- The table after a call that returns successfully (`ABT_SUCCESS` for map);
`none` when the call fails or stops in a fault. -/
def step_success (cfg : Config) (g : ABTI_global) : Call → Option ABTI_global
  | Call.map unit p_thread m =>
    if (unit_map_thread cfg m g unit p_thread).out = Outcome.ret ABT_SUCCESS then
      some (unit_map_thread cfg m g unit p_thread).global
    else none
  | Call.unmap unit =>
    if (unit_unmap_thread cfg g unit).1 = Outcome.ret () then
      some (unit_unmap_thread cfg g unit).2
    else none

/-- The table after a sequence of calls that all return successfully. -/
def run_success (cfg : Config) : ABTI_global → List Call → Option ABTI_global
  | g, [] => some g
  | g, c :: cs => (step_success cfg g c).bind (fun g1 => run_success cfg g1 cs)

/-- The live handles after a successful call: a map adds its handle, an unmap
takes its handle away. -/
def live_step (live : List Nat) : Call → List Nat
  | Call.map unit _ _ => unit :: live
  | Call.unmap unit => live.erase unit

/-- The live handles after a sequence of successful calls: those mapped and not
yet unmapped. -/
def live_after : List Nat → List Call → List Nat
  | live, [] => live
  | live, c :: cs => live_after (live_step live c) cs

/-- The contract of the callers, from the set of live handles: a handle is
mapped only when it is not the sentinel and not live, and unmapped only when it
is live. -/
def respects (cfg : Config) : List Nat → List Call → Bool
  | _, [] => true
  | live, Call.map unit p_thread m :: cs =>
    decide (unit ∉ live) && decide (unit ≠ cfg.ABT_UNIT_NULL) &&
      respects cfg (live_step live (Call.map unit p_thread m)) cs
  | live, Call.unmap unit :: cs =>
    decide (unit ∈ live) && respects cfg (live_step live (Call.unmap unit)) cs

/-- The number of live handles that belong to bucket `b`. -/
def live_in_bucket (cfg : Config) (b : Nat) (live : List Nat) : Nat :=
  (live.filter (fun u => decide (unit_get_hash_index cfg u = b))).length

/-- The largest number of handles of bucket `b` that were live at the same
time, from the start of a sequence of successful calls to its end. -/
def high_water (cfg : Config) (b : Nat) : List Nat → List Call → Nat
  | live, [] => live_in_bucket cfg b live
  | live, c :: cs => max (live_in_bucket cfg b live) (high_water cfg b (live_step live c) cs)

/-- The handles held by the entries of a list that hold a live handle, in list
order. -/
def live_units (cfg : Config) (l : List unit_to_thread) : List Nat :=
  (l.filter (fun e => decide (e.unit ≠ cfg.ABT_UNIT_NULL))).map (fun e => e.unit)

/-- A sequence of calls on pairwise distinct handles, each unmap following the
map of its handle: given the handles mapped and the handles unmapped so far, a
map is about a handle other than the sentinel that was never mapped, and an
unmap is about a handle that was mapped and never unmapped. -/
def distinct_serial (cfg : Config) : List Nat → List Nat → List Call → Bool
  | _, _, [] => true
  | mapped, unmapped, Call.map unit _ _ :: cs =>
    decide (unit ∉ mapped) && decide (unit ≠ cfg.ABT_UNIT_NULL) &&
      distinct_serial cfg (unit :: mapped) unmapped cs
  | mapped, unmapped, Call.unmap unit :: cs =>
    decide (unit ∈ mapped) && decide (unit ∉ unmapped) &&
      distinct_serial cfg mapped (unit :: unmapped) cs

/-- The handles mapped and not yet unmapped after one completed call, counted
with multiplicity: a map that returns `ABT_SUCCESS` adds its handle (the
sentinel excepted, which marks no mapping), a map that returns an error adds
nothing, and an unmap takes one occurrence of its handle away. -/
def pending_step (cfg : Config) (g : ABTI_global) (pending : List Nat) : Call → List Nat
  | Call.map unit p_thread m =>
    if (unit_map_thread cfg m g unit p_thread).out = Outcome.ret ABT_SUCCESS ∧
        unit ≠ cfg.ABT_UNIT_NULL then unit :: pending
    else pending
  | Call.unmap unit => pending.erase unit

/-- The handles mapped and not yet unmapped after a sequence of completed
calls, counted with multiplicity. -/
def pending_after (cfg : Config) : ABTI_global → List Nat → List Call → List Nat
  | _, pending, [] => pending
  | g, pending, c :: cs =>
    match step cfg g c with
    | some g1 => pending_after cfg g1 (pending_step cfg g pending c) cs
    | none => pending_step cfg g pending c

/-! ## Definitions: `ABT_unit_set_associated_pool` (unit.c, lines 18-63) -/

/-- The stack types `ABTI_stack_type` that abti_mem.h tells apart. -/
inductive ABTI_stack_type where
  /-- The tag `ABTI_STACK_TYPE_MEMPOOL`. -/
  | MEMPOOL
  /-- The tag `ABTI_STACK_TYPE_MALLOC`. -/
  | MALLOC
  /-- The tag `ABTI_STACK_TYPE_USER`. -/
  | USER
  /-- The tag `ABTI_STACK_TYPE_MAIN`. -/
  | MAIN
  deriving DecidableEq, Repr

/-- The attribute record `ABTI_thread_attr` as far as the sources use it. -/
structure ABTI_thread_attr where
  /-- The stack pointer `p_stack`. -/
  p_stack : Nat
  /-- The stack size `stacksize`. -/
  stacksize : Nat
  /-- The recorded allocation strategy `stacktype`. -/
  stacktype : ABTI_stack_type
  /-- The flag passed last to `ABTI_thread_attr_init`. -/
  migratable : Bool
  deriving DecidableEq, Repr

/-- The thread descriptor `ABTI_thread` as far as the sources use it: its
attribute record and the pointer to its associated pool. -/
structure ABTI_thread where
  /-- The field `attr`. -/
  attr : ABTI_thread_attr
  /-- The field `p_pool`, the address of the associated pool. -/
  p_pool : Nat
  deriving DecidableEq, Repr

/-- A pool object `ABTI_pool` behind a non-null pointer: its address and its
callback `u_get_thread`, which turns a unit handle into a thread handle. -/
structure ABTI_pool where
  /-- Address of the pool object. -/
  addr : Nat
  /-- The callback `u_get_thread`. -/
  u_get_thread : Nat → Nat

/-- The handle helpers declared outside the sources, taken as parameters:
`ABTI_pool_get_ptr` yields the pool object of a pool handle, or `none` for the
null pointer, and `ABTI_thread_get_ptr` yields the descriptor pointer of a
thread handle. -/
structure Handles where
  /-- The helper `ABTI_pool_get_ptr`. -/
  ABTI_pool_get_ptr : Nat → Option ABTI_pool
  /-- The helper `ABTI_thread_get_ptr`. -/
  ABTI_thread_get_ptr : Nat → Nat

/-- Result of the association operation: how the call ends, the thread
descriptors in memory at that point, and the unit handles with which
`u_get_thread` was called, in order. -/
structure SetPoolResult (α : Type) where
  /-- The return value, or the fault. -/
  out : Outcome α
  /-- The thread descriptors in memory, by address. -/
  threads : Nat → Option ABTI_thread
  /-- The arguments of the calls of `u_get_thread`. -/
  u_get_thread_calls : List Nat

/-- `ABTI_unit_set_associated_pool` (unit.c, lines 58-63). The store through
`p_thread` needs a descriptor at that address. -/
def ABTI_unit_set_associated_pool (hd : Handles) (threads : Nat → Option ABTI_thread)
    (unit : Nat) (p_pool : ABTI_pool) : SetPoolResult Unit :=
  let thread := p_pool.u_get_thread unit
  let p_thread := hd.ABTI_thread_get_ptr thread
  match threads p_thread with
  | none => ⟨Outcome.fault Fault.null_deref, threads, [unit]⟩
  | some d =>
    ⟨Outcome.ret (),
      fun a => if a = p_thread then some { d with p_pool := p_pool.addr } else threads a,
      [unit]⟩

/-- `ABT_unit_set_associated_pool` (unit.c, lines 44-52). The macro
`ABTI_CHECK_NULL_POOL_PTR` returns the invalid-pool code for a null pool
pointer, and `ABTI_CHECK_TRUE` returns its second argument when the condition
fails. -/
def ABT_unit_set_associated_pool (cfg : Config) (hd : Handles)
    (threads : Nat → Option ABTI_thread) (unit pool : Nat) : SetPoolResult Int :=
  match hd.ABTI_pool_get_ptr pool with
  | none => ⟨Outcome.ret ABT_ERR_INV_POOL, threads, []⟩
  | some p_pool =>
    if unit ≠ cfg.ABT_UNIT_NULL then
      match ABTI_unit_set_associated_pool hd threads unit p_pool with
      | ⟨Outcome.ret _, threads1, calls⟩ => ⟨Outcome.ret ABT_SUCCESS, threads1, calls⟩
      | ⟨Outcome.fault f, threads1, calls⟩ => ⟨Outcome.fault f, threads1, calls⟩
    else ⟨Outcome.ret ABT_ERR_INV_UNIT, threads, []⟩

/-! ## Definitions: `src/include/abti_mem.h`, memory-pool build

The build with `ABT_CONFIG_USE_MEM_POOL` defined and
`ABT_CONFIG_DISABLE_EXT_THREAD` not defined (lines 18-294). The macros
`ABTI_VALGRIND_REGISTER_STACK` and `ABTI_VALGRIND_UNREGISTER_STACK` have no
effect on the state and are left out. -/

/-- Build-time and configuration constants used by abti_mem.h and declared
outside the sources, taken as parameters. -/
structure MemConfig where
  /-- The macro `ABT_CONFIG_STATIC_CACHELINE_SIZE`. -/
  ABT_CONFIG_STATIC_CACHELINE_SIZE : Nat
  /-- The size `sizeof(ABTI_thread)`. -/
  sizeof_ABTI_thread : Nat
  /-- The size `sizeof(ABTI_stack_header)`. -/
  sizeof_ABTI_stack_header : Nat
  /-- The size `sizeof(ABTI_task)`. -/
  sizeof_ABTI_task : Nat
  /-- The value of `ABTI_global_get_thread_stacksize()`. -/
  thread_stacksize : Nat

/-- The memory pools that the allocation functions name. -/
inductive MemPool where
  /-- The pool `mem_pool_stack` of a local execution stream. -/
  | local_stack (xstream : Nat)
  /-- The global pool `mem_pool_stack_ext`. -/
  | global_stack_ext
  /-- The pool `mem_pool_task_desc` of a local execution stream. -/
  | local_task_desc (xstream : Nat)
  /-- The global pool `mem_pool_task_desc_ext`. -/
  | global_task_desc_ext
  deriving DecidableEq, Repr

/-- The global spinlocks that the release functions take. -/
inductive MemLock where
  /-- The lock `mem_pool_stack_lock`. -/
  | mem_pool_stack_lock
  /-- The lock `mem_pool_task_desc_lock`. -/
  | mem_pool_task_desc_lock
  deriving DecidableEq, Repr

/-- A call made to the allocator or to a lock, with its arguments and, for an
acquisition, the pointer it returned. -/
inductive MemEvent where
  /-- The call `ABTI_mem_pool_alloc(pool)` returned `ptr`. -/
  | ABTI_mem_pool_alloc (pool : MemPool) (ptr : Nat)
  /-- The call `ABTI_mem_pool_free(pool, ptr)`. -/
  | ABTI_mem_pool_free (pool : MemPool) (ptr : Nat)
  /-- The call `ABTU_malloc(size)` returned `ptr`. -/
  | ABTU_malloc (size : Nat) (ptr : Nat)
  /-- The call `ABTU_free(ptr)`. -/
  | ABTU_free (ptr : Nat)
  /-- The call `ABTI_spinlock_acquire` on a global lock. -/
  | ABTI_spinlock_acquire (lock : MemLock)
  /-- The call `ABTI_spinlock_release` on a global lock. -/
  | ABTI_spinlock_release (lock : MemLock)
  deriving DecidableEq, Repr

/-- Whether a call gives memory back. -/
def MemEvent.is_release : MemEvent → Bool
  | MemEvent.ABTI_mem_pool_free _ _ => true
  | MemEvent.ABTU_free _ => true
  | _ => false

/-- The macro `ABTI_MEM_SH_SIZE` (abti_mem.h, lines 11-16). Its operands are
constants of the build, the sizes of two structures and the cache-line size,
whose sum is far below the range of `size_t`; the arithmetic is exact. -/
def ABTI_MEM_SH_SIZE (mc : MemConfig) : Nat :=
  ((mc.sizeof_ABTI_thread + mc.sizeof_ABTI_stack_header +
      mc.ABT_CONFIG_STATIC_CACHELINE_SIZE - 1) /
    mc.ABT_CONFIG_STATIC_CACHELINE_SIZE) * mc.ABT_CONFIG_STATIC_CACHELINE_SIZE

/-- Modelled from the spec: `ABTI_thread_attr_init`, declared outside the
sources; it records the stack pointer, the stack size, the allocation strategy
tag and the flag it is given. -/
def ABTI_thread_attr_init (p_stack stacksize : Nat) (stacktype : ABTI_stack_type)
    (migratable : Bool) : ABTI_thread_attr :=
  ⟨p_stack, stacksize, stacktype, migratable⟩

/-- Modelled from the spec: `ABTI_thread_attr_copy`, declared outside the
sources; the destination receives every field of the source. -/
def ABTI_thread_attr_copy (p_src : ABTI_thread_attr) : ABTI_thread_attr := p_src

/-- A descriptor handed out by the allocation functions: its address and the
attribute record stored in it. -/
structure thread_desc where
  /-- The pointer `p_thread`. -/
  p_thread : Nat
  /-- The field `attr` of the descriptor. -/
  attr : ABTI_thread_attr
  deriving DecidableEq, Repr

/-- `ABTI_mem_alloc_thread_mempool_impl` (lines 98-108): the pair of
`*pp_thread` and `*pp_stack`. The argument `blk` is what `ABTI_mem_pool_alloc`
returns. -/
def ABTI_mem_alloc_thread_mempool_impl (mc : MemConfig) (p_mem_pool_stack : MemPool)
    (stacksize blk : Nat) : Outcome (Nat × Nat) × List MemEvent :=
  if stacksize &&& (mc.ABT_CONFIG_STATIC_CACHELINE_SIZE - 1) = 0 then
    let p_thread := blk
    (Outcome.ret (p_thread, p_thread - stacksize),
      [MemEvent.ABTI_mem_pool_alloc p_mem_pool_stack blk])
  else (Outcome.fault Fault.assert_stacksize_cacheline, [])

/-- `ABTI_mem_alloc_thread_malloc_impl` (lines 110-121): the pair of
`*pp_thread` and `*pp_stack`. The argument `blk` is what `ABTU_malloc`
returns. -/
def ABTI_mem_alloc_thread_malloc_impl (mc : MemConfig) (stacksize blk : Nat) :
    (Nat × Nat) × List MemEvent :=
  let alloc_stacksize :=
    ((stacksize + mc.ABT_CONFIG_STATIC_CACHELINE_SIZE - 1) % 2 ^ 64) &&&
      (2 ^ 64 - 1 - (mc.ABT_CONFIG_STATIC_CACHELINE_SIZE - 1))
  let p_stack := blk
  ((p_stack + alloc_stacksize, p_stack),
    [MemEvent.ABTU_malloc ((alloc_stacksize + mc.sizeof_ABTI_thread) % 2 ^ 64) blk])

/-- `ABTI_mem_alloc_thread_default` (lines 123-147). -/
def ABTI_mem_alloc_thread_default (mc : MemConfig) (p_local_xstream : Option Nat)
    (blk : Nat) : Outcome thread_desc × List MemEvent :=
  let stacksize := mc.thread_stacksize
  match p_local_xstream with
  | none =>
    match ABTI_mem_alloc_thread_malloc_impl mc stacksize blk with
    | ((p_thread, p_stack), ev) =>
      (Outcome.ret ⟨p_thread,
        ABTI_thread_attr_init p_stack stacksize ABTI_stack_type.MALLOC true⟩, ev)
  | some xstream =>
    match ABTI_mem_alloc_thread_mempool_impl mc (MemPool.local_stack xstream) stacksize blk with
    | (Outcome.ret (p_thread, p_stack), ev) =>
      (Outcome.ret ⟨p_thread,
        ABTI_thread_attr_init p_stack stacksize ABTI_stack_type.MEMPOOL true⟩, ev)
    | (Outcome.fault f, ev) => (Outcome.fault f, ev)

/-- `ABTI_mem_alloc_thread_mempool` (lines 149-177). -/
def ABTI_mem_alloc_thread_mempool (mc : MemConfig) (p_local_xstream : Option Nat)
    (p_attr : ABTI_thread_attr) (blk : Nat) : Outcome thread_desc × List MemEvent :=
  let stacksize := mc.thread_stacksize
  match p_local_xstream with
  | none =>
    match ABTI_mem_alloc_thread_malloc_impl mc stacksize blk with
    | ((p_thread, p_stack), ev) =>
      let attr := { ABTI_thread_attr_copy p_attr with stacktype := ABTI_stack_type.MALLOC }
      if attr.stacksize = stacksize then
        (Outcome.ret ⟨p_thread, { attr with p_stack := p_stack }⟩, ev)
      else (Outcome.fault Fault.assert_attr_stacksize, ev)
  | some xstream =>
    match ABTI_mem_alloc_thread_mempool_impl mc (MemPool.local_stack xstream) stacksize blk with
    | (Outcome.ret (p_thread, p_stack), ev) =>
      let attr := ABTI_thread_attr_copy p_attr
      if attr.stacksize = stacksize then
        (Outcome.ret ⟨p_thread, { attr with p_stack := p_stack }⟩, ev)
      else (Outcome.fault Fault.assert_attr_stacksize, ev)
    | (Outcome.fault f, ev) => (Outcome.fault f, ev)

/-- `ABTI_mem_alloc_thread_malloc` (lines 179-192). -/
def ABTI_mem_alloc_thread_malloc (mc : MemConfig) (p_attr : ABTI_thread_attr) (blk : Nat) :
    Outcome thread_desc × List MemEvent :=
  let stacksize := p_attr.stacksize
  match ABTI_mem_alloc_thread_malloc_impl mc stacksize blk with
  | ((p_thread, p_stack), ev) =>
    (Outcome.ret ⟨p_thread, { ABTI_thread_attr_copy p_attr with p_stack := p_stack }⟩, ev)

/-- `ABTI_mem_alloc_thread_user` (lines 194-202). -/
def ABTI_mem_alloc_thread_user (mc : MemConfig) (p_attr : ABTI_thread_attr) (blk : Nat) :
    Outcome thread_desc × List MemEvent :=
  let p_thread := blk
  (Outcome.ret ⟨p_thread, ABTI_thread_attr_copy p_attr⟩,
    [MemEvent.ABTU_malloc mc.sizeof_ABTI_thread blk])

/-- `ABTI_mem_alloc_thread_main` (lines 204-210). -/
def ABTI_mem_alloc_thread_main (mc : MemConfig) (p_attr : ABTI_thread_attr) (blk : Nat) :
    Outcome thread_desc × List MemEvent :=
  let p_thread := blk
  (Outcome.ret ⟨p_thread, ABTI_thread_attr_copy p_attr⟩,
    [MemEvent.ABTU_malloc mc.sizeof_ABTI_thread blk])

/-- `ABTI_mem_alloc_thread` (lines 212-229). The argument `blk` is what the one
call to the allocator returns. The assertion of the last branch, that the stack
type is `ABTI_STACK_TYPE_MAIN`, holds for every value of the type. -/
def ABTI_mem_alloc_thread (mc : MemConfig) (p_local_xstream : Option Nat)
    (p_attr : Option ABTI_thread_attr) (blk : Nat) : Outcome thread_desc × List MemEvent :=
  match p_attr with
  | none => ABTI_mem_alloc_thread_default mc p_local_xstream blk
  | some attr =>
    match attr.stacktype with
    | ABTI_stack_type.MEMPOOL => ABTI_mem_alloc_thread_mempool mc p_local_xstream attr blk
    | ABTI_stack_type.MALLOC => ABTI_mem_alloc_thread_malloc mc attr blk
    | ABTI_stack_type.USER => ABTI_mem_alloc_thread_user mc attr blk
    | ABTI_stack_type.MAIN => ABTI_mem_alloc_thread_main mc attr blk

/-- `ABTI_mem_free_thread` (lines 231-255): the calls it makes, in order. -/
def ABTI_mem_free_thread (p_local_xstream : Option Nat) (th : thread_desc) :
    List MemEvent :=
  match th.attr.stacktype with
  | ABTI_stack_type.MEMPOOL =>
    match p_local_xstream with
    | none =>
      [MemEvent.ABTI_spinlock_acquire MemLock.mem_pool_stack_lock,
        MemEvent.ABTI_mem_pool_free MemPool.global_stack_ext th.p_thread,
        MemEvent.ABTI_spinlock_release MemLock.mem_pool_stack_lock]
    | some xstream =>
      [MemEvent.ABTI_mem_pool_free (MemPool.local_stack xstream) th.p_thread]
  | ABTI_stack_type.MALLOC => [MemEvent.ABTU_free th.attr.p_stack]
  | _ => [MemEvent.ABTU_free th.p_thread]

/-- Result of `ABTI_mem_alloc_task`: the pointer `p_task`, the memory words
after the store of the tag, and the calls made. -/
structure TaskAlloc where
  /-- The returned pointer. -/
  p_task : Nat
  /-- The 32-bit words of memory, by address. -/
  mem : Nat → Nat
  /-- The calls made, in order. -/
  events : List MemEvent

/-- `ABTI_mem_alloc_task` (lines 257-275). The argument `blk` is what the one
call to the allocator returns; the tag is stored in the word just past the
descriptor. -/
def ABTI_mem_alloc_task (mc : MemConfig) (p_local_xstream : Option Nat)
    (mem : Nat → Nat) (blk : Nat) : TaskAlloc :=
  match p_local_xstream with
  | none =>
    let p_task := blk
    ⟨p_task, fun a => if a = p_task + mc.sizeof_ABTI_task then 1 else mem a,
      [MemEvent.ABTU_malloc ((mc.sizeof_ABTI_task + 4) % 2 ^ 64) blk]⟩
  | some xstream =>
    let p_task := blk
    ⟨p_task, fun a => if a = p_task + mc.sizeof_ABTI_task then 0 else mem a,
      [MemEvent.ABTI_mem_pool_alloc (MemPool.local_task_desc xstream) blk]⟩

/-- `ABTI_mem_free_task` (lines 277-294): the calls it makes, in order. -/
def ABTI_mem_free_task (mc : MemConfig) (p_local_xstream : Option Nat)
    (mem : Nat → Nat) (p_task : Nat) : List MemEvent :=
  if mem (p_task + mc.sizeof_ABTI_task) ≠ 0 then [MemEvent.ABTU_free p_task]
  else
    match p_local_xstream with
    | none =>
      [MemEvent.ABTI_spinlock_acquire MemLock.mem_pool_task_desc_lock,
        MemEvent.ABTI_mem_pool_free MemPool.global_task_desc_ext p_task,
        MemEvent.ABTI_spinlock_release MemLock.mem_pool_task_desc_lock]
    | some xstream =>
      [MemEvent.ABTI_mem_pool_free (MemPool.local_task_desc xstream) p_task]

/-! ## Definitions: `src/include/abti_mem.h`, build without memory pool

The branch of the header taken when `ABT_CONFIG_USE_MEM_POOL` is not defined
(lines 296-394). -/

/-- `ABTI_mem_alloc_thread_with_stacksize` (lines 303-328) of the build without
memory pool: the descriptor, the value left in `*p_stacksize` and the calls
made. The argument `p_stacksize` is the value of `*p_stacksize` on entry and
`blk` is what `ABTU_malloc` returns. -/
def NoMemPool.ABTI_mem_alloc_thread_with_stacksize (mc : MemConfig)
    (p_stacksize blk : Nat) : thread_desc × Nat × List MemEvent :=
  let stacksize := p_stacksize
  let actual_stacksize := (stacksize + 2 ^ 64 - mc.sizeof_ABTI_thread) % 2 ^ 64
  let p_blk := blk
  let p_thread := p_blk
  let p_stack := p_blk + mc.sizeof_ABTI_thread
  (⟨p_thread, ABTI_thread_attr_init p_stack actual_stacksize ABTI_stack_type.MALLOC true⟩,
    actual_stacksize, [MemEvent.ABTU_malloc stacksize blk])

/-! ## Configurations and tables used in the examples -/

/-- A configuration for examples: two buckets, sentinel `0`, and the handles
with the low bit set taken as built-in. -/
def cfg2 : Config := ⟨1, 0, fun u => u % 2 == 1⟩

/-- A table for examples: every bucket empty and every lock free. -/
def g_empty : ABTI_global := ⟨fun _ => ⟨[], false⟩⟩

/-- A table for examples: two recycled nodes in bucket 0, one in bucket 1. -/
def g_recycled : ABTI_global :=
  ⟨fun i => if i = 0 then ⟨[⟨100, 0, 5⟩, ⟨101, 0, 6⟩], false⟩
    else if i = 1 then ⟨[⟨102, 0, 7⟩], false⟩ else ⟨[], false⟩⟩

/-- A table for examples: as `g_recycled`, but the node of bucket 1 is live. -/
def g_live : ABTI_global :=
  ⟨fun i => if i = 0 then ⟨[⟨100, 0, 5⟩, ⟨101, 0, 6⟩], false⟩
    else if i = 1 then ⟨[⟨102, 8, 7⟩], false⟩ else ⟨[], false⟩⟩

/-- A table for examples: the only node, in bucket 1, holds the built-in
handle 9. -/
def g_builtin : ABTI_global :=
  ⟨fun i => if i = 1 then ⟨[⟨100, 9, 5⟩], false⟩ else ⟨[], false⟩⟩

/-- Handle helpers for examples: the pool handle 5 is the null pool handle,
every other pool handle is the address of a pool whose callback adds 1000 to
the unit handle; a thread handle is the address of its descriptor. -/
def hd_example : Handles :=
  ⟨fun p => if p = 5 then none else some ⟨p, fun u => u + 1000⟩, fun th => th⟩

/-- Thread memory for examples: one descriptor, at address 1008, associated
with the pool at address 3. -/
def threads_example : Nat → Option ABTI_thread :=
  fun a => if a = 1008 then some ⟨⟨4096, 16384, ABTI_stack_type.MEMPOOL, true⟩, 3⟩ else none

/-- A memory configuration for examples: cache lines of 64 bytes, a descriptor
of 192 bytes, a stack header of 24 bytes, a task descriptor of 128 bytes and a
default stack size of 16384 bytes. -/
def mc_example : MemConfig := ⟨64, 192, 24, 128, 16384⟩

/-- A table for examples: as `g_live`, with the lock of bucket 0 held. -/
def g_live_locked : ABTI_global :=
  ⟨fun i => if i = 0 then ⟨[⟨100, 0, 5⟩, ⟨101, 0, 6⟩], true⟩
    else if i = 1 then ⟨[⟨102, 8, 7⟩], false⟩ else ⟨[], false⟩⟩

/-! ## Lemmas on the bucket array and the scans -/

@[simp] theorem set_entry_same (g : ABTI_global) (i : Nat) (e : ABTI_unit_to_thread_entry) :
    (g.set_entry i e).unit_to_thread_entires i = e := by
  simp [ABTI_global.set_entry]

theorem set_entry_other (g : ABTI_global) (i j : Nat) (e : ABTI_unit_to_thread_entry)
    (h : j ≠ i) :
    (g.set_entry i e).unit_to_thread_entires j = g.unit_to_thread_entires j := by
  simp [ABTI_global.set_entry, h]

/-- The scan of map reaches `NULL` exactly when no node holds the sentinel. -/
theorem map_scan_eq_none (cfg : Config) (u t : Nat) (l : List unit_to_thread) :
    map_scan cfg u t l = none ↔ ∀ e ∈ l, e.unit ≠ cfg.ABT_UNIT_NULL := by
  induction l with
  | nil => simp [map_scan]
  | cons a l ih =>
    by_cases ha : a.unit = cfg.ABT_UNIT_NULL
    · simp [map_scan, ha]
    · simp [map_scan, ha, ih]

/-- When the scan of map stores, it stores into the first node holding the
sentinel and keeps every other node and the order. -/
theorem map_scan_eq_some (cfg : Config) (u t : Nat) (l l1 : List unit_to_thread)
    (h : map_scan cfg u t l = some l1) :
    ∃ pre e post, l = pre ++ e :: post ∧ (∀ x ∈ pre, x.unit ≠ cfg.ABT_UNIT_NULL) ∧
      e.unit = cfg.ABT_UNIT_NULL ∧ l1 = pre ++ ⟨e.addr, u, t⟩ :: post := by
  induction l generalizing l1 with
  | nil => simp [map_scan] at h
  | cons a l ih =>
    by_cases ha : a.unit = cfg.ABT_UNIT_NULL
    · simp only [map_scan, ha, if_true, Option.some.injEq] at h
      exact ⟨[], a, l, rfl, by simp, ha, by simp [← h]⟩
    · simp only [map_scan, ha, if_false, Option.map_eq_some'] at h
      obtain ⟨l2, h2, rfl⟩ := h
      obtain ⟨pre, e, post, rfl, hpre, he, rfl⟩ := ih l2 h2
      refine ⟨a :: pre, e, post, rfl, ?_, he, rfl⟩
      intro x hx
      rcases List.mem_cons.1 hx with rfl | hx
      · exact ha
      · exact hpre x hx

/-- The scan of map stores as soon as some node holds the sentinel. -/
theorem map_scan_isSome (cfg : Config) (u t : Nat) (l : List unit_to_thread)
    (h : ∃ e ∈ l, e.unit = cfg.ABT_UNIT_NULL) :
    ∃ l1, map_scan cfg u t l = some l1 := by
  cases hm : map_scan cfg u t l with
  | some l1 => exact ⟨l1, rfl⟩
  | none =>
    obtain ⟨e, he, hu⟩ := h
    exact absurd hu ((map_scan_eq_none cfg u t l).1 hm e he)

/-- The scan of unmap fails its assertion exactly when no node holds the
handle. -/
theorem unmap_scan_eq_none (cfg : Config) (u : Nat) (a : unit_to_thread)
    (l : List unit_to_thread) :
    unmap_scan cfg u a l = none ↔ ∀ e ∈ a :: l, e.unit ≠ u := by
  induction l generalizing a with
  | nil =>
    by_cases ha : a.unit = u
    · simp [unmap_scan, ha]
    · simp [unmap_scan, ha]
  | cons b l ih =>
    by_cases ha : a.unit = u
    · simp [unmap_scan, ha]
    · rw [unmap_scan]
      simp only [ha, if_false, Option.map_eq_none', ih b]
      simp [ha]

/-- When the scan of unmap stores, it stores the sentinel into the first node
holding the handle and keeps every other node and the order. -/
theorem unmap_scan_eq_some (cfg : Config) (u : Nat) (a : unit_to_thread)
    (l l1 : List unit_to_thread) (h : unmap_scan cfg u a l = some l1) :
    ∃ pre e post, a :: l = pre ++ e :: post ∧ (∀ x ∈ pre, x.unit ≠ u) ∧
      e.unit = u ∧ l1 = pre ++ ⟨e.addr, cfg.ABT_UNIT_NULL, e.p_thread⟩ :: post := by
  induction l generalizing a l1 with
  | nil =>
    by_cases ha : a.unit = u
    · simp only [unmap_scan, ha, if_true, Option.some.injEq] at h
      exact ⟨[], a, [], rfl, by simp, ha, by simp [← h]⟩
    · simp [unmap_scan, ha] at h
  | cons b l ih =>
    by_cases ha : a.unit = u
    · simp only [unmap_scan, ha, if_true, Option.some.injEq] at h
      exact ⟨[], a, b :: l, rfl, by simp, ha, by simp [← h]⟩
    · rw [unmap_scan] at h
      simp only [ha, if_false, Option.map_eq_some'] at h
      obtain ⟨l2, h2, rfl⟩ := h
      obtain ⟨pre, e, post, hl, hpre, he, rfl⟩ := ih b l2 h2
      refine ⟨a :: pre, e, post, by simp [hl], ?_, he, rfl⟩
      intro x hx
      rcases List.mem_cons.1 hx with rfl | hx
      · exact ha
      · exact hpre x hx

/-! ## Unmap of a handle that is absent -/

/-- In a bucket that is not empty and holds no node with the handle, unmap
stops in the assertion that follows the advance of `p_cur`, holding the bucket
lock, and no list is changed. -/
theorem unit_unmap_thread_absent_nonempty (cfg : Config) (g : ABTI_global) (h : Nat)
    (hb : cfg.ABTI_unit_is_builtin h = false)
    (hne : (g.unit_to_thread_entires (unit_get_hash_index cfg h)).list ≠ [])
    (habs : ∀ e ∈ (g.unit_to_thread_entires (unit_get_hash_index cfg h)).list, e.unit ≠ h) :
    (unit_unmap_thread cfg g h).1 = Outcome.fault Fault.assert_unmap_must_succeed ∧
      ∀ i, ((unit_unmap_thread cfg g h).2.unit_to_thread_entires i).list =
        (g.unit_to_thread_entires i).list := by
  cases hl : (g.unit_to_thread_entires (unit_get_hash_index cfg h)).list with
  | nil => exact absurd hl hne
  | cons a l =>
    rw [hl] at habs
    have hs := (unmap_scan_eq_none cfg h a l).2 habs
    refine ⟨by simp [unit_unmap_thread, hb, hl, hs], ?_⟩
    intro i
    by_cases hi : i = unit_get_hash_index cfg h
    · subst hi
      simp [unit_unmap_thread, hb, hl, hs]
    · simp [unit_unmap_thread, hb, hl, hs, set_entry_other _ _ _ _ hi]

/-- In an empty bucket, unmap reads the handle word through the null list head
(line 235) before it reaches any assertion. -/
theorem unit_unmap_thread_empty_bucket (cfg : Config) (g : ABTI_global) (h : Nat)
    (hb : cfg.ABTI_unit_is_builtin h = false)
    (hempty : (g.unit_to_thread_entires (unit_get_hash_index cfg h)).list = []) :
    (unit_unmap_thread cfg g h).1 = Outcome.fault Fault.null_deref := by
  simp [unit_unmap_thread, hb, hempty]

/-! ## Teardown -/

theorem finalize_list_ret_iff (cfg : Config) (l : List unit_to_thread) :
    (finalize_list cfg l).1 = Outcome.ret () ↔ ∀ e ∈ l, e.unit = cfg.ABT_UNIT_NULL := by
  induction l with
  | nil => simp [finalize_list]
  | cons a l ih =>
    by_cases ha : a.unit = cfg.ABT_UNIT_NULL
    · simp [finalize_list, ha, ih]
    · simp [finalize_list, ha]

theorem finalize_list_freed_of_ret (cfg : Config) (l : List unit_to_thread)
    (h : (finalize_list cfg l).1 = Outcome.ret ()) : (finalize_list cfg l).2 = l := by
  induction l with
  | nil => simp [finalize_list]
  | cons a l ih =>
    by_cases ha : a.unit = cfg.ABT_UNIT_NULL
    · simp only [finalize_list, ha, if_true] at h ⊢
      rw [ih h]
    · simp [finalize_list, ha] at h

theorem finalize_list_freed_null (cfg : Config) (l : List unit_to_thread) :
    ∀ e ∈ (finalize_list cfg l).2, e.unit = cfg.ABT_UNIT_NULL := by
  induction l with
  | nil => simp [finalize_list]
  | cons a l ih =>
    by_cases ha : a.unit = cfg.ABT_UNIT_NULL
    · intro e he
      simp only [finalize_list, ha, if_true, List.mem_cons] at he
      rcases he with rfl | he
      · exact ha
      · exact ih e he
    · simp [finalize_list, ha]

theorem finalize_list_fault (cfg : Config) (l : List unit_to_thread) (f : Fault)
    (h : (finalize_list cfg l).1 = Outcome.fault f) : f = Fault.assert_unit_null := by
  induction l with
  | nil => simp [finalize_list] at h
  | cons a l ih =>
    by_cases ha : a.unit = cfg.ABT_UNIT_NULL
    · simp only [finalize_list, ha, if_true] at h
      exact ih h
    · simp only [finalize_list, ha, if_false, Outcome.fault.injEq] at h
      exact h.symm

theorem finalize_buckets_ret_iff (cfg : Config) (g : ABTI_global) (bs : List Nat) :
    (finalize_buckets cfg g bs).1 = Outcome.ret () ↔
      ∀ i ∈ bs, (g.unit_to_thread_entires i).lock = false ∧
        ∀ e ∈ (g.unit_to_thread_entires i).list, e.unit = cfg.ABT_UNIT_NULL := by
  induction bs with
  | nil => simp [finalize_buckets]
  | cons i bs ih =>
    cases hlock : (g.unit_to_thread_entires i).lock with
    | true => simp [finalize_buckets, ABTD_spinlock_is_locked, hlock]
    | false =>
      have hiff := finalize_list_ret_iff cfg (g.unit_to_thread_entires i).list
      rcases hfl : finalize_list cfg (g.unit_to_thread_entires i).list with ⟨o, fr⟩
      cases o with
      | ret v =>
        rw [hfl] at hiff
        have hall := hiff.1 rfl
        simp only [finalize_buckets, ABTD_spinlock_is_locked, hlock, hfl,
          List.mem_cons, forall_eq_or_imp]
        simp only [Bool.false_eq_true, if_false]
        constructor
        · intro h
          exact ⟨⟨trivial, hall⟩, ih.1 h⟩
        · intro h
          exact ih.2 h.2
      | fault f =>
        rw [hfl] at hiff
        have hnot : ¬ ∀ e ∈ (g.unit_to_thread_entires i).list, e.unit = cfg.ABT_UNIT_NULL := by
          intro hh
          have := hiff.2 hh
          simp at this
        simp only [finalize_buckets, ABTD_spinlock_is_locked, hlock, hfl,
          List.mem_cons, forall_eq_or_imp]
        simp only [Bool.false_eq_true, if_false]
        constructor
        · intro h
          simp at h
        · intro h
          exact absurd h.1.2 hnot

theorem finalize_buckets_freed_of_ret (cfg : Config) (g : ABTI_global) (bs : List Nat)
    (h : (finalize_buckets cfg g bs).1 = Outcome.ret ()) :
    (finalize_buckets cfg g bs).2 =
      bs.flatMap (fun i => (g.unit_to_thread_entires i).list) := by
  induction bs with
  | nil => simp [finalize_buckets]
  | cons i bs ih =>
    cases hlock : (g.unit_to_thread_entires i).lock with
    | true => simp [finalize_buckets, ABTD_spinlock_is_locked, hlock] at h
    | false =>
      have hfr := finalize_list_freed_of_ret cfg (g.unit_to_thread_entires i).list
      rcases hfl : finalize_list cfg (g.unit_to_thread_entires i).list with ⟨o, fr⟩
      cases o with
      | ret v =>
        rw [hfl] at hfr
        simp only [finalize_buckets, ABTD_spinlock_is_locked, hlock, hfl,
          Bool.false_eq_true, if_false] at h ⊢
        rw [ih h, List.flatMap_cons]
        have : fr = (g.unit_to_thread_entires i).list := hfr rfl
        rw [this]
      | fault f =>
        simp [finalize_buckets, ABTD_spinlock_is_locked, hlock, hfl] at h

theorem finalize_buckets_freed_null (cfg : Config) (g : ABTI_global) (bs : List Nat) :
    ∀ e ∈ (finalize_buckets cfg g bs).2, e.unit = cfg.ABT_UNIT_NULL := by
  induction bs with
  | nil => simp [finalize_buckets]
  | cons i bs ih =>
    cases hlock : (g.unit_to_thread_entires i).lock with
    | true => simp [finalize_buckets, ABTD_spinlock_is_locked, hlock]
    | false =>
      have hn := finalize_list_freed_null cfg (g.unit_to_thread_entires i).list
      rcases hfl : finalize_list cfg (g.unit_to_thread_entires i).list with ⟨o, fr⟩
      rw [hfl] at hn
      cases o with
      | ret v =>
        intro e he
        simp only [finalize_buckets, ABTD_spinlock_is_locked, hlock, hfl,
          Bool.false_eq_true, if_false, List.mem_append] at he
        rcases he with he | he
        · exact hn e he
        · exact ih e he
      | fault f =>
        intro e he
        simp only [finalize_buckets, ABTD_spinlock_is_locked, hlock, hfl,
          Bool.false_eq_true, if_false] at he
        exact hn e he

theorem finalize_buckets_fault (cfg : Config) (g : ABTI_global) (bs : List Nat) (f : Fault)
    (h : (finalize_buckets cfg g bs).1 = Outcome.fault f) :
    f = Fault.assert_lock_free ∨ f = Fault.assert_unit_null := by
  induction bs with
  | nil => simp [finalize_buckets] at h
  | cons i bs ih =>
    cases hlock : (g.unit_to_thread_entires i).lock with
    | true =>
      simp only [finalize_buckets, ABTD_spinlock_is_locked, hlock, if_true,
        Outcome.fault.injEq] at h
      exact Or.inl h.symm
    | false =>
      have hf := finalize_list_fault cfg (g.unit_to_thread_entires i).list
      rcases hfl : finalize_list cfg (g.unit_to_thread_entires i).list with ⟨o, fr⟩
      rw [hfl] at hf
      cases o with
      | ret v =>
        simp only [finalize_buckets, ABTD_spinlock_is_locked, hlock, hfl,
          Bool.false_eq_true, if_false] at h
        exact ih h
      | fault f1 =>
        simp only [finalize_buckets, ABTD_spinlock_is_locked, hlock, hfl,
          Bool.false_eq_true, if_false, Outcome.fault.injEq] at h
        exact Or.inr (h ▸ hf f1 rfl)

/-- When teardown stops, either a visited bucket has its lock held or the
assertion on the handle failed. -/
theorem finalize_buckets_fault_lock (cfg : Config) (g : ABTI_global) (bs : List Nat)
    (f : Fault) (h : (finalize_buckets cfg g bs).1 = Outcome.fault f) :
    (∃ j ∈ bs, (g.unit_to_thread_entires j).lock = true) ∨ f = Fault.assert_unit_null := by
  induction bs with
  | nil => simp [finalize_buckets] at h
  | cons i bs ih =>
    cases hlock : (g.unit_to_thread_entires i).lock with
    | true => exact Or.inl ⟨i, List.mem_cons_self _ _, hlock⟩
    | false =>
      have hf := finalize_list_fault cfg (g.unit_to_thread_entires i).list
      rcases hfl : finalize_list cfg (g.unit_to_thread_entires i).list with ⟨o, fr⟩
      rw [hfl] at hf
      cases o with
      | ret v =>
        simp only [finalize_buckets, ABTD_spinlock_is_locked, hlock, hfl,
          Bool.false_eq_true, if_false] at h
        rcases ih h with ⟨j, hj, hjl⟩ | hnull
        · exact Or.inl ⟨j, List.mem_cons_of_mem _ hj, hjl⟩
        · exact Or.inr hnull
      | fault f1 =>
        simp only [finalize_buckets, ABTD_spinlock_is_locked, hlock, hfl,
          Bool.false_eq_true, if_false, Outcome.fault.injEq] at h
        exact Or.inr (h ▸ hf f1 rfl)

/-! ## Initialisation -/

theorem foldl_set_entry_empty (bs : List Nat) :
    ∀ (g : ABTI_global) (b : Nat),
      ((bs.foldl (fun g i => g.set_entry i ⟨[], ABTD_spinlock_clear⟩) g).unit_to_thread_entires b) =
        if b ∈ bs then ⟨[], false⟩ else g.unit_to_thread_entires b := by
  induction bs with
  | nil => intro g b; simp
  | cons i bs ih =>
    intro g b
    rw [List.foldl_cons, ih]
    by_cases hb : b ∈ bs
    · simp [hb]
    · by_cases hi : b = i
      · subst hi
        simp [hb, ABTD_spinlock_clear]
      · simp [hb, hi, set_entry_other _ _ _ _ hi]

/-- After `unit_init_hash_table` every bucket of the table is empty and its lock
is free. -/
theorem unit_init_hash_table_entry (cfg : Config) (g : ABTI_global) (b : Nat)
    (hb : b < ABTI_UNIT_HASH_TABLE_SIZE cfg) :
    (unit_init_hash_table cfg g).unit_to_thread_entires b = ⟨[], false⟩ := by
  unfold unit_init_hash_table
  rw [foldl_set_entry_empty]
  simp [hb]

/-! ## The three ways map ends, and the two ways unmap returns or stops -/

theorem unit_map_thread_builtin (cfg : Config) (m : ABTU_malloc_result) (g : ABTI_global)
    (h t : Nat) (hb : cfg.ABTI_unit_is_builtin h = true) :
    unit_map_thread cfg m g h t = ⟨Outcome.fault Fault.assert_not_builtin, g, 0⟩ := by
  simp [unit_map_thread, hb]

theorem unit_map_thread_reuse (cfg : Config) (m : ABTU_malloc_result) (g : ABTI_global)
    (h t : Nat) (l1 : List unit_to_thread) (hb : cfg.ABTI_unit_is_builtin h = false)
    (hs : map_scan cfg h t
      (g.unit_to_thread_entires (unit_get_hash_index cfg h)).list = some l1) :
    unit_map_thread cfg m g h t =
      ⟨Outcome.ret ABT_SUCCESS, g.set_entry (unit_get_hash_index cfg h) ⟨l1, false⟩, 0⟩ := by
  simp [unit_map_thread, hb, hs, ABTD_spinlock_release]

theorem unit_map_thread_alloc_fail (cfg : Config) (m : ABTU_malloc_result) (g : ABTI_global)
    (h t : Nat) (hb : cfg.ABTI_unit_is_builtin h = false)
    (hs : map_scan cfg h t
      (g.unit_to_thread_entires (unit_get_hash_index cfg h)).list = none)
    (hm : m.ret ≠ ABT_SUCCESS) :
    unit_map_thread cfg m g h t =
      ⟨Outcome.ret m.ret, g.set_entry (unit_get_hash_index cfg h)
        ⟨(g.unit_to_thread_entires (unit_get_hash_index cfg h)).list, false⟩, 1⟩ := by
  simp [unit_map_thread, hb, hs, hm, ABTD_spinlock_release]

theorem unit_map_thread_alloc_ok (cfg : Config) (m : ABTU_malloc_result) (g : ABTI_global)
    (h t : Nat) (hb : cfg.ABTI_unit_is_builtin h = false)
    (hs : map_scan cfg h t
      (g.unit_to_thread_entires (unit_get_hash_index cfg h)).list = none)
    (hm : m.ret = ABT_SUCCESS) :
    unit_map_thread cfg m g h t =
      ⟨Outcome.ret ABT_SUCCESS, g.set_entry (unit_get_hash_index cfg h)
        ⟨⟨m.p_new, h, t⟩ :: (g.unit_to_thread_entires (unit_get_hash_index cfg h)).list,
          false⟩, 1⟩ := by
  simp [unit_map_thread, hb, hs, hm, ABTD_spinlock_release]

/-- A call of map that returns was made on a handle that is not built-in. -/
theorem unit_map_thread_ret_not_builtin (cfg : Config) (m : ABTU_malloc_result)
    (g : ABTI_global) (h t : Nat) (c : Int)
    (hr : (unit_map_thread cfg m g h t).out = Outcome.ret c) :
    cfg.ABTI_unit_is_builtin h = false := by
  cases hb : cfg.ABTI_unit_is_builtin h with
  | false => rfl
  | true => simp [unit_map_thread_builtin cfg m g h t hb] at hr

theorem unit_unmap_thread_builtin (cfg : Config) (g : ABTI_global) (h : Nat)
    (hb : cfg.ABTI_unit_is_builtin h = true) :
    unit_unmap_thread cfg g h = (Outcome.fault Fault.assert_not_builtin, g) := by
  simp [unit_unmap_thread, hb]

theorem unit_unmap_thread_found (cfg : Config) (g : ABTI_global) (h : Nat)
    (a : unit_to_thread) (l l1 : List unit_to_thread)
    (hb : cfg.ABTI_unit_is_builtin h = false)
    (hl : (g.unit_to_thread_entires (unit_get_hash_index cfg h)).list = a :: l)
    (hs : unmap_scan cfg h a l = some l1) :
    unit_unmap_thread cfg g h =
      (Outcome.ret (), g.set_entry (unit_get_hash_index cfg h) ⟨l1, false⟩) := by
  simp [unit_unmap_thread, hb, hl, hs, ABTD_spinlock_release]

/-- A call of unmap that returns was made on a handle that is not built-in and
found a node: the bucket list is `a :: l` and the scan stored into it. -/
theorem unit_unmap_thread_ret (cfg : Config) (g : ABTI_global) (h : Nat)
    (hr : (unit_unmap_thread cfg g h).1 = Outcome.ret ()) :
    cfg.ABTI_unit_is_builtin h = false ∧
    ∃ a l l1, (g.unit_to_thread_entires (unit_get_hash_index cfg h)).list = a :: l ∧
      unmap_scan cfg h a l = some l1 ∧
      (unit_unmap_thread cfg g h).2 =
        g.set_entry (unit_get_hash_index cfg h) ⟨l1, false⟩ := by
  cases hb : cfg.ABTI_unit_is_builtin h with
  | true => simp [unit_unmap_thread_builtin cfg g h hb] at hr
  | false =>
    refine ⟨rfl, ?_⟩
    cases hl : (g.unit_to_thread_entires (unit_get_hash_index cfg h)).list with
    | nil => simp [unit_unmap_thread, hb, hl] at hr
    | cons a l =>
      cases hs : unmap_scan cfg h a l with
      | none => simp [unit_unmap_thread, hb, hl, hs] at hr
      | some l1 =>
        exact ⟨a, l, l1, rfl, hs, by rw [unit_unmap_thread_found cfg g h a l l1 hb hl hs]⟩

/-! ## Lookup of a handle across calls on other handles -/

theorem find_holds_map_scan_other (cfg : Config) (h u t : Nat) (l l1 : List unit_to_thread)
    (hn : h ≠ cfg.ABT_UNIT_NULL) (hu : u ≠ h) (hs : map_scan cfg u t l = some l1) :
    l1.find? (fun e => decide (e.unit = h)) = l.find? (fun e => decide (e.unit = h)) := by
  obtain ⟨pre, e, post, rfl, _, he, rfl⟩ := map_scan_eq_some cfg u t l l1 hs
  have h1 : ¬ e.unit = h := fun hh => hn (hh ▸ he)
  simp [List.find?_append, List.find?_cons, h1, hu]

theorem find_holds_map_scan_self (cfg : Config) (h t : Nat) (l l1 : List unit_to_thread)
    (hfree : ∀ e ∈ l, e.unit ≠ h) (hs : map_scan cfg h t l = some l1) :
    (l1.find? (fun e => decide (e.unit = h))).map (fun e => e.p_thread) = some t := by
  obtain ⟨pre, e, post, rfl, _, _, rfl⟩ := map_scan_eq_some cfg h t l l1 hs
  have hpre : pre.find? (fun e => decide (e.unit = h)) = none := by
    rw [List.find?_eq_none]
    intro x hx
    simpa using hfree x (List.mem_append_left _ hx)
  simp [List.find?_append, List.find?_cons, hpre]

theorem find_holds_unmap_scan_other (cfg : Config) (h u : Nat) (a : unit_to_thread)
    (l l1 : List unit_to_thread) (hn : h ≠ cfg.ABT_UNIT_NULL) (hu : u ≠ h)
    (hs : unmap_scan cfg u a l = some l1) :
    l1.find? (fun e => decide (e.unit = h)) =
      (a :: l).find? (fun e => decide (e.unit = h)) := by
  obtain ⟨pre, e, post, hl, _, he, rfl⟩ := unmap_scan_eq_some cfg u a l l1 hs
  rw [hl]
  have h1 : ¬ e.unit = h := fun hh => hu (he ▸ hh)
  have h2 : ¬ cfg.ABT_UNIT_NULL = h := fun hh => hn hh.symm
  simp [List.find?_append, List.find?_cons, h1, h2]

/-- The table after a call of map that returns, bucket by bucket. -/
theorem unit_map_thread_ret_global (cfg : Config) (m : ABTU_malloc_result)
    (g : ABTI_global) (u t : Nat) (c : Int)
    (hr : (unit_map_thread cfg m g u t).out = Outcome.ret c) :
    ∃ l1, (unit_map_thread cfg m g u t).global =
        g.set_entry (unit_get_hash_index cfg u) ⟨l1, false⟩ ∧
      (map_scan cfg u t (g.unit_to_thread_entires (unit_get_hash_index cfg u)).list = some l1 ∨
        l1 = (g.unit_to_thread_entires (unit_get_hash_index cfg u)).list ∨
        (l1 = ⟨m.p_new, u, t⟩ ::
            (g.unit_to_thread_entires (unit_get_hash_index cfg u)).list ∧
          c = ABT_SUCCESS ∧
          ∀ e ∈ (g.unit_to_thread_entires (unit_get_hash_index cfg u)).list,
            e.unit ≠ cfg.ABT_UNIT_NULL)) := by
  have hb := unit_map_thread_ret_not_builtin cfg m g u t c hr
  cases hs : map_scan cfg u t (g.unit_to_thread_entires (unit_get_hash_index cfg u)).list with
  | some l1 =>
    exact ⟨l1, by rw [unit_map_thread_reuse cfg m g u t l1 hb hs], Or.inl rfl⟩
  | none =>
    by_cases hm : m.ret = ABT_SUCCESS
    · rw [unit_map_thread_alloc_ok cfg m g u t hb hs hm] at hr ⊢
      simp only [Outcome.ret.injEq] at hr
      exact ⟨_, rfl, Or.inr (Or.inr ⟨rfl, hr.symm, (map_scan_eq_none cfg u t _).1 hs⟩)⟩
    · rw [unit_map_thread_alloc_fail cfg m g u t hb hs hm]
      exact ⟨_, rfl, Or.inr (Or.inl rfl)⟩

theorem step_map_eq (cfg : Config) (g g1 : ABTI_global) (u t : Nat) (m : ABTU_malloc_result)
    (hs : step cfg g (Call.map u t m) = some g1) :
    (∃ c, (unit_map_thread cfg m g u t).out = Outcome.ret c) ∧
      g1 = (unit_map_thread cfg m g u t).global := by
  simp only [step] at hs
  cases ho : (unit_map_thread cfg m g u t).out with
  | ret c =>
    rw [ho] at hs
    simp only [Option.some.injEq] at hs
    exact ⟨⟨c, rfl⟩, hs.symm⟩
  | fault f =>
    rw [ho] at hs
    simp at hs

theorem step_unmap_eq (cfg : Config) (g g1 : ABTI_global) (u : Nat)
    (hs : step cfg g (Call.unmap u) = some g1) :
    (unit_unmap_thread cfg g u).1 = Outcome.ret () ∧ g1 = (unit_unmap_thread cfg g u).2 := by
  simp only [step] at hs
  cases ho : (unit_unmap_thread cfg g u).1 with
  | ret c =>
    rw [ho] at hs
    simp only [Option.some.injEq] at hs
    exact ⟨rfl, hs.symm⟩
  | fault f =>
    rw [ho] at hs
    simp at hs

/-- A call on another handle leaves, in every bucket, the first entry that holds
`h` as it was. -/
theorem step_find_holds (cfg : Config) (g g1 : ABTI_global) (c : Call) (h : Nat)
    (hn : h ≠ cfg.ABT_UNIT_NULL) (hc : c.unit ≠ h) (hs : step cfg g c = some g1) (b : Nat) :
    (g1.unit_to_thread_entires b).list.find? (fun e => decide (e.unit = h)) =
      (g.unit_to_thread_entires b).list.find? (fun e => decide (e.unit = h)) := by
  cases c with
  | map u t m =>
    obtain ⟨⟨c, hr⟩, rfl⟩ := step_map_eq cfg g g1 u t m hs
    have hu : u ≠ h := hc
    obtain ⟨l1, hg, hcase⟩ := unit_map_thread_ret_global cfg m g u t c hr
    rw [hg]
    by_cases hbk : b = unit_get_hash_index cfg u
    · subst hbk
      rw [set_entry_same]
      rcases hcase with hscan | rfl | ⟨rfl, _, _⟩
      · exact find_holds_map_scan_other cfg h u t _ l1 hn hu hscan
      · rfl
      · simp [List.find?_cons, hu]
    · rw [set_entry_other _ _ _ _ hbk]
  | unmap u =>
    obtain ⟨hr, rfl⟩ := step_unmap_eq cfg g g1 u hs
    have hu : u ≠ h := hc
    obtain ⟨_, a, l, l1, hl, hscan, hg⟩ := unit_unmap_thread_ret cfg g u hr
    rw [hg]
    by_cases hbk : b = unit_get_hash_index cfg u
    · subst hbk
      rw [set_entry_same, hl]
      exact find_holds_unmap_scan_other cfg h u a l l1 hn hu hscan
    · rw [set_entry_other _ _ _ _ hbk]

theorem run_find_holds (cfg : Config) (h : Nat) (hn : h ≠ cfg.ABT_UNIT_NULL)
    (calls : List Call) :
    ∀ (g g1 : ABTI_global), (∀ c ∈ calls, c.unit ≠ h) → run cfg g calls = some g1 →
      ∀ b, (g1.unit_to_thread_entires b).list.find? (fun e => decide (e.unit = h)) =
        (g.unit_to_thread_entires b).list.find? (fun e => decide (e.unit = h)) := by
  induction calls with
  | nil =>
    intro g g1 _ hr b
    simp only [run, Option.some.injEq] at hr
    rw [hr]
  | cons c cs ih =>
    intro g g1 hc hr b
    simp only [run] at hr
    cases hs : step cfg g c with
    | none => simp [hs] at hr
    | some g2 =>
      rw [hs] at hr
      simp only [Option.some_bind] at hr
      rw [ih g2 g1 (fun x hx => hc x (List.mem_cons_of_mem _ hx)) hr b]
      exact step_find_holds cfg g g2 c h hn (hc c (List.mem_cons_self _ _)) hs b

/-- Right after a call of map that returns `ABT_SUCCESS` on a handle held by no
entry of its bucket, looking the handle up yields the thread of the call. -/
theorem lookup_unit_map_thread (cfg : Config) (m : ABTU_malloc_result) (g : ABTI_global)
    (h t : Nat)
    (hfree : ∀ e ∈ (g.unit_to_thread_entires (unit_get_hash_index cfg h)).list, e.unit ≠ h)
    (hmap : (unit_map_thread cfg m g h t).out = Outcome.ret ABT_SUCCESS) :
    lookup cfg (unit_map_thread cfg m g h t).global h = some t := by
  have hb := unit_map_thread_ret_not_builtin cfg m g h t _ hmap
  unfold lookup
  cases hs : map_scan cfg h t (g.unit_to_thread_entires (unit_get_hash_index cfg h)).list with
  | some l1 =>
    rw [unit_map_thread_reuse cfg m g h t l1 hb hs]
    simp only [set_entry_same]
    exact find_holds_map_scan_self cfg h t _ l1 hfree hs
  | none =>
    by_cases hm : m.ret = ABT_SUCCESS
    · rw [unit_map_thread_alloc_ok cfg m g h t hb hs hm]
      simp [List.find?_cons]
    · rw [unit_map_thread_alloc_fail cfg m g h t hb hs hm] at hmap
      simp only [Outcome.ret.injEq] at hmap
      exact absurd hmap hm

/-! ## Which call wrote a node -/

theorem getElem?_append_cons_change {α : Type} (A B : List α) (x y : α) (i : Nat) :
    (A ++ y :: B)[i]? = (A ++ x :: B)[i]? ∨
      ((A ++ x :: B)[i]? = some x ∧ (A ++ y :: B)[i]? = some y) := by
  induction A generalizing i with
  | nil =>
    cases i with
    | zero => exact Or.inr ⟨by simp, by simp⟩
    | succ n => exact Or.inl (by simp)
  | cons a A ih =>
    cases i with
    | zero => exact Or.inl (by simp)
    | succ n => simpa using ih n

theorem getElem?_concat_new {α : Type} (A : List α) (x : α) (i : Nat) :
    (A ++ [x])[i]? = A[i]? ∨ ((A ++ [x])[i]? = some x ∧ A[i]? = none) := by
  induction A generalizing i with
  | nil =>
    cases i with
    | zero => exact Or.inr ⟨by simp, by simp⟩
    | succ n => exact Or.inl (by simp)
  | cons a A ih =>
    cases i with
    | zero => exact Or.inl (by simp)
    | succ n => simpa using ih n

theorem run_append (cfg : Config) (a b : List Call) :
    ∀ g, run cfg g (a ++ b) = (run cfg g a).bind (fun g1 => run cfg g1 b) := by
  induction a with
  | nil => intro g; simp [run]
  | cons c cs ih =>
    intro g
    simp only [List.cons_append, run]
    cases step cfg g c with
    | none => simp
    | some g2 => simp [ih g2]

/-- One call that returns leaves a node as it was, or it is a call of map that
returned `ABT_SUCCESS` and wrote its handle and its thread into the node, or it
stored the sentinel into the node. -/
theorem step_node_at (cfg : Config) (g g1 : ABTI_global) (c : Call) (b i : Nat)
    (hs : step cfg g c = some g1) :
    node_at g1 b i = node_at g b i ∨
      ∃ e1, node_at g1 b i = some e1 ∧ node_at g b i ≠ some e1 ∧
        ((∃ u t m, c = Call.map u t m ∧
            (unit_map_thread cfg m g u t).out = Outcome.ret ABT_SUCCESS ∧
            e1.unit = u ∧ e1.p_thread = t) ∨
          e1.unit = cfg.ABT_UNIT_NULL) := by
  cases c with
  | map u t m =>
    obtain ⟨⟨c, hr⟩, rfl⟩ := step_map_eq cfg g g1 u t m hs
    have hb := unit_map_thread_ret_not_builtin cfg m g u t c hr
    obtain ⟨l1, hg, hcase⟩ := unit_map_thread_ret_global cfg m g u t c hr
    unfold node_at
    rw [hg]
    by_cases hbk : b = unit_get_hash_index cfg u
    · subst hbk
      rw [set_entry_same]
      rcases hcase with hscan | rfl | ⟨rfl, hc, _⟩
      · obtain ⟨pre, e, post, hl, _, _, rfl⟩ := map_scan_eq_some cfg u t _ l1 hscan
        have hsucc : (unit_map_thread cfg m g u t).out = Outcome.ret ABT_SUCCESS := by
          rw [unit_map_thread_reuse cfg m g u t _ hb hscan]
        rw [hl]
        simp only [List.reverse_append, List.reverse_cons, List.append_assoc,
          List.singleton_append]
        rcases getElem?_append_cons_change post.reverse pre.reverse e ⟨e.addr, u, t⟩ i with
          heq | ⟨hold, hnew⟩
        · exact Or.inl heq
        · by_cases hsame : e = ⟨e.addr, u, t⟩
          · left
            rw [hold, hnew, ← hsame]
          · right
            refine ⟨_, hnew, ?_, Or.inl ⟨u, t, m, rfl, hsucc, rfl, rfl⟩⟩
            rw [hold]
            intro hh
            exact hsame (Option.some.inj hh)
      · exact Or.inl rfl
      · subst hc
        simp only [List.reverse_cons]
        rcases getElem?_concat_new
          (g.unit_to_thread_entires (unit_get_hash_index cfg u)).list.reverse
          ⟨m.p_new, u, t⟩ i with heq | ⟨hnew, hold⟩
        · exact Or.inl heq
        · right
          refine ⟨_, hnew, ?_, Or.inl ⟨u, t, m, rfl, hr, rfl, rfl⟩⟩
          rw [hold]
          simp
    · rw [set_entry_other _ _ _ _ hbk]
      exact Or.inl rfl
  | unmap u =>
    obtain ⟨hr, rfl⟩ := step_unmap_eq cfg g g1 u hs
    obtain ⟨_, a, l, l1, hl, hscan, hg⟩ := unit_unmap_thread_ret cfg g u hr
    unfold node_at
    rw [hg]
    by_cases hbk : b = unit_get_hash_index cfg u
    · subst hbk
      rw [set_entry_same, hl]
      obtain ⟨pre, e, post, hdec, _, _, rfl⟩ := unmap_scan_eq_some cfg u a l l1 hscan
      rw [hdec]
      simp only [List.reverse_append, List.reverse_cons, List.append_assoc,
        List.singleton_append]
      rcases getElem?_append_cons_change post.reverse pre.reverse e
        ⟨e.addr, cfg.ABT_UNIT_NULL, e.p_thread⟩ i with heq | ⟨hold, hnew⟩
      · exact Or.inl heq
      · by_cases hsame : e = ⟨e.addr, cfg.ABT_UNIT_NULL, e.p_thread⟩
        · left
          rw [hold, hnew, ← hsame]
        · right
          refine ⟨_, hnew, ?_, Or.inr rfl⟩
          rw [hold]
          intro hh
          exact hsame (Option.some.inj hh)
    · rw [set_entry_other _ _ _ _ hbk]
      exact Or.inl rfl

/-- From a state in which the node at position `i` of bucket `b` is absent or
recycled: whenever, after a sequence of calls that return, that node holds a
live handle, the sequence splits around a call of map that returned
`ABT_SUCCESS`, wrote the handle and the thread the node now carries, and after
which the node stayed the same in every later state. -/
theorem live_node_history (cfg : Config) (s0 : ABTI_global) (b i : Nat)
    (h0 : ∀ e0, node_at s0 b i = some e0 → e0.unit = cfg.ABT_UNIT_NULL)
    (calls : List Call) :
    ∀ (g : ABTI_global) (e : unit_to_thread), run cfg s0 calls = some g →
      node_at g b i = some e → e.unit ≠ cfg.ABT_UNIT_NULL →
      ∃ pre u t m post g1,
        calls = pre ++ Call.map u t m :: post ∧ e.unit = u ∧ e.p_thread = t ∧
        run cfg s0 pre = some g1 ∧
        (unit_map_thread cfg m g1 u t).out = Outcome.ret ABT_SUCCESS ∧
        node_at g1 b i ≠ some e ∧
        ∀ q, q <+: post →
          ∃ gq, run cfg (unit_map_thread cfg m g1 u t).global q = some gq ∧
            node_at gq b i = some e := by
  induction calls using List.reverseRecOn with
  | nil =>
    intro g e hrun hnode hlive
    simp only [run, Option.some.injEq] at hrun
    subst hrun
    exact absurd (h0 e hnode) hlive
  | append_singleton cs c ih =>
    intro g e hrun hnode hlive
    rw [run_append] at hrun
    cases hcs : run cfg s0 cs with
    | none => simp [hcs] at hrun
    | some g0 =>
      rw [hcs] at hrun
      simp only [Option.some_bind, run] at hrun
      cases hst : step cfg g0 c with
      | none => simp [hst] at hrun
      | some g9 =>
        rw [hst] at hrun
        simp only [Option.some_bind, Option.some.injEq] at hrun
        subst hrun
        rcases step_node_at cfg g0 g9 c b i hst with heq | ⟨e1, hnew, hold, hwho⟩
        · rw [heq] at hnode
          obtain ⟨pre, u, t, m, post, g1, hsplit, hu, ht, hpre, hsucc, hbefore, hafter⟩ :=
            ih g0 e hcs hnode hlive
          refine ⟨pre, u, t, m, post ++ [c], g1, by simp [hsplit], hu, ht, hpre, hsucc,
            hbefore, ?_⟩
          intro q hq
          rcases List.prefix_concat_iff.1 hq with rfl | hq
          · refine ⟨g9, ?_, by rw [heq]; exact hnode⟩
            have hfull : run cfg s0 (pre ++ Call.map u t m :: post) = some g0 := by
              rw [← hsplit]; exact hcs
            rw [run_append, hpre] at hfull
            simp only [Option.some_bind, run, step, hsucc] at hfull
            rw [run_append, hfull]
            simp [run, hst]
          · exact hafter q hq
        · rw [hnew] at hnode
          have he : e1 = e := Option.some.inj hnode
          subst he
          rcases hwho with ⟨u, t, m, rfl, hsucc, hu, ht⟩ | hnull
          · refine ⟨cs, u, t, m, [], g0, rfl, hu, ht, hcs, hsucc, hold, ?_⟩
            intro q hq
            have hq0 : q = [] := List.prefix_nil.1 hq
            subst hq0
            obtain ⟨_, hg9⟩ := step_map_eq cfg g0 g9 u t m hst
            exact ⟨g9, by simp [run, hg9], hnew⟩
          · exact absurd hnull hlive

/-! ## Frame of map and unmap, and the bucket of a live entry -/

/-- The table after `unit_map_thread`, however the call ends: the table before
with at most the bucket of the handle replaced. -/
theorem unit_map_thread_global (cfg : Config) (m : ABTU_malloc_result) (g : ABTI_global)
    (h t : Nat) :
    (unit_map_thread cfg m g h t).global = g ∨
      ∃ e, (unit_map_thread cfg m g h t).global =
        g.set_entry (unit_get_hash_index cfg h) e := by
  cases hb : cfg.ABTI_unit_is_builtin h with
  | true => exact Or.inl (by rw [unit_map_thread_builtin cfg m g h t hb])
  | false =>
    cases hs : map_scan cfg h t (g.unit_to_thread_entires (unit_get_hash_index cfg h)).list with
    | some l1 => exact Or.inr ⟨_, by rw [unit_map_thread_reuse cfg m g h t l1 hb hs]⟩
    | none =>
      by_cases hm : m.ret = ABT_SUCCESS
      · exact Or.inr ⟨_, by rw [unit_map_thread_alloc_ok cfg m g h t hb hs hm]⟩
      · exact Or.inr ⟨_, by rw [unit_map_thread_alloc_fail cfg m g h t hb hs hm]⟩

/-- The table when `unit_unmap_thread` ends, however it ends: the table before
with at most the bucket of the handle replaced. -/
theorem unit_unmap_thread_global (cfg : Config) (g : ABTI_global) (h : Nat) :
    (unit_unmap_thread cfg g h).2 = g ∨
      ∃ e, (unit_unmap_thread cfg g h).2 = g.set_entry (unit_get_hash_index cfg h) e := by
  cases hb : cfg.ABTI_unit_is_builtin h with
  | true => exact Or.inl (by rw [unit_unmap_thread_builtin cfg g h hb])
  | false =>
    cases hl : (g.unit_to_thread_entires (unit_get_hash_index cfg h)).list with
    | nil => exact Or.inr ⟨_, by simp only [unit_unmap_thread, hb, hl]; rfl⟩
    | cons a l =>
      cases hs : unmap_scan cfg h a l with
      | none => exact Or.inr ⟨_, by simp only [unit_unmap_thread, hb, hl, hs]; rfl⟩
      | some l1 => exact Or.inr ⟨_, by rw [unit_unmap_thread_found cfg g h a l l1 hb hl hs]⟩

theorem unit_map_thread_other_bucket (cfg : Config) (m : ABTU_malloc_result)
    (g : ABTI_global) (h t i : Nat) (hi : i ≠ unit_get_hash_index cfg h) :
    (unit_map_thread cfg m g h t).global.unit_to_thread_entires i =
      g.unit_to_thread_entires i := by
  rcases unit_map_thread_global cfg m g h t with hg | ⟨e, hg⟩
  · rw [hg]
  · rw [hg, set_entry_other _ _ _ _ hi]

theorem unit_unmap_thread_other_bucket (cfg : Config) (g : ABTI_global) (h i : Nat)
    (hi : i ≠ unit_get_hash_index cfg h) :
    (unit_unmap_thread cfg g h).2.unit_to_thread_entires i = g.unit_to_thread_entires i := by
  rcases unit_unmap_thread_global cfg g h with hg | ⟨e, hg⟩
  · rw [hg]
  · rw [hg, set_entry_other _ _ _ _ hi]

/-- The bucket index is below the table size. -/
theorem unit_get_hash_index_lt (cfg : Config) (unit : Nat) :
    unit_get_hash_index cfg unit < ABTI_UNIT_HASH_TABLE_SIZE cfg := by
  unfold unit_get_hash_index ABTI_UNIT_HASH_TABLE_SIZE
  simp only [Nat.and_pow_two_sub_one_eq_mod]
  exact Nat.mod_lt _ (Nat.two_pow_pos _)

/-- A call that returns keeps, in every bucket, the property that each entry
with a live handle sits in the bucket of that handle. -/
theorem step_live_in_bucket (cfg : Config) (g g1 : ABTI_global) (c : Call) (b : Nat)
    (hs : step cfg g c = some g1)
    (hinv : ∀ e ∈ (g.unit_to_thread_entires b).list, e.unit ≠ cfg.ABT_UNIT_NULL →
      unit_get_hash_index cfg e.unit = b) :
    ∀ e ∈ (g1.unit_to_thread_entires b).list, e.unit ≠ cfg.ABT_UNIT_NULL →
      unit_get_hash_index cfg e.unit = b := by
  cases c with
  | map u t m =>
    obtain ⟨⟨c, hr⟩, rfl⟩ := step_map_eq cfg g g1 u t m hs
    obtain ⟨l1, hg, hcase⟩ := unit_map_thread_ret_global cfg m g u t c hr
    rw [hg]
    by_cases hbk : b = unit_get_hash_index cfg u
    · subst hbk
      rw [set_entry_same]
      rcases hcase with hscan | rfl | ⟨rfl, _, _⟩
      · obtain ⟨pre, e0, post, hl, _, _, rfl⟩ := map_scan_eq_some cfg u t _ l1 hscan
        rw [hl] at hinv
        intro e he hlive
        simp only [List.mem_append, List.mem_cons] at he
        rcases he with he | rfl | he
        · exact hinv e (by simp [he]) hlive
        · rfl
        · exact hinv e (by simp [he]) hlive
      · exact hinv
      · intro e he hlive
        simp only [List.mem_cons] at he
        rcases he with rfl | he
        · rfl
        · exact hinv e he hlive
    · rw [set_entry_other _ _ _ _ hbk]
      exact hinv
  | unmap u =>
    obtain ⟨hr, rfl⟩ := step_unmap_eq cfg g g1 u hs
    obtain ⟨_, a, l, l1, hl, hscan, hg⟩ := unit_unmap_thread_ret cfg g u hr
    rw [hg]
    by_cases hbk : b = unit_get_hash_index cfg u
    · subst hbk
      rw [set_entry_same]
      obtain ⟨pre, e0, post, hdec, _, _, rfl⟩ := unmap_scan_eq_some cfg u a l l1 hscan
      rw [hl, hdec] at hinv
      intro e he hlive
      simp only [List.mem_append, List.mem_cons] at he
      rcases he with he | rfl | he
      · exact hinv e (by simp [he]) hlive
      · exact absurd rfl hlive
      · exact hinv e (by simp [he]) hlive
    · rw [set_entry_other _ _ _ _ hbk]
      exact hinv

theorem run_live_in_bucket (cfg : Config) (b : Nat) (calls : List Call) :
    ∀ (g g1 : ABTI_global), run cfg g calls = some g1 →
      (∀ e ∈ (g.unit_to_thread_entires b).list, e.unit ≠ cfg.ABT_UNIT_NULL →
        unit_get_hash_index cfg e.unit = b) →
      ∀ e ∈ (g1.unit_to_thread_entires b).list, e.unit ≠ cfg.ABT_UNIT_NULL →
        unit_get_hash_index cfg e.unit = b := by
  induction calls with
  | nil =>
    intro g g1 hr hinv
    simp only [run, Option.some.injEq] at hr
    rw [← hr]
    exact hinv
  | cons c cs ih =>
    intro g g1 hr hinv
    simp only [run] at hr
    cases hs : step cfg g c with
    | none => simp [hs] at hr
    | some g2 =>
      rw [hs] at hr
      simp only [Option.some_bind] at hr
      exact ih g2 g1 hr (step_live_in_bucket cfg g g2 c b hs hinv)

/-- The result of map is decided by the bucket of the handle alone. -/
theorem unit_map_thread_local (cfg : Config) (m : ABTU_malloc_result) (g g1 : ABTI_global)
    (h t : Nat)
    (hsame : g.unit_to_thread_entires (unit_get_hash_index cfg h) =
      g1.unit_to_thread_entires (unit_get_hash_index cfg h)) :
    (unit_map_thread cfg m g h t).out = (unit_map_thread cfg m g1 h t).out ∧
    (unit_map_thread cfg m g h t).mallocs = (unit_map_thread cfg m g1 h t).mallocs ∧
    (unit_map_thread cfg m g h t).global.unit_to_thread_entires (unit_get_hash_index cfg h) =
      (unit_map_thread cfg m g1 h t).global.unit_to_thread_entires
        (unit_get_hash_index cfg h) := by
  cases hb : cfg.ABTI_unit_is_builtin h with
  | true =>
    rw [unit_map_thread_builtin cfg m g h t hb, unit_map_thread_builtin cfg m g1 h t hb]
    exact ⟨rfl, rfl, hsame⟩
  | false =>
    cases hs : map_scan cfg h t (g.unit_to_thread_entires (unit_get_hash_index cfg h)).list with
    | some l1 =>
      have hs1 := hs
      rw [hsame] at hs1
      rw [unit_map_thread_reuse cfg m g h t l1 hb hs,
        unit_map_thread_reuse cfg m g1 h t l1 hb hs1]
      simp
    | none =>
      have hs1 := hs
      rw [hsame] at hs1
      by_cases hm : m.ret = ABT_SUCCESS
      · rw [unit_map_thread_alloc_ok cfg m g h t hb hs hm,
          unit_map_thread_alloc_ok cfg m g1 h t hb hs1 hm]
        simp [hsame]
      · rw [unit_map_thread_alloc_fail cfg m g h t hb hs hm,
          unit_map_thread_alloc_fail cfg m g1 h t hb hs1 hm]
        simp [hsame]

/-- The result of unmap is decided by the bucket of the handle alone. -/
theorem unit_unmap_thread_local (cfg : Config) (g g1 : ABTI_global) (h : Nat)
    (hsame : g.unit_to_thread_entires (unit_get_hash_index cfg h) =
      g1.unit_to_thread_entires (unit_get_hash_index cfg h)) :
    (unit_unmap_thread cfg g h).1 = (unit_unmap_thread cfg g1 h).1 ∧
    (unit_unmap_thread cfg g h).2.unit_to_thread_entires (unit_get_hash_index cfg h) =
      (unit_unmap_thread cfg g1 h).2.unit_to_thread_entires (unit_get_hash_index cfg h) := by
  cases hb : cfg.ABTI_unit_is_builtin h with
  | true =>
    rw [unit_unmap_thread_builtin cfg g h hb, unit_unmap_thread_builtin cfg g1 h hb]
    exact ⟨rfl, hsame⟩
  | false =>
    cases hl : (g.unit_to_thread_entires (unit_get_hash_index cfg h)).list with
    | nil =>
      have hl1 := hl
      rw [hsame] at hl1
      simp [unit_unmap_thread, hb, hl, hl1, ABTD_spinlock_acquire]
    | cons a l =>
      have hl1 := hl
      rw [hsame] at hl1
      cases hs : unmap_scan cfg h a l with
      | none => simp [unit_unmap_thread, hb, hl, hl1, hs, ABTD_spinlock_acquire]
      | some l1 =>
        rw [unit_unmap_thread_found cfg g h a l l1 hb hl hs,
          unit_unmap_thread_found cfg g1 h a l l1 hb hl1 hs]
        simp

/-! ## Word arithmetic -/

/-- Clearing the low `k` bits of a 64-bit word with the mask that `~(2 ^ k - 1)`
denotes rounds the word down to a multiple of `2 ^ k`. -/
theorem and_not_low_mask (x k : Nat) (hx : x < 2 ^ 64) (hk : k ≤ 64) :
    x &&& (2 ^ 64 - 1 - (2 ^ k - 1)) = x / 2 ^ k * 2 ^ k := by
  have hM : 2 ^ 64 - 1 - (2 ^ k - 1) = (2 ^ (64 - k) - 1) <<< k := by
    have h2 : 2 ^ (64 - k) * 2 ^ k = 2 ^ 64 := by
      rw [← pow_add]
      congr 1
      omega
    have h1 : 1 ≤ 2 ^ k := Nat.one_le_two_pow
    have h3 : 2 ^ k ≤ 2 ^ 64 := Nat.pow_le_pow_right (by norm_num) hk
    rw [Nat.shiftLeft_eq, Nat.sub_mul, h2, one_mul]
    omega
  rw [hM, ← Nat.shiftRight_eq_div_pow, ← Nat.shiftLeft_eq]
  apply Nat.eq_of_testBit_eq
  intro i
  rw [Nat.testBit_and, Nat.testBit_shiftLeft, Nat.testBit_shiftLeft, Nat.testBit_shiftRight,
    Nat.testBit_two_pow_sub_one]
  by_cases hik : i ≥ k
  · have hki : k + (i - k) = i := by omega
    rw [hki]
    by_cases hi : i < 64
    · have : i - k < 64 - k := by omega
      simp [hik, this]
    · have hxi : x.testBit i = false :=
        Nat.testBit_lt_two_pow
          (lt_of_lt_of_le hx (Nat.pow_le_pow_right (by norm_num) (by omega)))
      simp [hxi]
  · simp [hik]

/-- The bits `a` to `a + b - 1` of a number, read off its residue. -/
theorem div_mod_two_pow (x a b : Nat) : x / 2 ^ a % 2 ^ b = x % 2 ^ (a + b) / 2 ^ a := by
  rw [pow_add, Nat.mod_mul_right_div_self]

/-- A field of `E` bits starting at bit `s`, with `3 ≤ s` and `s + E ≤ 32`, is a
field of the 29 bits that start at bit 3. -/
theorem field_of_key (x s E : Nat) (hs : 3 ≤ s) (hE : s + E ≤ 32) :
    x / 2 ^ s % 2 ^ E = (x / 8 % 2 ^ 29) / 2 ^ (s - 3) % 2 ^ E := by
  have h8 : (8 : Nat) = 2 ^ 3 := by norm_num
  have hdvd : 2 ^ (s - 3 + E) ∣ 2 ^ 29 := Nat.pow_dvd_pow 2 (by omega)
  rw [div_mod_two_pow (x / 8 % 2 ^ 29) (s - 3) E, Nat.mod_mod_of_dvd _ hdvd,
    ← div_mod_two_pow, Nat.div_div_eq_div_mul, h8, ← pow_add]
  congr 3
  omega

/-- The same field read from the handle reduced to 64 bits. -/
theorem field_of_key_word (u s E : Nat) (hs : 3 ≤ s) (hE : s + E ≤ 32) :
    (u % 2 ^ 64) >>> s % 2 ^ E = (u / 8 % 2 ^ 29) / 2 ^ (s - 3) % 2 ^ E := by
  have h8 : (8 : Nat) = 2 ^ 3 := by norm_num
  have hkey : u % 2 ^ 64 / 8 % 2 ^ 29 = u / 8 % 2 ^ 29 := by
    rw [h8, div_mod_two_pow, div_mod_two_pow,
      Nat.mod_mod_of_dvd _ (Nat.pow_dvd_pow 2 (by norm_num : 3 + 29 ≤ 64))]
  rw [Nat.shiftRight_eq_div_pow, field_of_key _ s E hs hE, hkey]

/-- Two numbers that agree on the bits 3 to 31 have the same 29-bit key. -/
theorem key_eq_of_bits (u v : Nat)
    (hbits : ∀ i, 3 ≤ i → i ≤ 31 → u.testBit i = v.testBit i) :
    u / 8 % 2 ^ 29 = v / 8 % 2 ^ 29 := by
  have h8 : (8 : Nat) = 2 ^ 3 := by norm_num
  rw [h8, ← Nat.shiftRight_eq_div_pow, ← Nat.shiftRight_eq_div_pow]
  apply Nat.eq_of_testBit_eq
  intro i
  rw [Nat.testBit_mod_two_pow, Nat.testBit_mod_two_pow, Nat.testBit_shiftRight,
    Nat.testBit_shiftRight]
  by_cases hi : i < 29
  · rw [hbits (3 + i) (by omega) (by omega)]
  · simp [hi]

/-- The bucket index as a function of the 29-bit key, for a table exponent of
at most 29. -/
theorem unit_get_hash_index_of_key (cfg : Config) (u v : Nat)
    (hE : cfg.ABTI_UNIT_HASH_TABLE_SIZE_EXP ≤ 29)
    (hkey : u / 8 % 2 ^ 29 = v / 8 % 2 ^ 29) :
    unit_get_hash_index cfg u = unit_get_hash_index cfg v := by
  have hd : 2 ^ cfg.ABTI_UNIT_HASH_TABLE_SIZE_EXP ∣ 2 ^ 64 := Nat.pow_dvd_pow 2 (by omega)
  have e1 : ∀ x, x % 2 ^ 64 ≡ x [MOD 2 ^ cfg.ABTI_UNIT_HASH_TABLE_SIZE_EXP] :=
    fun x => Nat.mod_mod_of_dvd x hd
  have t0 : (u % 2 ^ 64) >>> 3 ≡ (v % 2 ^ 64) >>> 3
      [MOD 2 ^ cfg.ABTI_UNIT_HASH_TABLE_SIZE_EXP] := by
    unfold Nat.ModEq
    rw [field_of_key_word u 3 _ (by omega) (by omega),
      field_of_key_word v 3 _ (by omega) (by omega), hkey]
  unfold unit_get_hash_index ABTI_UNIT_HASH_TABLE_SIZE
  simp only [Nat.and_pow_two_sub_one_eq_mod]
  by_cases h14 : cfg.ABTI_UNIT_HASH_TABLE_SIZE_EXP ≤ 14
  · have t1 : (u % 2 ^ 64) >>> (cfg.ABTI_UNIT_HASH_TABLE_SIZE_EXP + 3) ≡
        (v % 2 ^ 64) >>> (cfg.ABTI_UNIT_HASH_TABLE_SIZE_EXP + 3)
        [MOD 2 ^ cfg.ABTI_UNIT_HASH_TABLE_SIZE_EXP] := by
      unfold Nat.ModEq
      rw [field_of_key_word u _ _ (by omega) (by omega),
        field_of_key_word v _ _ (by omega) (by omega), hkey]
    have s1 : ((u % 2 ^ 64) >>> 3 + (u % 2 ^ 64) >>> (cfg.ABTI_UNIT_HASH_TABLE_SIZE_EXP + 3)) %
          2 ^ 64 ≡
        ((v % 2 ^ 64) >>> 3 + (v % 2 ^ 64) >>> (cfg.ABTI_UNIT_HASH_TABLE_SIZE_EXP + 3)) %
          2 ^ 64 [MOD 2 ^ cfg.ABTI_UNIT_HASH_TABLE_SIZE_EXP] :=
      ((e1 _).trans (t0.add t1)).trans (e1 _).symm
    by_cases h9 : cfg.ABTI_UNIT_HASH_TABLE_SIZE_EXP ≤ 9
    · have t2 : (u % 2 ^ 64) >>> (cfg.ABTI_UNIT_HASH_TABLE_SIZE_EXP * 2 + 3) ≡
          (v % 2 ^ 64) >>> (cfg.ABTI_UNIT_HASH_TABLE_SIZE_EXP * 2 + 3)
          [MOD 2 ^ cfg.ABTI_UNIT_HASH_TABLE_SIZE_EXP] := by
        unfold Nat.ModEq
        rw [field_of_key_word u _ _ (by omega) (by omega),
          field_of_key_word v _ _ (by omega) (by omega), hkey]
      simp only [h14, h9, if_true]
      exact ((e1 _).trans (s1.add t2)).trans (e1 _).symm
    · simp only [h14, h9, if_true, if_false]
      exact s1
  · have h9 : ¬ cfg.ABTI_UNIT_HASH_TABLE_SIZE_EXP ≤ 9 := by omega
    simp only [h14, h9, if_false]
    exact t0

/-! ## Sequences that respect the contract -/

theorem filter_erase_of_pos (p : Nat → Bool) (a : Nat) (hp : p a = true) (l : List Nat) :
    (l.erase a).filter p = (l.filter p).erase a := by
  induction l with
  | nil => simp
  | cons x l ih =>
    by_cases hx : x = a
    · subst hx
      simp [hp]
    · have hxa : (x == a) = false := by simpa using hx
      rw [List.erase_cons, hxa]
      simp only [Bool.false_eq_true, if_false, List.filter_cons]
      by_cases hpx : p x = true
      · simp only [hpx, if_true]
        rw [List.erase_cons, hxa]
        simp [ih]
      · simp only [hpx, Bool.false_eq_true, if_false]
        exact ih

theorem filter_erase_of_neg (p : Nat → Bool) (a : Nat) (hp : p a = false) (l : List Nat) :
    (l.erase a).filter p = l.filter p := by
  induction l with
  | nil => simp
  | cons x l ih =>
    by_cases hx : x = a
    · subst hx
      simp [hp]
    · have hxa : (x == a) = false := by simpa using hx
      rw [List.erase_cons, hxa]
      simp only [Bool.false_eq_true, if_false, List.filter_cons, ih]

theorem live_units_append (cfg : Config) (l1 l2 : List unit_to_thread) :
    live_units cfg (l1 ++ l2) = live_units cfg l1 ++ live_units cfg l2 := by
  simp [live_units]

theorem live_units_cons_null (cfg : Config) (e : unit_to_thread) (l : List unit_to_thread)
    (he : e.unit = cfg.ABT_UNIT_NULL) : live_units cfg (e :: l) = live_units cfg l := by
  simp [live_units, he]

theorem live_units_cons_live (cfg : Config) (e : unit_to_thread) (l : List unit_to_thread)
    (he : e.unit ≠ cfg.ABT_UNIT_NULL) :
    live_units cfg (e :: l) = e.unit :: live_units cfg l := by
  simp [live_units, he]

theorem mem_live_units (cfg : Config) (l : List unit_to_thread) (u : Nat)
    (hu : u ∈ live_units cfg l) : u ≠ cfg.ABT_UNIT_NULL ∧ ∃ e ∈ l, e.unit = u := by
  simp only [live_units, List.mem_map, List.mem_filter, decide_eq_true_eq] at hu
  obtain ⟨e, ⟨he, hlive⟩, rfl⟩ := hu
  exact ⟨hlive, e, he, rfl⟩

theorem live_units_length_le (cfg : Config) (l : List unit_to_thread) :
    (live_units cfg l).length ≤ l.length := by
  simp only [live_units, List.length_map]
  exact List.length_filter_le _ _

/-- When no entry holds the sentinel, every entry is live. -/
theorem live_units_length_of_no_null (cfg : Config) (l : List unit_to_thread)
    (h : ∀ e ∈ l, e.unit ≠ cfg.ABT_UNIT_NULL) : (live_units cfg l).length = l.length := by
  simp only [live_units, List.length_map]
  rw [List.filter_eq_self.2]
  intro e he
  simpa using h e he

theorem step_of_step_success (cfg : Config) (g g1 : ABTI_global) (c : Call)
    (hs : step_success cfg g c = some g1) : step cfg g c = some g1 := by
  cases c with
  | map u t m =>
    simp only [step_success] at hs
    split at hs
    · rename_i hout
      simp only [Option.some.injEq] at hs
      simp [step, hout, hs]
    · simp at hs
  | unmap u =>
    simp only [step_success] at hs
    split at hs
    · rename_i hout
      simp only [Option.some.injEq] at hs
      simp [step, hout, hs]
    · simp at hs

theorem step_success_map (cfg : Config) (g g1 : ABTI_global) (u t : Nat)
    (m : ABTU_malloc_result) (hs : step_success cfg g (Call.map u t m) = some g1) :
    (unit_map_thread cfg m g u t).out = Outcome.ret ABT_SUCCESS ∧
      g1 = (unit_map_thread cfg m g u t).global := by
  simp only [step_success] at hs
  split at hs
  · rename_i hout
    simp only [Option.some.injEq] at hs
    exact ⟨hout, hs.symm⟩
  · simp at hs

/-- The possible shapes of the bucket of the handle after a successful map: an
in-place store into a sentinel entry, or a new entry linked at the head of a
list without sentinel entry. -/
theorem step_success_map_shape (cfg : Config) (g g1 : ABTI_global) (u t : Nat)
    (m : ABTU_malloc_result) (hs : step_success cfg g (Call.map u t m) = some g1) :
    (∀ i, i ≠ unit_get_hash_index cfg u →
      g1.unit_to_thread_entires i = g.unit_to_thread_entires i) ∧
    ((∃ pre e post,
        (g.unit_to_thread_entires (unit_get_hash_index cfg u)).list = pre ++ e :: post ∧
        e.unit = cfg.ABT_UNIT_NULL ∧
        (g1.unit_to_thread_entires (unit_get_hash_index cfg u)).list =
          pre ++ ⟨e.addr, u, t⟩ :: post) ∨
      ((∀ e ∈ (g.unit_to_thread_entires (unit_get_hash_index cfg u)).list,
          e.unit ≠ cfg.ABT_UNIT_NULL) ∧
        (g1.unit_to_thread_entires (unit_get_hash_index cfg u)).list =
          ⟨m.p_new, u, t⟩ ::
            (g.unit_to_thread_entires (unit_get_hash_index cfg u)).list)) := by
  obtain ⟨hout, rfl⟩ := step_success_map cfg g g1 u t m hs
  have hb := unit_map_thread_ret_not_builtin cfg m g u t _ hout
  refine ⟨fun i hi => unit_map_thread_other_bucket cfg m g u t i hi, ?_⟩
  cases hscan : map_scan cfg u t (g.unit_to_thread_entires (unit_get_hash_index cfg u)).list with
  | some l1 =>
    obtain ⟨pre, e, post, hl, _, he, rfl⟩ := map_scan_eq_some cfg u t _ l1 hscan
    left
    refine ⟨pre, e, post, hl, he, ?_⟩
    rw [unit_map_thread_reuse cfg m g u t _ hb hscan]
    simp
  | none =>
    right
    have hall := (map_scan_eq_none cfg u t _).1 hscan
    by_cases hm : m.ret = ABT_SUCCESS
    · refine ⟨hall, ?_⟩
      rw [unit_map_thread_alloc_ok cfg m g u t hb hscan hm]
      simp
    · rw [unit_map_thread_alloc_fail cfg m g u t hb hscan hm] at hout
      simp only [Outcome.ret.injEq] at hout
      exact absurd hout hm

/-- The shape of the bucket of the handle after a successful unmap: the
sentinel stored in place into the first entry that holds the handle. -/
theorem step_success_unmap_shape (cfg : Config) (g g1 : ABTI_global) (u : Nat)
    (hs : step_success cfg g (Call.unmap u) = some g1) :
    (∀ i, i ≠ unit_get_hash_index cfg u →
      g1.unit_to_thread_entires i = g.unit_to_thread_entires i) ∧
    ∃ pre e post,
      (g.unit_to_thread_entires (unit_get_hash_index cfg u)).list = pre ++ e :: post ∧
      (∀ x ∈ pre, x.unit ≠ u) ∧ e.unit = u ∧
      (g1.unit_to_thread_entires (unit_get_hash_index cfg u)).list =
        pre ++ ⟨e.addr, cfg.ABT_UNIT_NULL, e.p_thread⟩ :: post := by
  obtain ⟨hr, rfl⟩ := step_unmap_eq cfg g g1 u (step_of_step_success cfg g g1 _ hs)
  refine ⟨fun i hi => unit_unmap_thread_other_bucket cfg g u i hi, ?_⟩
  obtain ⟨_, a, l, l1, hl, hscan, hg⟩ := unit_unmap_thread_ret cfg g u hr
  obtain ⟨pre, e, post, hdec, hpre, he, rfl⟩ := unmap_scan_eq_some cfg u a l l1 hscan
  refine ⟨pre, e, post, by rw [hl, hdec], hpre, he, ?_⟩
  rw [hg]
  simp

/-- One successful call that respects the contract keeps, in every bucket, the
handles of the live entries a rearrangement of the live handles of the
bucket. -/
theorem step_success_live_units (cfg : Config) (g g1 : ABTI_global) (c : Call)
    (live : List Nat) (b : Nat) (hs : step_success cfg g c = some g1)
    (hc : respects cfg live [c] = true)
    (hinv : (live_units cfg (g.unit_to_thread_entires b).list).Perm
      (live.filter (fun u => decide (unit_get_hash_index cfg u = b)))) :
    (live_units cfg (g1.unit_to_thread_entires b).list).Perm
      ((live_step live c).filter (fun u => decide (unit_get_hash_index cfg u = b))) := by
  cases c with
  | map u t m =>
    simp only [respects, Bool.and_true, Bool.and_eq_true, decide_eq_true_eq] at hc
    obtain ⟨_, hnull⟩ := hc
    obtain ⟨hother, hshape⟩ := step_success_map_shape cfg g g1 u t m hs
    by_cases hbk : b = unit_get_hash_index cfg u
    · subst hbk
      have hfil : (live_step live (Call.map u t m)).filter
          (fun v => decide (unit_get_hash_index cfg v = unit_get_hash_index cfg u)) =
          u :: live.filter
            (fun v => decide (unit_get_hash_index cfg v = unit_get_hash_index cfg u)) := by
        simp [live_step]
      rw [hfil]
      rcases hshape with ⟨pre, e, post, hl, he, hl1⟩ | ⟨_, hl1⟩
      · rw [hl1, live_units_append, live_units_cons_live cfg _ _ hnull]
        rw [hl, live_units_append, live_units_cons_null cfg _ _ he] at hinv
        exact List.perm_middle.trans (hinv.cons u)
      · rw [hl1, live_units_cons_live cfg _ _ hnull]
        exact hinv.cons u
    · rw [hother b hbk]
      have hfil : (live_step live (Call.map u t m)).filter
          (fun v => decide (unit_get_hash_index cfg v = b)) =
          live.filter (fun v => decide (unit_get_hash_index cfg v = b)) := by
        have : ¬ unit_get_hash_index cfg u = b := fun h => hbk h.symm
        simp [live_step, this]
      rw [hfil]
      exact hinv
  | unmap u =>
    simp only [respects, Bool.and_true, decide_eq_true_eq] at hc
    obtain ⟨hother, pre, e, post, hl, hpre, he, hl1⟩ := step_success_unmap_shape cfg g g1 u hs
    by_cases hbk : b = unit_get_hash_index cfg u
    · subst hbk
      have hmem : u ∈ live_units cfg
          (g.unit_to_thread_entires (unit_get_hash_index cfg u)).list := by
        apply hinv.symm.subset
        simp [hc]
      have hnull : u ≠ cfg.ABT_UNIT_NULL := (mem_live_units cfg _ u hmem).1
      have hnotpre : u ∉ live_units cfg pre := by
        intro hin
        obtain ⟨_, x, hx, hxu⟩ := mem_live_units cfg pre u hin
        exact hpre x hx hxu
      have hfil : (live_step live (Call.unmap u)).filter
          (fun v => decide (unit_get_hash_index cfg v = unit_get_hash_index cfg u)) =
          (live.filter
            (fun v => decide (unit_get_hash_index cfg v = unit_get_hash_index cfg u))).erase
            u := by
        simp only [live_step]
        exact filter_erase_of_pos _ u (by simp) live
      rw [hfil, hl1, live_units_append, live_units_cons_null cfg _ _ rfl]
      have he1 : e.unit ≠ cfg.ABT_UNIT_NULL := by rw [he]; exact hnull
      rw [hl, live_units_append, live_units_cons_live cfg _ _ he1, he] at hinv
      have := hinv.erase u
      rw [List.erase_append_right _ hnotpre, List.erase_cons_head] at this
      exact this
    · rw [hother b hbk]
      have hfil : (live_step live (Call.unmap u)).filter
          (fun v => decide (unit_get_hash_index cfg v = b)) =
          live.filter (fun v => decide (unit_get_hash_index cfg v = b)) := by
        simp only [live_step]
        have : ¬ unit_get_hash_index cfg u = b := fun h => hbk h.symm
        exact filter_erase_of_neg _ u (by simp [this]) live
      rw [hfil]
      exact hinv

theorem respects_cons (cfg : Config) (live : List Nat) (c : Call) (cs : List Call)
    (h : respects cfg live (c :: cs) = true) :
    respects cfg live [c] = true ∧ respects cfg (live_step live c) cs = true := by
  cases c with
  | map u t m =>
    simp only [respects, Bool.and_eq_true, Bool.and_true] at h ⊢
    exact ⟨h.1, h.2⟩
  | unmap u =>
    simp only [respects, Bool.and_eq_true, Bool.and_true] at h ⊢
    exact ⟨h.1, h.2⟩

/-- A sequence of successful calls that respects the contract keeps, in every
bucket, the handles of the live entries a rearrangement of the live handles of
the bucket. -/
theorem run_success_live_units (cfg : Config) (b : Nat) (calls : List Call) :
    ∀ (g g1 : ABTI_global) (live : List Nat), run_success cfg g calls = some g1 →
      respects cfg live calls = true →
      (live_units cfg (g.unit_to_thread_entires b).list).Perm
        (live.filter (fun u => decide (unit_get_hash_index cfg u = b))) →
      (live_units cfg (g1.unit_to_thread_entires b).list).Perm
        ((live_after live calls).filter
          (fun u => decide (unit_get_hash_index cfg u = b))) := by
  induction calls with
  | nil =>
    intro g g1 live hr _ hinv
    simp only [run_success, Option.some.injEq] at hr
    rw [← hr]
    exact hinv
  | cons c cs ih =>
    intro g g1 live hr hresp hinv
    obtain ⟨hc, hcs⟩ := respects_cons cfg live c cs hresp
    simp only [run_success] at hr
    cases hs : step_success cfg g c with
    | none => simp [hs] at hr
    | some g2 =>
      rw [hs] at hr
      simp only [Option.some_bind] at hr
      exact ih g2 g1 (live_step live c) hr hcs
        (step_success_live_units cfg g g2 c live b hs hc hinv)

/-- One successful call keeps every node of every bucket linked: the addresses
of the nodes before the call are the tail of the addresses after it. -/
theorem step_success_addr_suffix (cfg : Config) (g g1 : ABTI_global) (c : Call) (b : Nat)
    (hs : step_success cfg g c = some g1) :
    (g.unit_to_thread_entires b).list.map (fun e => e.addr) <:+
      (g1.unit_to_thread_entires b).list.map (fun e => e.addr) := by
  cases c with
  | map u t m =>
    obtain ⟨hother, hshape⟩ := step_success_map_shape cfg g g1 u t m hs
    by_cases hbk : b = unit_get_hash_index cfg u
    · subst hbk
      rcases hshape with ⟨pre, e, post, hl, _, hl1⟩ | ⟨_, hl1⟩
      · rw [hl, hl1]
        simp
      · rw [hl1]
        simp only [List.map_cons]
        exact List.suffix_cons _ _
    · rw [hother b hbk]
  | unmap u =>
    obtain ⟨hother, pre, e, post, hl, _, _, hl1⟩ := step_success_unmap_shape cfg g g1 u hs
    by_cases hbk : b = unit_get_hash_index cfg u
    · subst hbk
      rw [hl, hl1]
      simp
    · rw [hother b hbk]

theorem run_success_addr_suffix (cfg : Config) (b : Nat) (calls : List Call) :
    ∀ (g g1 : ABTI_global), run_success cfg g calls = some g1 →
      (g.unit_to_thread_entires b).list.map (fun e => e.addr) <:+
        (g1.unit_to_thread_entires b).list.map (fun e => e.addr) := by
  induction calls with
  | nil =>
    intro g g1 hr
    simp only [run_success, Option.some.injEq] at hr
    rw [hr]
  | cons c cs ih =>
    intro g g1 hr
    simp only [run_success] at hr
    cases hs : step_success cfg g c with
    | none => simp [hs] at hr
    | some g2 =>
      rw [hs] at hr
      simp only [Option.some_bind] at hr
      exact (step_success_addr_suffix cfg g g2 c b hs).trans (ih g2 g1 hr)

theorem run_success_append (cfg : Config) (a b : List Call) :
    ∀ g, run_success cfg g (a ++ b) =
      (run_success cfg g a).bind (fun g1 => run_success cfg g1 b) := by
  induction a with
  | nil => intro g; simp [run_success]
  | cons c cs ih =>
    intro g
    simp only [List.cons_append, run_success]
    cases step_success cfg g c with
    | none => simp
    | some g2 => simp [ih g2]

theorem high_water_ge (cfg : Config) (b : Nat) (live : List Nat) (calls : List Call) :
    live_in_bucket cfg b live ≤ high_water cfg b live calls := by
  cases calls with
  | nil => simp [high_water]
  | cons c cs => simp [high_water]

/-- One successful call that respects the contract either keeps the length of a
bucket, or makes it one longer and then as long as the number of live handles
of the bucket after the call. -/
theorem step_success_length (cfg : Config) (g g1 : ABTI_global) (c : Call)
    (live : List Nat) (b : Nat) (hs : step_success cfg g c = some g1)
    (hinv : (live_units cfg (g.unit_to_thread_entires b).list).Perm
      (live.filter (fun u => decide (unit_get_hash_index cfg u = b)))) :
    (g1.unit_to_thread_entires b).list.length = (g.unit_to_thread_entires b).list.length ∨
      ((g.unit_to_thread_entires b).list.length < (g1.unit_to_thread_entires b).list.length ∧
        (g1.unit_to_thread_entires b).list.length =
          live_in_bucket cfg b (live_step live c)) := by
  cases c with
  | map u t m =>
    obtain ⟨hother, hshape⟩ := step_success_map_shape cfg g g1 u t m hs
    by_cases hbk : b = unit_get_hash_index cfg u
    · subst hbk
      rcases hshape with ⟨pre, e, post, hl, _, hl1⟩ | ⟨hall, hl1⟩
      · left
        rw [hl, hl1]
        simp
      · right
        have hlen := live_units_length_of_no_null cfg _ hall
        rw [hinv.length_eq] at hlen
        rw [hl1]
        refine ⟨by simp, ?_⟩
        simp only [live_in_bucket, live_step, List.length_cons]
        simp [hlen]
    · left
      rw [hother b hbk]
  | unmap u =>
    obtain ⟨hother, pre, e, post, hl, _, _, hl1⟩ := step_success_unmap_shape cfg g g1 u hs
    left
    by_cases hbk : b = unit_get_hash_index cfg u
    · subst hbk
      rw [hl, hl1]
      simp
    · rw [hother b hbk]

/-- From any state in which the live entries of bucket `b` hold the live
handles of the bucket: after a sequence of successful calls that respects the
contract, the length of the bucket is the larger of its length at the start and
of the largest number of handles of the bucket live at once. -/
theorem run_success_length (cfg : Config) (b : Nat) (calls : List Call) :
    ∀ (g g1 : ABTI_global) (live : List Nat), run_success cfg g calls = some g1 →
      respects cfg live calls = true →
      (live_units cfg (g.unit_to_thread_entires b).list).Perm
        (live.filter (fun u => decide (unit_get_hash_index cfg u = b))) →
      (g1.unit_to_thread_entires b).list.length =
        max (g.unit_to_thread_entires b).list.length (high_water cfg b live calls) := by
  induction calls with
  | nil =>
    intro g g1 live hr _ hinv
    simp only [run_success, Option.some.injEq] at hr
    subst hr
    have h1 := live_units_length_le cfg (g.unit_to_thread_entires b).list
    rw [hinv.length_eq] at h1
    simp only [high_water, live_in_bucket]
    exact (max_eq_left h1).symm
  | cons c cs ih =>
    intro g g1 live hr hresp hinv
    obtain ⟨hc, hcs⟩ := respects_cons cfg live c cs hresp
    simp only [run_success] at hr
    cases hs : step_success cfg g c with
    | none => simp [hs] at hr
    | some g2 =>
      rw [hs] at hr
      simp only [Option.some_bind] at hr
      have hinv2 := step_success_live_units cfg g g2 c live b hs hc hinv
      have hfin := ih g2 g1 (live_step live c) hr hcs hinv2
      have hcnt := live_units_length_le cfg (g.unit_to_thread_entires b).list
      rw [hinv.length_eq] at hcnt
      have hge := high_water_ge cfg b (live_step live c) cs
      rw [hfin]
      simp only [high_water]
      have hcnt1 : live_in_bucket cfg b live ≤ (g.unit_to_thread_entires b).list.length := hcnt
      rcases step_success_length cfg g g2 c live b hs hinv with heq | ⟨hlt, heq⟩
      · rw [heq]
        omega
      · omega

theorem mem_live_after (calls : List Call) :
    ∀ (live : List Nat) (u : Nat), u ∈ live_after live calls →
      u ∈ live ∨ ∃ c ∈ calls, c.unit = u := by
  induction calls with
  | nil =>
    intro live u hu
    exact Or.inl hu
  | cons c cs ih =>
    intro live u hu
    simp only [live_after] at hu
    rcases ih _ u hu with hin | ⟨c1, hc1, hcu⟩
    · cases c with
      | map v t m =>
        simp only [live_step, List.mem_cons] at hin
        rcases hin with rfl | hin
        · exact Or.inr ⟨Call.map u t m, by simp, rfl⟩
        · exact Or.inl hin
      | unmap v =>
        simp only [live_step] at hin
        exact Or.inl (List.mem_of_mem_erase hin)
    · exact Or.inr ⟨c1, List.mem_cons_of_mem _ hc1, hcu⟩

/-- Under the contract no handle is live twice. -/
theorem live_after_nodup (cfg : Config) (calls : List Call) :
    ∀ live : List Nat, respects cfg live calls = true → live.Nodup →
      (live_after live calls).Nodup := by
  induction calls with
  | nil =>
    intro live _ hnd
    exact hnd
  | cons c cs ih =>
    intro live hresp hnd
    obtain ⟨hc, hcs⟩ := respects_cons cfg live c cs hresp
    simp only [live_after]
    apply ih _ hcs
    cases c with
    | map u t m =>
      simp only [respects, Bool.and_true, Bool.and_eq_true, decide_eq_true_eq] at hc
      simp only [live_step]
      exact List.nodup_cons.2 ⟨hc.1, hnd⟩
    | unmap u =>
      simp only [live_step]
      exact hnd.erase u

theorem respects_append_left (cfg : Config) (a b : List Call) :
    ∀ live : List Nat, respects cfg live (a ++ b) = true → respects cfg live a = true := by
  induction a with
  | nil => intro live _; simp [respects]
  | cons c cs ih =>
    intro live h
    rw [List.cons_append] at h
    obtain ⟨hc, hcs⟩ := respects_cons cfg live c (cs ++ b) h
    have hrest := ih _ hcs
    cases c with
    | map u t m =>
      simp only [respects, Bool.and_true, Bool.and_eq_true] at hc ⊢
      exact ⟨hc, hrest⟩
    | unmap u =>
      simp only [respects, Bool.and_true, Bool.and_eq_true] at hc ⊢
      exact ⟨hc, hrest⟩

/-- A sequence on pairwise distinct handles, each unmap following the map of its
handle, respects the contract. -/
theorem respects_of_distinct_serial (cfg : Config) (calls : List Call) :
    ∀ (mapped unmapped live : List Nat), distinct_serial cfg mapped unmapped calls = true →
      (∀ v, v ∈ live ↔ v ∈ mapped ∧ v ∉ unmapped) → (∀ v ∈ unmapped, v ∈ mapped) →
      live.Nodup → respects cfg live calls = true := by
  induction calls with
  | nil => intro _ _ _ _ _ _ _; simp [respects]
  | cons c cs ih =>
    intro mapped unmapped live hds hiff hsub hnd
    cases c with
    | map u t m =>
      simp only [distinct_serial, Bool.and_eq_true, decide_eq_true_eq] at hds
      obtain ⟨⟨hnew, hnull⟩, hrest⟩ := hds
      have hnl : u ∉ live := fun h => hnew ((hiff u).1 h).1
      simp only [respects, Bool.and_eq_true, decide_eq_true_eq]
      refine ⟨⟨hnl, hnull⟩, ?_⟩
      apply ih (u :: mapped) unmapped (live_step live (Call.map u t m)) hrest
      · intro v
        simp only [live_step, List.mem_cons]
        constructor
        · rintro (rfl | hv)
          · exact ⟨Or.inl rfl, fun h => hnew (hsub _ h)⟩
          · exact ⟨Or.inr ((hiff v).1 hv).1, ((hiff v).1 hv).2⟩
        · rintro ⟨rfl | hv, hvu⟩
          · exact Or.inl rfl
          · exact Or.inr ((hiff v).2 ⟨hv, hvu⟩)
      · intro v hv
        exact List.mem_cons_of_mem _ (hsub v hv)
      · exact List.nodup_cons.2 ⟨hnl, hnd⟩
    | unmap u =>
      simp only [distinct_serial, Bool.and_eq_true, decide_eq_true_eq] at hds
      obtain ⟨⟨hin, hnot⟩, hrest⟩ := hds
      have hl : u ∈ live := (hiff u).2 ⟨hin, hnot⟩
      simp only [respects, Bool.and_eq_true, decide_eq_true_eq]
      refine ⟨hl, ?_⟩
      apply ih mapped (u :: unmapped) (live_step live (Call.unmap u)) hrest
      · intro v
        simp only [live_step, List.mem_cons, hnd.mem_erase_iff, not_or]
        constructor
        · rintro ⟨hne, hv⟩
          exact ⟨((hiff v).1 hv).1, hne, ((hiff v).1 hv).2⟩
        · rintro ⟨hv, hne, hvu⟩
          exact ⟨hne, (hiff v).2 ⟨hv, hvu⟩⟩
      · intro v hv
        rcases List.mem_cons.1 hv with rfl | hv
        · exact hin
        · exact hsub v hv
      · exact hnd.erase u

/-! ## Completed calls: locks and mappings still pending -/

/-- A completed call leaves the lock of every bucket that was free, free. -/
theorem step_lock_free (cfg : Config) (g g1 : ABTI_global) (c : Call) (b : Nat)
    (hs : step cfg g c = some g1) (hfree : (g.unit_to_thread_entires b).lock = false) :
    (g1.unit_to_thread_entires b).lock = false := by
  cases c with
  | map u t m =>
    obtain ⟨⟨c, hr⟩, rfl⟩ := step_map_eq cfg g g1 u t m hs
    obtain ⟨l1, hg, _⟩ := unit_map_thread_ret_global cfg m g u t c hr
    rw [hg]
    by_cases hbk : b = unit_get_hash_index cfg u
    · subst hbk
      simp
    · rw [set_entry_other _ _ _ _ hbk]
      exact hfree
  | unmap u =>
    obtain ⟨hr, rfl⟩ := step_unmap_eq cfg g g1 u hs
    obtain ⟨_, a, l, l1, _, _, hg⟩ := unit_unmap_thread_ret cfg g u hr
    rw [hg]
    by_cases hbk : b = unit_get_hash_index cfg u
    · subst hbk
      simp
    · rw [set_entry_other _ _ _ _ hbk]
      exact hfree

theorem run_lock_free (cfg : Config) (b : Nat) (calls : List Call) :
    ∀ (g g1 : ABTI_global), run cfg g calls = some g1 →
      (g.unit_to_thread_entires b).lock = false →
      (g1.unit_to_thread_entires b).lock = false := by
  induction calls with
  | nil =>
    intro g g1 hr hfree
    simp only [run, Option.some.injEq] at hr
    rw [← hr]
    exact hfree
  | cons c cs ih =>
    intro g g1 hr hfree
    simp only [run] at hr
    cases hs : step cfg g c with
    | none => simp [hs] at hr
    | some g2 =>
      rw [hs] at hr
      simp only [Option.some_bind] at hr
      exact ih g2 g1 hr (step_lock_free cfg g g2 c b hs hfree)

/-- A map that returns an error code leaves every bucket list as it was. -/
theorem unit_map_thread_error_lists (cfg : Config) (m : ABTU_malloc_result)
    (g : ABTI_global) (u t : Nat) (c : Int)
    (hr : (unit_map_thread cfg m g u t).out = Outcome.ret c) (hc : c ≠ ABT_SUCCESS) (i : Nat) :
    ((unit_map_thread cfg m g u t).global.unit_to_thread_entires i).list =
      (g.unit_to_thread_entires i).list := by
  have hb := unit_map_thread_ret_not_builtin cfg m g u t c hr
  cases hscan : map_scan cfg u t (g.unit_to_thread_entires (unit_get_hash_index cfg u)).list with
  | some l1 =>
    rw [unit_map_thread_reuse cfg m g u t l1 hb hscan] at hr
    simp only [Outcome.ret.injEq] at hr
    exact absurd hr.symm hc
  | none =>
    by_cases hm : m.ret = ABT_SUCCESS
    · rw [unit_map_thread_alloc_ok cfg m g u t hb hscan hm] at hr
      simp only [Outcome.ret.injEq] at hr
      exact absurd hr.symm hc
    · rw [unit_map_thread_alloc_fail cfg m g u t hb hscan hm]
      by_cases hi : i = unit_get_hash_index cfg u
      · subst hi
        simp
      · simp [set_entry_other _ _ _ _ hi]

theorem step_success_of_map (cfg : Config) (g : ABTI_global) (u t : Nat)
    (m : ABTU_malloc_result)
    (hout : (unit_map_thread cfg m g u t).out = Outcome.ret ABT_SUCCESS) :
    step_success cfg g (Call.map u t m) = some (unit_map_thread cfg m g u t).global := by
  simp [step_success, hout]

theorem step_success_of_unmap (cfg : Config) (g : ABTI_global) (u : Nat)
    (hout : (unit_unmap_thread cfg g u).1 = Outcome.ret ()) :
    step_success cfg g (Call.unmap u) = some (unit_unmap_thread cfg g u).2 := by
  simp [step_success, hout]

/-- One completed call keeps, in every bucket, the handles of the live entries a
rearrangement of the pending handles of the bucket, and keeps the sentinel out
of the pending handles. -/
theorem step_pending_live_units (cfg : Config) (g g1 : ABTI_global) (c : Call)
    (pending : List Nat) (b : Nat) (hs : step cfg g c = some g1)
    (hnn : ∀ u ∈ pending, u ≠ cfg.ABT_UNIT_NULL)
    (hinv : (live_units cfg (g.unit_to_thread_entires b).list).Perm
      (pending.filter (fun u => decide (unit_get_hash_index cfg u = b)))) :
    (live_units cfg (g1.unit_to_thread_entires b).list).Perm
        ((pending_step cfg g pending c).filter
          (fun u => decide (unit_get_hash_index cfg u = b))) ∧
      ∀ u ∈ pending_step cfg g pending c, u ≠ cfg.ABT_UNIT_NULL := by
  cases c with
  | map u t m =>
    obtain ⟨⟨c, hr⟩, rfl⟩ := step_map_eq cfg g g1 u t m hs
    by_cases hsucc : (unit_map_thread cfg m g u t).out = Outcome.ret ABT_SUCCESS
    · obtain ⟨hother, hshape⟩ := step_success_map_shape cfg g _ u t m
        (step_success_of_map cfg g u t m hsucc)
      by_cases hnull : u = cfg.ABT_UNIT_NULL
      · have hp : pending_step cfg g pending (Call.map u t m) = pending := by
          simp [pending_step, hnull]
        rw [hp]
        refine ⟨?_, hnn⟩
        by_cases hbk : b = unit_get_hash_index cfg u
        · subst hbk
          rcases hshape with ⟨pre, e, post, hl, he, hl1⟩ | ⟨_, hl1⟩
          · rw [hl1, live_units_append, live_units_cons_null cfg _ _ hnull]
            rw [hl, live_units_append, live_units_cons_null cfg _ _ he] at hinv
            exact hinv
          · rw [hl1, live_units_cons_null cfg _ _ hnull]
            exact hinv
        · rw [hother b hbk]
          exact hinv
      · have hp : pending_step cfg g pending (Call.map u t m) = u :: pending := by
          simp [pending_step, hsucc, hnull]
        rw [hp]
        refine ⟨?_, ?_⟩
        · by_cases hbk : b = unit_get_hash_index cfg u
          · subst hbk
            have hfil : (u :: pending).filter
                (fun v => decide (unit_get_hash_index cfg v = unit_get_hash_index cfg u)) =
                u :: pending.filter
                  (fun v => decide (unit_get_hash_index cfg v = unit_get_hash_index cfg u)) := by
              simp
            rw [hfil]
            rcases hshape with ⟨pre, e, post, hl, he, hl1⟩ | ⟨_, hl1⟩
            · rw [hl1, live_units_append, live_units_cons_live cfg _ _ hnull]
              rw [hl, live_units_append, live_units_cons_null cfg _ _ he] at hinv
              exact List.perm_middle.trans (hinv.cons u)
            · rw [hl1, live_units_cons_live cfg _ _ hnull]
              exact hinv.cons u
          · rw [hother b hbk]
            have hfil : (u :: pending).filter
                (fun v => decide (unit_get_hash_index cfg v = b)) =
                pending.filter (fun v => decide (unit_get_hash_index cfg v = b)) := by
              have : ¬ unit_get_hash_index cfg u = b := fun h => hbk h.symm
              simp [this]
            rw [hfil]
            exact hinv
        · intro v hv
          rcases List.mem_cons.1 hv with rfl | hv
          · exact hnull
          · exact hnn v hv
    · have hc : c ≠ ABT_SUCCESS := by
        intro hcs
        rw [hcs] at hr
        exact hsucc hr
      have hp : pending_step cfg g pending (Call.map u t m) = pending := by
        simp [pending_step, hsucc]
      rw [hp, unit_map_thread_error_lists cfg m g u t c hr hc b]
      exact ⟨hinv, hnn⟩
  | unmap u =>
    obtain ⟨hr, rfl⟩ := step_unmap_eq cfg g g1 u hs
    obtain ⟨hother, pre, e, post, hl, hpre, he, hl1⟩ :=
      step_success_unmap_shape cfg g _ u (step_success_of_unmap cfg g u hr)
    have hnn1 : ∀ v ∈ pending_step cfg g pending (Call.unmap u), v ≠ cfg.ABT_UNIT_NULL := by
      intro v hv
      exact hnn v (List.mem_of_mem_erase hv)
    refine ⟨?_, hnn1⟩
    simp only [pending_step]
    by_cases hbk : b = unit_get_hash_index cfg u
    · subst hbk
      by_cases hnull : u = cfg.ABT_UNIT_NULL
      · have hnot : u ∉ pending := fun hin => hnn u hin hnull
        rw [List.erase_of_not_mem hnot, hl1, live_units_append,
          live_units_cons_null cfg _ _ rfl]
        rw [hl, live_units_append, live_units_cons_null cfg _ _ (he.trans hnull)] at hinv
        exact hinv
      · have hnotpre : u ∉ live_units cfg pre := by
          intro hin
          obtain ⟨_, x, hx, hxu⟩ := mem_live_units cfg pre u hin
          exact hpre x hx hxu
        rw [filter_erase_of_pos _ u (by simp) pending, hl1, live_units_append,
          live_units_cons_null cfg _ _ rfl]
        have he1 : e.unit ≠ cfg.ABT_UNIT_NULL := by rw [he]; exact hnull
        rw [hl, live_units_append, live_units_cons_live cfg _ _ he1, he] at hinv
        have := hinv.erase u
        rw [List.erase_append_right _ hnotpre, List.erase_cons_head] at this
        exact this
    · rw [hother b hbk]
      have : ¬ unit_get_hash_index cfg u = b := fun h => hbk h.symm
      rw [filter_erase_of_neg _ u (by simp [this]) pending]
      exact hinv

theorem run_pending_live_units (cfg : Config) (b : Nat) (calls : List Call) :
    ∀ (g g1 : ABTI_global) (pending : List Nat), run cfg g calls = some g1 →
      (∀ u ∈ pending, u ≠ cfg.ABT_UNIT_NULL) →
      (live_units cfg (g.unit_to_thread_entires b).list).Perm
        (pending.filter (fun u => decide (unit_get_hash_index cfg u = b))) →
      (live_units cfg (g1.unit_to_thread_entires b).list).Perm
        ((pending_after cfg g pending calls).filter
          (fun u => decide (unit_get_hash_index cfg u = b))) := by
  induction calls with
  | nil =>
    intro g g1 pending hr _ hinv
    simp only [run, Option.some.injEq] at hr
    rw [← hr]
    exact hinv
  | cons c cs ih =>
    intro g g1 pending hr hnn hinv
    simp only [run] at hr
    cases hs : step cfg g c with
    | none => simp [hs] at hr
    | some g2 =>
      rw [hs] at hr
      simp only [Option.some_bind] at hr
      simp only [pending_after, hs]
      obtain ⟨hinv2, hnn2⟩ := step_pending_live_units cfg g g2 c pending b hs hnn hinv
      exact ih g2 g1 _ hr hnn2 hinv2

/-- A list without live entry holds the sentinel in every entry. -/
theorem all_null_of_live_units_nil (cfg : Config) (l : List unit_to_thread)
    (h : live_units cfg l = []) : ∀ e ∈ l, e.unit = cfg.ABT_UNIT_NULL := by
  intro e he
  by_contra hne
  have : e.unit ∈ live_units cfg l := by
    simp only [live_units, List.mem_map, List.mem_filter, decide_eq_true_eq]
    exact ⟨e, ⟨he, hne⟩, rfl⟩
  rw [h] at this
  simp at this

/-! ## A second map of a live handle -/

/-- A call of unmap on a handle that is not built-in and is held by an entry of
its bucket returns. -/
theorem unit_unmap_thread_ret_of_held (cfg : Config) (g : ABTI_global) (h : Nat)
    (hb : cfg.ABTI_unit_is_builtin h = false)
    (hheld : ∃ e ∈ (g.unit_to_thread_entires (unit_get_hash_index cfg h)).list, e.unit = h) :
    (unit_unmap_thread cfg g h).1 = Outcome.ret () := by
  cases hl : (g.unit_to_thread_entires (unit_get_hash_index cfg h)).list with
  | nil =>
    rw [hl] at hheld
    simp at hheld
  | cons a l =>
    rw [hl] at hheld
    cases hs : unmap_scan cfg h a l with
    | none =>
      obtain ⟨e, he, hu⟩ := hheld
      exact absurd hu ((unmap_scan_eq_none cfg h a l).1 hs e he)
    | some l1 => rw [unit_unmap_thread_found cfg g h a l l1 hb hl hs]

/-- A successful map of a handle other than the sentinel raises by one the
number of entries of its bucket that hold the handle, and keeps every node that
held the handle as it was. -/
theorem unit_map_thread_count (cfg : Config) (m : ABTU_malloc_result) (g : ABTI_global)
    (h t : Nat) (hn : h ≠ cfg.ABT_UNIT_NULL)
    (hmap : (unit_map_thread cfg m g h t).out = Outcome.ret ABT_SUCCESS) :
    ((unit_map_thread cfg m g h t).global.unit_to_thread_entires
        (unit_get_hash_index cfg h)).list.countP (fun e => decide (e.unit = h)) =
      (g.unit_to_thread_entires (unit_get_hash_index cfg h)).list.countP
        (fun e => decide (e.unit = h)) + 1 ∧
    ∀ b i e, node_at g b i = some e → e.unit = h →
      node_at (unit_map_thread cfg m g h t).global b i = some e := by
  obtain ⟨hother, hshape⟩ := step_success_map_shape cfg g _ h t m
    (step_success_of_map cfg g h t m hmap)
  constructor
  · rcases hshape with ⟨pre, e, post, hl, he, hl1⟩ | ⟨_, hl1⟩
    · have hne : ¬ e.unit = h := fun hh => hn (hh ▸ he)
      rw [hl, hl1]
      simp [List.countP_append, List.countP_cons, hne]
      omega
    · rw [hl1]
      simp [List.countP_cons]
  · intro b i e hnode hu
    unfold node_at at hnode ⊢
    by_cases hbk : b = unit_get_hash_index cfg h
    · subst hbk
      rcases hshape with ⟨pre, e0, post, hl, he0, hl1⟩ | ⟨_, hl1⟩
      · rw [hl] at hnode
        rw [hl1]
        simp only [List.reverse_append, List.reverse_cons, List.append_assoc,
          List.singleton_append] at hnode ⊢
        rcases getElem?_append_cons_change post.reverse pre.reverse e0 ⟨e0.addr, h, t⟩ i with
          heq | ⟨hold, _⟩
        · rw [heq]
          exact hnode
        · rw [hold] at hnode
          have : e0 = e := Option.some.inj hnode
          subst this
          exact absurd (hu.symm.trans he0) hn
      · rw [hl1]
        simp only [List.reverse_cons]
        rcases getElem?_concat_new
          (g.unit_to_thread_entires (unit_get_hash_index cfg h)).list.reverse
          ⟨m.p_new, h, t⟩ i with heq | ⟨_, hold⟩
        · rw [heq]
          exact hnode
        · rw [hold] at hnode
          simp at hnode
    · rw [hother b hbk]
      exact hnode

/-- An unmap that returns, of a handle other than the sentinel, lowers by one
the number of entries of its bucket that hold the handle. -/
theorem unit_unmap_thread_count (cfg : Config) (g : ABTI_global) (h : Nat)
    (hn : h ≠ cfg.ABT_UNIT_NULL)
    (hr : (unit_unmap_thread cfg g h).1 = Outcome.ret ()) :
    ((unit_unmap_thread cfg g h).2.unit_to_thread_entires
        (unit_get_hash_index cfg h)).list.countP (fun e => decide (e.unit = h)) + 1 =
      (g.unit_to_thread_entires (unit_get_hash_index cfg h)).list.countP
        (fun e => decide (e.unit = h)) := by
  obtain ⟨_, pre, e, post, hl, _, he, hl1⟩ :=
    step_success_unmap_shape cfg g _ h (step_success_of_unmap cfg g h hr)
  have hne : ¬ cfg.ABT_UNIT_NULL = h := fun hh => hn hh.symm
  rw [hl, hl1]
  simp [List.countP_append, List.countP_cons, hne, he]
  omega

/-! ## The claims -/

/-- C1. Let `h` be a handle that differs from the sentinel and is held by no
entry of its bucket (in any table state, in particular in every state reachable
from `unit_init_hash_table`). After a call `unit_map_thread(h, t)` that returns
`ABT_SUCCESS` (which it does only for a handle that is not built-in), looking
`h` up yields `t`, and it still yields `t` after every further sequence of
calls of map and unmap that return and are about handles other than `h`. -/
theorem lookup_after_map_stable (cfg : Config) (m : ABTU_malloc_result) (g g2 : ABTI_global)
    (h t : Nat) (calls : List Call)
    (hn : h ≠ cfg.ABT_UNIT_NULL)
    (hfree : ∀ e ∈ (g.unit_to_thread_entires (unit_get_hash_index cfg h)).list, e.unit ≠ h)
    (hmap : (unit_map_thread cfg m g h t).out = Outcome.ret ABT_SUCCESS)
    (hcalls : ∀ c ∈ calls, c.unit ≠ h)
    (hrun : run cfg (unit_map_thread cfg m g h t).global calls = some g2) :
    lookup cfg (unit_map_thread cfg m g h t).global h = some t ∧
      lookup cfg g2 h = some t := by
  have h1 := lookup_unit_map_thread cfg m g h t hfree hmap
  refine ⟨h1, ?_⟩
  unfold lookup at h1 ⊢
  rw [run_find_holds cfg h hn calls _ g2 hcalls hrun (unit_get_hash_index cfg h)]
  exact h1

/-- C1 at a concrete run: handle 8 is mapped to thread 5 on the empty table;
then handle 16, of the same bucket, is mapped and unmapped and handle 24 is
mapped; looking 8 up still yields 5. -/
theorem lookup_after_map_stable_witness :
    lookup cfg2
      (unit_map_thread cfg2 ⟨0, 102⟩
        (unit_unmap_thread cfg2
          (unit_map_thread cfg2 ⟨0, 101⟩
            (unit_map_thread cfg2 ⟨0, 100⟩ g_empty 8 5).global 16 6).global 16).2
        24 7).global 8 = some 5 :=
  (lookup_after_map_stable cfg2 ⟨0, 100⟩ g_empty _ 8 5
    [Call.map 16 6 ⟨0, 101⟩, Call.unmap 16, Call.map 24 7 ⟨0, 102⟩]
    (by decide) (by decide) (by decide) (by decide) rfl).2

/-- C2 (the code departs from the claim). On a freshly initialised table the
handle 8 is not built-in, is not the sentinel and is held by no entry of its
bucket, whose list is empty; `unit_unmap_thread` then reads the handle word
through the null list head (line 235) and stops there, before it reaches the
assertion that unmap must succeed (line 240). -/
theorem unit_unmap_thread_empty_bucket_null_deref :
    cfg2.ABTI_unit_is_builtin 8 = false ∧ 8 ≠ cfg2.ABT_UNIT_NULL ∧
    ((unit_init_hash_table cfg2 g_empty).unit_to_thread_entires
      (unit_get_hash_index cfg2 8)).list = [] ∧
    (unit_unmap_thread cfg2 (unit_init_hash_table cfg2 g_empty) 8).1 =
      Outcome.fault Fault.null_deref ∧
    (unit_unmap_thread cfg2 (unit_init_hash_table cfg2 g_empty) 8).1 ≠
      Outcome.fault Fault.assert_unmap_must_succeed := by
  decide

/-- C3. `unit_finalize_hash_table` completes without an assertion failure if and
only if every bucket lock is free and every entry of every bucket holds the
sentinel; when it completes, the nodes passed to `ABTU_free` are exactly the
nodes of the buckets, bucket after bucket in list order, each one once; when
some entry holds a live handle the call stops in an assertion (the one on the
handle when every lock is free), no node passed to `ABTU_free` before that
holds a live handle, and so the live entry is not freed. -/
theorem unit_finalize_hash_table_spec (cfg : Config) (g : ABTI_global) :
    ((unit_finalize_hash_table cfg g).1 = Outcome.ret () ↔
      ∀ i, i < ABTI_UNIT_HASH_TABLE_SIZE cfg →
        (g.unit_to_thread_entires i).lock = false ∧
        ∀ e ∈ (g.unit_to_thread_entires i).list, e.unit = cfg.ABT_UNIT_NULL) ∧
    ((unit_finalize_hash_table cfg g).1 = Outcome.ret () →
      (unit_finalize_hash_table cfg g).2 =
        (List.range (ABTI_UNIT_HASH_TABLE_SIZE cfg)).flatMap
          (fun i => (g.unit_to_thread_entires i).list)) ∧
    (∀ i, i < ABTI_UNIT_HASH_TABLE_SIZE cfg →
      ∀ e ∈ (g.unit_to_thread_entires i).list, e.unit ≠ cfg.ABT_UNIT_NULL →
        ((unit_finalize_hash_table cfg g).1 = Outcome.fault Fault.assert_lock_free ∨
          (unit_finalize_hash_table cfg g).1 = Outcome.fault Fault.assert_unit_null) ∧
        ((∀ j, j < ABTI_UNIT_HASH_TABLE_SIZE cfg →
            (g.unit_to_thread_entires j).lock = false) →
          (unit_finalize_hash_table cfg g).1 = Outcome.fault Fault.assert_unit_null) ∧
        (∀ x ∈ (unit_finalize_hash_table cfg g).2, x.unit = cfg.ABT_UNIT_NULL) ∧
        e ∉ (unit_finalize_hash_table cfg g).2) := by
  have hiff := finalize_buckets_ret_iff cfg g (List.range (ABTI_UNIT_HASH_TABLE_SIZE cfg))
  simp only [List.mem_range] at hiff
  refine ⟨hiff, ?_, ?_⟩
  · intro h
    exact finalize_buckets_freed_of_ret cfg g _ h
  · intro i hi e he hlive
    have hnull := finalize_buckets_freed_null cfg g
      (List.range (ABTI_UNIT_HASH_TABLE_SIZE cfg))
    have hnot : (unit_finalize_hash_table cfg g).1 ≠ Outcome.ret () := by
      intro h
      exact hlive ((hiff.1 h i hi).2 e he)
    have hfault : ∃ f, (unit_finalize_hash_table cfg g).1 = Outcome.fault f := by
      cases ho : (unit_finalize_hash_table cfg g).1 with
      | ret v => exact absurd ho hnot
      | fault f => exact ⟨f, rfl⟩
    obtain ⟨f, hf⟩ := hfault
    refine ⟨?_, ?_, hnull, ?_⟩
    · rcases finalize_buckets_fault cfg g _ f hf with rfl | rfl
      · exact Or.inl hf
      · exact Or.inr hf
    · intro hfree
      rcases finalize_buckets_fault_lock cfg g _ f hf with ⟨j, hj, hlock⟩ | rfl
      · rw [hfree j (List.mem_range.1 hj)] at hlock
        exact absurd hlock (by decide)
      · exact hf
    · intro hmem
      exact hlive (hnull e hmem)

/-- C3 at two tables: teardown of `g_recycled` completes and frees its three
nodes, teardown of `g_live` stops in the assertion on the handle and does not
free the live node. -/
theorem unit_finalize_hash_table_spec_witness :
    (unit_finalize_hash_table cfg2 g_recycled).2 =
      [⟨100, 0, 5⟩, ⟨101, 0, 6⟩, ⟨102, 0, 7⟩] ∧
    (unit_finalize_hash_table cfg2 g_live).1 = Outcome.fault Fault.assert_unit_null ∧
    (⟨102, 8, 7⟩ : unit_to_thread) ∉ (unit_finalize_hash_table cfg2 g_live).2 :=
  ⟨(unit_finalize_hash_table_spec cfg2 g_recycled).2.1 (by decide),
    ((unit_finalize_hash_table_spec cfg2 g_live).2.2 1 (by decide) ⟨102, 8, 7⟩
      (by decide) (by decide)).2.1 (by decide),
    ((unit_finalize_hash_table_spec cfg2 g_live).2.2 1 (by decide) ⟨102, 8, 7⟩
      (by decide) (by decide)).2.2.2⟩

/-- C4 (as stated, refuted). With the built-in handle 9, an empty bucket and an
allocator that would succeed, the claim promises the return code
`ABT_SUCCESS`; `unit_map_thread` stops in its entry assertion (line 188) and
returns nothing. -/
theorem unit_map_thread_builtin_no_return :
    cfg2.ABTI_unit_is_builtin 9 = true ∧
    ¬ ((∀ e ∈ (g_empty.unit_to_thread_entires (unit_get_hash_index cfg2 9)).list,
          e.unit ≠ cfg2.ABT_UNIT_NULL) ∧
        (⟨0, 100⟩ : ABTU_malloc_result).ret ≠ ABT_SUCCESS) ∧
    (unit_map_thread cfg2 ⟨0, 100⟩ g_empty 9 5).out =
      Outcome.fault Fault.assert_not_builtin ∧
    (unit_map_thread cfg2 ⟨0, 100⟩ g_empty 9 5).out ≠ Outcome.ret ABT_SUCCESS := by
  decide

/-- C4 (amended: for a handle that is not built-in). `unit_map_thread` returns
an error code if and only if its bucket holds no sentinel entry and the
allocation of a new entry fails; in that case it has called `ABTU_malloc` once,
returns the code of the allocator, leaves every bucket list unchanged, leaves
every other bucket as it was and has released the bucket lock. In every other
case it returns `ABT_SUCCESS`. -/
theorem unit_map_thread_error_iff (cfg : Config) (m : ABTU_malloc_result)
    (g : ABTI_global) (h t : Nat) (hb : cfg.ABTI_unit_is_builtin h = false) :
    ((∃ c, (unit_map_thread cfg m g h t).out = Outcome.ret c ∧ c ≠ ABT_SUCCESS) ↔
      ((∀ e ∈ (g.unit_to_thread_entires (unit_get_hash_index cfg h)).list,
          e.unit ≠ cfg.ABT_UNIT_NULL) ∧ m.ret ≠ ABT_SUCCESS)) ∧
    (((∀ e ∈ (g.unit_to_thread_entires (unit_get_hash_index cfg h)).list,
          e.unit ≠ cfg.ABT_UNIT_NULL) ∧ m.ret ≠ ABT_SUCCESS) →
      (unit_map_thread cfg m g h t).out = Outcome.ret m.ret ∧
      (unit_map_thread cfg m g h t).mallocs = 1 ∧
      (∀ i, ((unit_map_thread cfg m g h t).global.unit_to_thread_entires i).list =
        (g.unit_to_thread_entires i).list) ∧
      (∀ i, i ≠ unit_get_hash_index cfg h →
        (unit_map_thread cfg m g h t).global.unit_to_thread_entires i =
          g.unit_to_thread_entires i) ∧
      ((unit_map_thread cfg m g h t).global.unit_to_thread_entires
        (unit_get_hash_index cfg h)).lock = false) ∧
    (¬ ((∀ e ∈ (g.unit_to_thread_entires (unit_get_hash_index cfg h)).list,
          e.unit ≠ cfg.ABT_UNIT_NULL) ∧ m.ret ≠ ABT_SUCCESS) →
      (unit_map_thread cfg m g h t).out = Outcome.ret ABT_SUCCESS) := by
  cases hs : map_scan cfg h t (g.unit_to_thread_entires (unit_get_hash_index cfg h)).list with
  | some l1 =>
    have hnot : ¬ ∀ e ∈ (g.unit_to_thread_entires (unit_get_hash_index cfg h)).list,
        e.unit ≠ cfg.ABT_UNIT_NULL := by
      intro hall
      have := (map_scan_eq_none cfg h t _).2 hall
      rw [hs] at this
      exact absurd this (by simp)
    rw [unit_map_thread_reuse cfg m g h t l1 hb hs]
    refine ⟨⟨?_, fun hc => absurd hc.1 hnot⟩, fun hc => absurd hc.1 hnot, fun _ => rfl⟩
    rintro ⟨c, hc, hne⟩
    simp only [Outcome.ret.injEq] at hc
    exact absurd hc.symm hne
  | none =>
    have hall := (map_scan_eq_none cfg h t _).1 hs
    by_cases hm : m.ret = ABT_SUCCESS
    · rw [unit_map_thread_alloc_ok cfg m g h t hb hs hm]
      refine ⟨⟨?_, fun hc => absurd hm hc.2⟩, fun hc => absurd hm hc.2, fun _ => rfl⟩
      rintro ⟨c, hc, hne⟩
      simp only [Outcome.ret.injEq] at hc
      exact absurd hc.symm hne
    · rw [unit_map_thread_alloc_fail cfg m g h t hb hs hm]
      refine ⟨⟨fun _ => ⟨hall, hm⟩, fun _ => ⟨m.ret, rfl, hm⟩⟩, fun _ => ?_,
        fun hc => absurd ⟨hall, hm⟩ hc⟩
      refine ⟨rfl, rfl, ?_, ?_, ?_⟩
      · intro i
        by_cases hi : i = unit_get_hash_index cfg h
        · subst hi
          simp
        · simp [set_entry_other _ _ _ _ hi]
      · intro i hi
        simp [set_entry_other _ _ _ _ hi]
      · simp

/-- C4 (amended) at a concrete call: handle 8 on the empty table with a failing
allocator returns the code 2 of the allocator. -/
theorem unit_map_thread_error_iff_witness :
    (unit_map_thread cfg2 ⟨2, 0⟩ g_empty 8 5).out = Outcome.ret 2 :=
  ((unit_map_thread_error_iff cfg2 ⟨2, 0⟩ g_empty 8 5 (by decide)).2.1
    ⟨by decide, by decide⟩).1

/-- C5. For a handle `h` that is not built-in: if the bucket of `h` holds a
sentinel entry, `unit_map_thread` returns `ABT_SUCCESS` without calling
`ABTU_malloc`, and the new list is the old one with `h` and `t` written into
the first sentinel entry in list order (same length, same order, every other
entry and the address of the node unchanged); if the bucket holds no sentinel
entry and the allocation succeeds, one allocation is made and the new list is
the fresh entry `(h, t)`, at the address the allocator returned, followed by
the old list. -/
theorem unit_map_thread_reuse_or_link (cfg : Config) (m : ABTU_malloc_result)
    (g : ABTI_global) (h t : Nat) (hb : cfg.ABTI_unit_is_builtin h = false) :
    ((∃ e ∈ (g.unit_to_thread_entires (unit_get_hash_index cfg h)).list,
        e.unit = cfg.ABT_UNIT_NULL) →
      (unit_map_thread cfg m g h t).out = Outcome.ret ABT_SUCCESS ∧
      (unit_map_thread cfg m g h t).mallocs = 0 ∧
      ∃ pre e post,
        (g.unit_to_thread_entires (unit_get_hash_index cfg h)).list = pre ++ e :: post ∧
        (∀ x ∈ pre, x.unit ≠ cfg.ABT_UNIT_NULL) ∧ e.unit = cfg.ABT_UNIT_NULL ∧
        ((unit_map_thread cfg m g h t).global.unit_to_thread_entires
          (unit_get_hash_index cfg h)).list = pre ++ ⟨e.addr, h, t⟩ :: post) ∧
    ((∀ e ∈ (g.unit_to_thread_entires (unit_get_hash_index cfg h)).list,
        e.unit ≠ cfg.ABT_UNIT_NULL) → m.ret = ABT_SUCCESS →
      (unit_map_thread cfg m g h t).out = Outcome.ret ABT_SUCCESS ∧
      (unit_map_thread cfg m g h t).mallocs = 1 ∧
      ((unit_map_thread cfg m g h t).global.unit_to_thread_entires
        (unit_get_hash_index cfg h)).list =
        ⟨m.p_new, h, t⟩ :: (g.unit_to_thread_entires (unit_get_hash_index cfg h)).list) := by
  constructor
  · intro hex
    obtain ⟨l1, hs⟩ := map_scan_isSome cfg h t _ hex
    obtain ⟨pre, e, post, hl, hpre, he, hl1⟩ := map_scan_eq_some cfg h t _ l1 hs
    rw [unit_map_thread_reuse cfg m g h t l1 hb hs]
    exact ⟨rfl, rfl, pre, e, post, hl, hpre, he, by simp [hl1]⟩
  · intro hall hm
    have hs := (map_scan_eq_none cfg h t _).2 hall
    rw [unit_map_thread_alloc_ok cfg m g h t hb hs hm]
    exact ⟨rfl, rfl, by simp⟩

/-- C5 at two concrete calls: handle 16 reuses the recycled node of bucket 1 of
`g_recycled`; in `g_live`, where bucket 1 holds no sentinel entry, it is linked
at the head. -/
theorem unit_map_thread_reuse_or_link_witness :
    (unit_map_thread cfg2 ⟨0, 200⟩ g_recycled 16 9).mallocs = 0 ∧
    ((unit_map_thread cfg2 ⟨0, 200⟩ g_live 16 9).global.unit_to_thread_entires
      (unit_get_hash_index cfg2 16)).list =
      ⟨200, 16, 9⟩ :: (g_live.unit_to_thread_entires (unit_get_hash_index cfg2 16)).list :=
  ⟨((unit_map_thread_reuse_or_link cfg2 ⟨0, 200⟩ g_recycled 16 9 (by decide)).1
      (by decide)).2.1,
    ((unit_map_thread_reuse_or_link cfg2 ⟨0, 200⟩ g_live 16 9 (by decide)).2
      (by decide) (by decide)).2.2⟩

/-- C6 (as stated, refuted). In the table `g_builtin` the handle 9, which is
not the sentinel, is held by the entry of its bucket; the claim promises that
`unit_unmap_thread` resets that entry to the sentinel; the call stops in its
entry assertion (line 226), since 9 is a built-in handle, and the entry still
holds 9. -/
theorem unit_unmap_thread_builtin_no_reset :
    (9 ≠ cfg2.ABT_UNIT_NULL ∧
      ∃ e ∈ (g_builtin.unit_to_thread_entires (unit_get_hash_index cfg2 9)).list,
        e.unit = 9) ∧
    (unit_unmap_thread cfg2 g_builtin 9).1 = Outcome.fault Fault.assert_not_builtin ∧
    ((unit_unmap_thread cfg2 g_builtin 9).2.unit_to_thread_entires
      (unit_get_hash_index cfg2 9)).list = [⟨100, 9, 5⟩] := by
  decide

/-- C6 (amended: for a handle that is not built-in). When the handle `h` is held
by at least one entry of its bucket, `unit_unmap_thread` returns, and the new
list of the bucket is the old one with the sentinel stored into the handle of
the first entry in list order that holds `h`: same length and order, the handle
of every other entry and the thread pointer and address of every entry
unchanged; the bucket lock is free on return and every other bucket is as it
was. -/
theorem unit_unmap_thread_resets_first (cfg : Config) (g : ABTI_global) (h : Nat)
    (hb : cfg.ABTI_unit_is_builtin h = false)
    (hheld : ∃ e ∈ (g.unit_to_thread_entires (unit_get_hash_index cfg h)).list, e.unit = h) :
    (unit_unmap_thread cfg g h).1 = Outcome.ret () ∧
    (∃ pre e post,
      (g.unit_to_thread_entires (unit_get_hash_index cfg h)).list = pre ++ e :: post ∧
      (∀ x ∈ pre, x.unit ≠ h) ∧ e.unit = h ∧
      ((unit_unmap_thread cfg g h).2.unit_to_thread_entires
        (unit_get_hash_index cfg h)).list =
        pre ++ ⟨e.addr, cfg.ABT_UNIT_NULL, e.p_thread⟩ :: post) ∧
    ((unit_unmap_thread cfg g h).2.unit_to_thread_entires
      (unit_get_hash_index cfg h)).lock = false ∧
    (∀ i, i ≠ unit_get_hash_index cfg h →
      (unit_unmap_thread cfg g h).2.unit_to_thread_entires i =
        g.unit_to_thread_entires i) := by
  cases hl : (g.unit_to_thread_entires (unit_get_hash_index cfg h)).list with
  | nil =>
    rw [hl] at hheld
    simp at hheld
  | cons a l =>
    rw [hl] at hheld
    cases hs : unmap_scan cfg h a l with
    | none =>
      obtain ⟨e, he, hu⟩ := hheld
      exact absurd hu ((unmap_scan_eq_none cfg h a l).1 hs e he)
    | some l1 =>
      obtain ⟨pre, e, post, hdec, hpre, he, hl1⟩ := unmap_scan_eq_some cfg h a l l1 hs
      rw [unit_unmap_thread_found cfg g h a l l1 hb hl hs]
      refine ⟨rfl, ⟨pre, e, post, hdec, hpre, he, by simp [hl1]⟩, by simp, ?_⟩
      intro i hi
      simp [set_entry_other _ _ _ _ hi]

/-- C6 (amended) at a concrete call: in `g_live` the handle 8 is held by the
entry of bucket 1; unmap returns and leaves the bucket lock free. -/
theorem unit_unmap_thread_resets_first_witness :
    (unit_unmap_thread cfg2 g_live 8).1 = Outcome.ret () ∧
    ((unit_unmap_thread cfg2 g_live 8).2.unit_to_thread_entires
      (unit_get_hash_index cfg2 8)).lock = false :=
  ⟨(unit_unmap_thread_resets_first cfg2 g_live 8 (by decide) (by decide)).1,
    (unit_unmap_thread_resets_first cfg2 g_live 8 (by decide) (by decide)).2.2.1⟩

/-- C7 (as stated, refuted in its second part). From the initialised table the
calls map(32, 1), map(16, 5), unmap(32) all return; then map(8, 5), unmap(8)
and map(16, 6) all return, the handles 16 and 8 differ, the threads 6 and 5
differ, and the node that held 8 (bucket 1, position 0 from the tail) is the
one recycled for 16. Looking 16 up then yields 5, the thread of the earlier
entry of 16 at the head of the list, and not 6. -/
theorem lookup_after_recycle_stale :
    (16 ≠ 8 ∧ (6 : Nat) ≠ 5) ∧
    (run cfg2 (unit_init_hash_table cfg2 g_empty)
        [Call.map 32 1 ⟨0, 100⟩, Call.map 16 5 ⟨0, 101⟩, Call.unmap 32,
          Call.map 8 5 ⟨0, 102⟩]).map (fun g => node_at g 1 0) =
      some (some ⟨100, 8, 5⟩) ∧
    (run cfg2 (unit_init_hash_table cfg2 g_empty)
        [Call.map 32 1 ⟨0, 100⟩, Call.map 16 5 ⟨0, 101⟩, Call.unmap 32,
          Call.map 8 5 ⟨0, 102⟩, Call.unmap 8, Call.map 16 6 ⟨0, 103⟩]).map
        (fun g => node_at g 1 0) =
      some (some ⟨100, 16, 6⟩) ∧
    (run cfg2 (unit_init_hash_table cfg2 g_empty)
        [Call.map 32 1 ⟨0, 100⟩, Call.map 16 5 ⟨0, 101⟩, Call.unmap 32,
          Call.map 8 5 ⟨0, 102⟩, Call.unmap 8, Call.map 16 6 ⟨0, 103⟩]).map
        (fun g => lookup cfg2 g 16) =
      some (some 5) := by
  decide

/-- C7 (amended in its second part: the handle of the last map call is held by
no entry of its bucket when that call is made). First part: in every table
state reached from `unit_init_hash_table` by calls of map and unmap that
return, each node of a bucket that holds a live handle carries the handle and
the thread pointer of a call of map in the sequence that returned
`ABT_SUCCESS`, that wrote the node, and after which the node stayed the same in
every later state, so that call is the last one that wrote the handle of the
node. Second part: after map(h, t), unmap(h) and map(h1, t1) that all return
successfully, with `h1` held by no entry of its bucket when map(h1, t1) is
called, looking `h1` up yields `t1`, and so not `t` when `t1` differs from
`t`. -/
theorem live_node_carries_last_map (cfg : Config) :
    (∀ (g0 g : ABTI_global) (calls : List Call) (b i : Nat) (e : unit_to_thread),
      run cfg (unit_init_hash_table cfg g0) calls = some g →
      b < ABTI_UNIT_HASH_TABLE_SIZE cfg →
      node_at g b i = some e → e.unit ≠ cfg.ABT_UNIT_NULL →
      ∃ pre u t m post g1,
        calls = pre ++ Call.map u t m :: post ∧ e.unit = u ∧ e.p_thread = t ∧
        run cfg (unit_init_hash_table cfg g0) pre = some g1 ∧
        (unit_map_thread cfg m g1 u t).out = Outcome.ret ABT_SUCCESS ∧
        node_at g1 b i ≠ some e ∧
        ∀ q, q <+: post →
          ∃ gq, run cfg (unit_map_thread cfg m g1 u t).global q = some gq ∧
            node_at gq b i = some e) ∧
    (∀ (g : ABTI_global) (h t h1 t1 : Nat) (m m1 : ABTU_malloc_result),
      (unit_map_thread cfg m g h t).out = Outcome.ret ABT_SUCCESS →
      (unit_unmap_thread cfg (unit_map_thread cfg m g h t).global h).1 = Outcome.ret () →
      (∀ e ∈ ((unit_unmap_thread cfg (unit_map_thread cfg m g h t).global h).2.unit_to_thread_entires
          (unit_get_hash_index cfg h1)).list, e.unit ≠ h1) →
      (unit_map_thread cfg m1
        (unit_unmap_thread cfg (unit_map_thread cfg m g h t).global h).2 h1 t1).out =
        Outcome.ret ABT_SUCCESS →
      lookup cfg (unit_map_thread cfg m1
          (unit_unmap_thread cfg (unit_map_thread cfg m g h t).global h).2 h1 t1).global h1 =
          some t1 ∧
        (t1 ≠ t →
          lookup cfg (unit_map_thread cfg m1
            (unit_unmap_thread cfg (unit_map_thread cfg m g h t).global h).2 h1 t1).global h1 ≠
            some t)) := by
  constructor
  · intro g0 g calls b i e hrun hb hnode hlive
    refine live_node_history cfg (unit_init_hash_table cfg g0) b i ?_ calls g e hrun hnode hlive
    intro e0 he0
    unfold node_at at he0
    rw [unit_init_hash_table_entry cfg g0 b hb] at he0
    simp at he0
  · intro g h t h1 t1 m m1 _ _ hfree hmap
    have hl := lookup_unit_map_thread cfg m1 _ h1 t1 hfree hmap
    refine ⟨hl, ?_⟩
    intro hne
    rw [hl]
    intro hh
    exact hne (Option.some.inj hh)

/-- C7 (amended) at a concrete run from the initialised table: after map(8, 5),
unmap(8) and map(16, 6), which recycles the node of 8, the node holds a live
handle and a call of map of the run accounts for it, and looking 16 up
yields 6. -/
theorem live_node_carries_last_map_witness :
    (∃ pre u t m post g1,
      [Call.map 8 5 ⟨0, 100⟩, Call.unmap 8, Call.map 16 6 ⟨0, 101⟩] =
        pre ++ Call.map u t m :: post ∧
      (⟨100, 16, 6⟩ : unit_to_thread).unit = u ∧ (⟨100, 16, 6⟩ : unit_to_thread).p_thread = t ∧
      run cfg2 (unit_init_hash_table cfg2 g_empty) pre = some g1 ∧
      (unit_map_thread cfg2 m g1 u t).out = Outcome.ret ABT_SUCCESS ∧
      node_at g1 1 0 ≠ some ⟨100, 16, 6⟩ ∧
      ∀ q, q <+: post →
        ∃ gq, run cfg2 (unit_map_thread cfg2 m g1 u t).global q = some gq ∧
          node_at gq 1 0 = some ⟨100, 16, 6⟩) ∧
    lookup cfg2 (unit_map_thread cfg2 ⟨0, 101⟩
      (unit_unmap_thread cfg2
        (unit_map_thread cfg2 ⟨0, 100⟩ (unit_init_hash_table cfg2 g_empty) 8 5).global 8).2
      16 6).global 16 = some 6 :=
  ⟨(live_node_carries_last_map cfg2).1 g_empty
      (unit_map_thread cfg2 ⟨0, 101⟩
        (unit_unmap_thread cfg2
          (unit_map_thread cfg2 ⟨0, 100⟩ (unit_init_hash_table cfg2 g_empty) 8 5).global 8).2
        16 6).global
      [Call.map 8 5 ⟨0, 100⟩, Call.unmap 8, Call.map 16 6 ⟨0, 101⟩] 1 0 ⟨100, 16, 6⟩
      rfl (by decide) (by decide) (by decide),
    ((live_node_carries_last_map cfg2).2 (unit_init_hash_table cfg2 g_empty) 8 5 16 6
      ⟨0, 100⟩ ⟨0, 101⟩ (by decide) (by decide) (by decide) (by decide)).1⟩

/-- C8. `ABT_unit_set_associated_pool(unit, pool)` returns the invalid-pool code
exactly when the pool handle resolves to no pool object, returns
`ABT_ERR_INV_UNIT` exactly when the pool is valid and the unit is
`ABT_UNIT_NULL`, and the two codes differ; in both error cases `u_get_thread`
is not called and no thread descriptor is modified. Otherwise `u_get_thread` is
called exactly once, with the unit, and for the thread descriptor it returns
the call stores the given pool into `p_pool`, changes no other field and no
other descriptor, and returns `ABT_SUCCESS`. -/
theorem ABT_unit_set_associated_pool_spec (cfg : Config) (hd : Handles)
    (threads : Nat → Option ABTI_thread) (unit pool : Nat) :
    ((ABT_unit_set_associated_pool cfg hd threads unit pool).out =
        Outcome.ret ABT_ERR_INV_POOL ↔ hd.ABTI_pool_get_ptr pool = none) ∧
    ((ABT_unit_set_associated_pool cfg hd threads unit pool).out =
        Outcome.ret ABT_ERR_INV_UNIT ↔
      (hd.ABTI_pool_get_ptr pool ≠ none ∧ unit = cfg.ABT_UNIT_NULL)) ∧
    ABT_ERR_INV_POOL ≠ ABT_ERR_INV_UNIT ∧
    (((ABT_unit_set_associated_pool cfg hd threads unit pool).out =
          Outcome.ret ABT_ERR_INV_POOL ∨
        (ABT_unit_set_associated_pool cfg hd threads unit pool).out =
          Outcome.ret ABT_ERR_INV_UNIT) →
      (ABT_unit_set_associated_pool cfg hd threads unit pool).u_get_thread_calls = [] ∧
      (ABT_unit_set_associated_pool cfg hd threads unit pool).threads = threads) ∧
    (∀ p_pool, hd.ABTI_pool_get_ptr pool = some p_pool → unit ≠ cfg.ABT_UNIT_NULL →
      (ABT_unit_set_associated_pool cfg hd threads unit pool).u_get_thread_calls = [unit] ∧
      ∀ d, threads (hd.ABTI_thread_get_ptr (p_pool.u_get_thread unit)) = some d →
        (ABT_unit_set_associated_pool cfg hd threads unit pool).out =
          Outcome.ret ABT_SUCCESS ∧
        (ABT_unit_set_associated_pool cfg hd threads unit pool).threads
            (hd.ABTI_thread_get_ptr (p_pool.u_get_thread unit)) =
          some ⟨d.attr, p_pool.addr⟩ ∧
        ∀ a, a ≠ hd.ABTI_thread_get_ptr (p_pool.u_get_thread unit) →
          (ABT_unit_set_associated_pool cfg hd threads unit pool).threads a = threads a) := by
  have hcodes : ABT_ERR_INV_POOL ≠ ABT_ERR_INV_UNIT := by decide
  cases hp : hd.ABTI_pool_get_ptr pool with
  | none =>
    refine ⟨by simp [ABT_unit_set_associated_pool, hp], ?_, hcodes, ?_, ?_⟩
    · simp only [ABT_unit_set_associated_pool, hp, Outcome.ret.injEq]
      constructor
      · intro h
        exact absurd h hcodes
      · intro h
        exact absurd rfl h.1
    · intro _
      simp [ABT_unit_set_associated_pool, hp]
    · intro p_pool h
      simp at h
  | some p =>
    by_cases hu : unit = cfg.ABT_UNIT_NULL
    · refine ⟨?_, ?_, hcodes, ?_, ?_⟩
      · simp only [ABT_unit_set_associated_pool, hp, hu, ne_eq, not_true_eq_false, if_false,
          Outcome.ret.injEq]
        constructor
        · intro h
          exact absurd h.symm hcodes
        · intro h
          simp at h
      · simp [ABT_unit_set_associated_pool, hp, hu]
      · intro _
        simp [ABT_unit_set_associated_pool, hp, hu]
      · intro p_pool _ hne
        exact absurd hu hne
    · cases ht : threads (hd.ABTI_thread_get_ptr (p.u_get_thread unit)) with
      | none =>
        have hres : ABT_unit_set_associated_pool cfg hd threads unit pool =
            ⟨Outcome.fault Fault.null_deref, threads, [unit]⟩ := by
          simp [ABT_unit_set_associated_pool, ABTI_unit_set_associated_pool, hp, hu, ht]
        rw [hres]
        refine ⟨by simp, by simp [hu], hcodes, by simp, ?_⟩
        intro p_pool hpp _
        simp only [Option.some.injEq] at hpp
        subst hpp
        refine ⟨rfl, ?_⟩
        intro d hd1
        rw [ht] at hd1
        simp at hd1
      | some d0 =>
        have hres : ABT_unit_set_associated_pool cfg hd threads unit pool =
            ⟨Outcome.ret ABT_SUCCESS,
              fun a => if a = hd.ABTI_thread_get_ptr (p.u_get_thread unit) then
                some { d0 with p_pool := p.addr } else threads a, [unit]⟩ := by
          simp [ABT_unit_set_associated_pool, ABTI_unit_set_associated_pool, hp, hu, ht]
        rw [hres]
        refine ⟨?_, ?_, hcodes, ?_, ?_⟩
        · simp only [Outcome.ret.injEq]
          constructor
          · intro h
            exact absurd h (by decide)
          · intro h
            simp at h
        · simp only [Outcome.ret.injEq]
          constructor
          · intro h
            exact absurd h (by decide)
          · intro h
            exact absurd h.2 hu
        · intro h
          simp only [Outcome.ret.injEq] at h
          rcases h with h | h
          · exact absurd h (by decide)
          · exact absurd h (by decide)
        · intro p_pool hpp _
          simp only [Option.some.injEq] at hpp
          subst hpp
          refine ⟨rfl, ?_⟩
          intro d hd1
          rw [ht] at hd1
          simp only [Option.some.injEq] at hd1
          subst hd1
          refine ⟨rfl, by simp, ?_⟩
          intro a ha
          simp [ha]

/-- C8 at concrete calls: the null pool handle 5 gives the invalid-pool code,
the null unit handle with the valid pool 77 gives the invalid-unit code, and
the unit 8 with the pool 77 gives `ABT_SUCCESS`, one call of the callback and
the descriptor at 1008 associated with the pool 77, its attributes kept. -/
theorem ABT_unit_set_associated_pool_spec_witness :
    (ABT_unit_set_associated_pool cfg2 hd_example threads_example 8 5).out =
      Outcome.ret ABT_ERR_INV_POOL ∧
    (ABT_unit_set_associated_pool cfg2 hd_example threads_example 0 77).out =
      Outcome.ret ABT_ERR_INV_UNIT ∧
    (ABT_unit_set_associated_pool cfg2 hd_example threads_example 8 77).u_get_thread_calls =
      [8] ∧
    (ABT_unit_set_associated_pool cfg2 hd_example threads_example 8 77).out =
      Outcome.ret ABT_SUCCESS ∧
    (ABT_unit_set_associated_pool cfg2 hd_example threads_example 8 77).threads 1008 =
      some ⟨⟨4096, 16384, ABTI_stack_type.MEMPOOL, true⟩, 77⟩ :=
  ⟨(ABT_unit_set_associated_pool_spec cfg2 hd_example threads_example 8 5).1.2 rfl,
    (ABT_unit_set_associated_pool_spec cfg2 hd_example threads_example 0 77).2.1.2
      ⟨by simp [hd_example], by decide⟩,
    ((ABT_unit_set_associated_pool_spec cfg2 hd_example threads_example 8 77).2.2.2.2
      ⟨77, fun u => u + 1000⟩ rfl (by decide)).1,
    (((ABT_unit_set_associated_pool_spec cfg2 hd_example threads_example 8 77).2.2.2.2
      ⟨77, fun u => u + 1000⟩ rfl (by decide)).2
      ⟨⟨4096, 16384, ABTI_stack_type.MEMPOOL, true⟩, 3⟩ rfl).1,
    (((ABT_unit_set_associated_pool_spec cfg2 hd_example threads_example 8 77).2.2.2.2
      ⟨77, fun u => u + 1000⟩ rfl (by decide)).2
      ⟨⟨4096, 16384, ABTI_stack_type.MEMPOOL, true⟩, 3⟩ rfl).2.1⟩

/-- C9. In the memory-pool build, whenever `ABTI_mem_alloc_thread(x, a)` returns
a descriptor (the attribute is absent or has one of the four stack types and
passes the assertions of its path), `ABTI_mem_free_thread(x, ...)` on that
descriptor makes exactly one release, and the release reverses the
acquisition: either the block came from the stack pool of the local stream `x`
and goes back to that same pool with the same pointer, or the region came from
`ABTU_malloc` and `ABTU_free` receives exactly the pointer that `ABTU_malloc`
returned. In particular, with no local stream, a request without attribute or
with a `MEMPOOL` attribute is recorded as `MALLOC` in the descriptor and is
released by `ABTU_free`. -/
theorem ABTI_mem_free_thread_reverses_alloc (mc : MemConfig) (x : Option Nat)
    (a : Option ABTI_thread_attr) (blk : Nat) (th : thread_desc) (ev : List MemEvent)
    (h : ABTI_mem_alloc_thread mc x a blk = (Outcome.ret th, ev)) :
    ((ABTI_mem_free_thread x th).filter MemEvent.is_release).length = 1 ∧
    ((∃ xs, x = some xs ∧
        ev = [MemEvent.ABTI_mem_pool_alloc (MemPool.local_stack xs) blk] ∧
        ABTI_mem_free_thread x th =
          [MemEvent.ABTI_mem_pool_free (MemPool.local_stack xs) blk]) ∨
      (∃ size, ev = [MemEvent.ABTU_malloc size blk] ∧
        ABTI_mem_free_thread x th = [MemEvent.ABTU_free blk])) ∧
    (x = none → (a = none ∨ ∃ p_attr, a = some p_attr ∧
        p_attr.stacktype = ABTI_stack_type.MEMPOOL) →
      th.attr.stacktype = ABTI_stack_type.MALLOC ∧
      ABTI_mem_free_thread x th = [MemEvent.ABTU_free blk]) := by
  have key : (∃ xs, x = some xs ∧
        ev = [MemEvent.ABTI_mem_pool_alloc (MemPool.local_stack xs) blk] ∧
        th.attr.stacktype = ABTI_stack_type.MEMPOOL ∧ th.p_thread = blk) ∨
      (∃ size, ev = [MemEvent.ABTU_malloc size blk] ∧
        ((th.attr.stacktype = ABTI_stack_type.MALLOC ∧ th.attr.p_stack = blk ∧
            (x = none ∨ ∃ p_attr, a = some p_attr ∧
              p_attr.stacktype = ABTI_stack_type.MALLOC)) ∨
          ((th.attr.stacktype = ABTI_stack_type.USER ∨
              th.attr.stacktype = ABTI_stack_type.MAIN) ∧ th.p_thread = blk ∧
            ∃ p_attr, a = some p_attr ∧ p_attr.stacktype = th.attr.stacktype))) := by
    cases a with
    | none =>
      cases x with
      | none =>
        simp only [ABTI_mem_alloc_thread, ABTI_mem_alloc_thread_default,
          ABTI_mem_alloc_thread_malloc_impl, ABTI_thread_attr_init, Prod.mk.injEq,
          Outcome.ret.injEq] at h
        obtain ⟨rfl, rfl⟩ := h
        exact Or.inr ⟨_, rfl, Or.inl ⟨rfl, rfl, Or.inl rfl⟩⟩
      | some xs =>
        by_cases hal :
            mc.thread_stacksize &&& (mc.ABT_CONFIG_STATIC_CACHELINE_SIZE - 1) = 0
        · simp only [ABTI_mem_alloc_thread, ABTI_mem_alloc_thread_default,
            ABTI_mem_alloc_thread_mempool_impl, ABTI_thread_attr_init, hal, if_true,
            Prod.mk.injEq, Outcome.ret.injEq] at h
          obtain ⟨rfl, rfl⟩ := h
          exact Or.inl ⟨xs, rfl, rfl, rfl, rfl⟩
        · simp [ABTI_mem_alloc_thread, ABTI_mem_alloc_thread_default,
            ABTI_mem_alloc_thread_mempool_impl, hal] at h
    | some p_attr =>
      rcases p_attr with ⟨ps, ss, st, mg⟩
      cases st with
      | MEMPOOL =>
        cases x with
        | none =>
          by_cases hss : ss = mc.thread_stacksize
          · simp only [ABTI_mem_alloc_thread, ABTI_mem_alloc_thread_mempool,
              ABTI_mem_alloc_thread_malloc_impl, ABTI_thread_attr_copy, hss, if_true,
              Prod.mk.injEq, Outcome.ret.injEq] at h
            obtain ⟨rfl, rfl⟩ := h
            exact Or.inr ⟨_, rfl, Or.inl ⟨rfl, rfl, Or.inl rfl⟩⟩
          · simp [ABTI_mem_alloc_thread, ABTI_mem_alloc_thread_mempool,
              ABTI_mem_alloc_thread_malloc_impl, ABTI_thread_attr_copy, hss] at h
        | some xs =>
          by_cases hal :
              mc.thread_stacksize &&& (mc.ABT_CONFIG_STATIC_CACHELINE_SIZE - 1) = 0
          · by_cases hss : ss = mc.thread_stacksize
            · simp only [ABTI_mem_alloc_thread, ABTI_mem_alloc_thread_mempool,
                ABTI_mem_alloc_thread_mempool_impl, ABTI_thread_attr_copy, hal, hss, if_true,
                Prod.mk.injEq, Outcome.ret.injEq] at h
              obtain ⟨rfl, rfl⟩ := h
              exact Or.inl ⟨xs, rfl, rfl, rfl, rfl⟩
            · simp [ABTI_mem_alloc_thread, ABTI_mem_alloc_thread_mempool,
                ABTI_mem_alloc_thread_mempool_impl, ABTI_thread_attr_copy, hal, hss] at h
          · simp [ABTI_mem_alloc_thread, ABTI_mem_alloc_thread_mempool,
              ABTI_mem_alloc_thread_mempool_impl, hal] at h
      | MALLOC =>
        simp only [ABTI_mem_alloc_thread, ABTI_mem_alloc_thread_malloc,
          ABTI_mem_alloc_thread_malloc_impl, ABTI_thread_attr_copy, Prod.mk.injEq,
          Outcome.ret.injEq] at h
        obtain ⟨rfl, rfl⟩ := h
        exact Or.inr ⟨_, rfl, Or.inl ⟨rfl, rfl, Or.inr ⟨_, rfl, rfl⟩⟩⟩
      | USER =>
        simp only [ABTI_mem_alloc_thread, ABTI_mem_alloc_thread_user,
          ABTI_thread_attr_copy, Prod.mk.injEq, Outcome.ret.injEq] at h
        obtain ⟨rfl, rfl⟩ := h
        exact Or.inr ⟨_, rfl, Or.inr ⟨Or.inl rfl, rfl, _, rfl, rfl⟩⟩
      | MAIN =>
        simp only [ABTI_mem_alloc_thread, ABTI_mem_alloc_thread_main,
          ABTI_thread_attr_copy, Prod.mk.injEq, Outcome.ret.injEq] at h
        obtain ⟨rfl, rfl⟩ := h
        exact Or.inr ⟨_, rfl, Or.inr ⟨Or.inr rfl, rfl, _, rfl, rfl⟩⟩
  rcases key with ⟨xs, rfl, rfl, hst, hp⟩ | ⟨size, rfl, hcase⟩
  · have hfree : ABTI_mem_free_thread (some xs) th =
        [MemEvent.ABTI_mem_pool_free (MemPool.local_stack xs) blk] := by
      simp [ABTI_mem_free_thread, hst, hp]
    refine ⟨by simp [hfree, MemEvent.is_release], Or.inl ⟨xs, rfl, rfl, hfree⟩, ?_⟩
    intro hx
    simp at hx
  · have hfree : ABTI_mem_free_thread x th = [MemEvent.ABTU_free blk] := by
      rcases hcase with ⟨hst, hps, _⟩ | ⟨hst | hst, hp, _⟩
      · simp [ABTI_mem_free_thread, hst, hps]
      · simp [ABTI_mem_free_thread, hst, hp]
      · simp [ABTI_mem_free_thread, hst, hp]
    refine ⟨by simp [hfree, MemEvent.is_release], Or.inr ⟨size, rfl, hfree⟩, ?_⟩
    intro hx ha
    refine ⟨?_, hfree⟩
    rcases hcase with ⟨hst, _, _⟩ | ⟨hst, _, p_attr, hpa, hty⟩
    · exact hst
    · rcases ha with ha | ⟨q, hq, hqt⟩
      · rw [ha] at hpa
        simp at hpa
      · rw [hq] at hpa
        simp only [Option.some.injEq] at hpa
        subst hpa
        rw [hqt] at hty
        rcases hst with hst | hst
        · rw [hst] at hty
          simp at hty
        · rw [hst] at hty
          simp at hty

/-- C9 at a concrete call: a `MEMPOOL` request of the configured stack size
made with no local stream is served by `ABTU_malloc` (pointer 4096), recorded
as `MALLOC` and released by `ABTU_free(4096)`. -/
theorem ABTI_mem_free_thread_reverses_alloc_witness :
    (⟨4096 + 16384, ⟨4096, 16384, ABTI_stack_type.MALLOC, false⟩⟩ : thread_desc).attr.stacktype =
      ABTI_stack_type.MALLOC ∧
    ABTI_mem_free_thread none
        ⟨4096 + 16384, ⟨4096, 16384, ABTI_stack_type.MALLOC, false⟩⟩ =
      [MemEvent.ABTU_free 4096] :=
  (ABTI_mem_free_thread_reverses_alloc mc_example none
    (some ⟨0, 16384, ABTI_stack_type.MEMPOOL, false⟩) 4096
    ⟨4096 + 16384, ⟨4096, 16384, ABTI_stack_type.MALLOC, false⟩⟩
    [MemEvent.ABTU_malloc (16384 + 192) 4096] (by decide)).2.2 rfl
    (Or.inr ⟨⟨0, 16384, ABTI_stack_type.MEMPOOL, false⟩, rfl, rfl⟩)

/-- C10. In the memory-pool build, for a task descriptor returned by
`ABTI_mem_alloc_task(x)` and any freeing context `y`: a task allocated with no
local stream was obtained by `ABTU_malloc`, carries the tag 1 in the word just
past the descriptor and is released by `ABTU_free` on the pointer
`ABTU_malloc` returned, whatever `y` is; a task allocated from the
task-descriptor pool of a local stream carries the tag 0, is never passed to
`ABTU_free`, and is returned to a pool: the local pool of `y`, or the global
external pool between the acquisition and the release of its lock when `y` is
none. -/
theorem ABTI_mem_free_task_dispatch (mc : MemConfig) (x y : Option Nat) (mem : Nat → Nat)
    (blk : Nat) :
    (x = none →
      (ABTI_mem_alloc_task mc x mem blk).events =
        [MemEvent.ABTU_malloc ((mc.sizeof_ABTI_task + 4) % 2 ^ 64) blk] ∧
      (ABTI_mem_alloc_task mc x mem blk).mem
        ((ABTI_mem_alloc_task mc x mem blk).p_task + mc.sizeof_ABTI_task) = 1 ∧
      ABTI_mem_free_task mc y (ABTI_mem_alloc_task mc x mem blk).mem
        (ABTI_mem_alloc_task mc x mem blk).p_task = [MemEvent.ABTU_free blk]) ∧
    (∀ xs, x = some xs →
      (ABTI_mem_alloc_task mc x mem blk).events =
        [MemEvent.ABTI_mem_pool_alloc (MemPool.local_task_desc xs) blk] ∧
      (ABTI_mem_alloc_task mc x mem blk).mem
        ((ABTI_mem_alloc_task mc x mem blk).p_task + mc.sizeof_ABTI_task) = 0 ∧
      (∀ p, MemEvent.ABTU_free p ∉
        ABTI_mem_free_task mc y (ABTI_mem_alloc_task mc x mem blk).mem
          (ABTI_mem_alloc_task mc x mem blk).p_task) ∧
      (∀ ys, y = some ys →
        ABTI_mem_free_task mc y (ABTI_mem_alloc_task mc x mem blk).mem
          (ABTI_mem_alloc_task mc x mem blk).p_task =
          [MemEvent.ABTI_mem_pool_free (MemPool.local_task_desc ys) blk]) ∧
      (y = none →
        ABTI_mem_free_task mc y (ABTI_mem_alloc_task mc x mem blk).mem
          (ABTI_mem_alloc_task mc x mem blk).p_task =
          [MemEvent.ABTI_spinlock_acquire MemLock.mem_pool_task_desc_lock,
            MemEvent.ABTI_mem_pool_free MemPool.global_task_desc_ext blk,
            MemEvent.ABTI_spinlock_release MemLock.mem_pool_task_desc_lock])) := by
  constructor
  · rintro rfl
    simp [ABTI_mem_alloc_task, ABTI_mem_free_task]
  · rintro xs rfl
    refine ⟨by simp [ABTI_mem_alloc_task], by simp [ABTI_mem_alloc_task], ?_, ?_, ?_⟩
    · intro p
      cases y with
      | none => simp [ABTI_mem_alloc_task, ABTI_mem_free_task]
      | some ys => simp [ABTI_mem_alloc_task, ABTI_mem_free_task]
    · rintro ys rfl
      simp [ABTI_mem_alloc_task, ABTI_mem_free_task]
    · rintro rfl
      simp [ABTI_mem_alloc_task, ABTI_mem_free_task]

/-- C10 at concrete calls: a task allocated with no local stream at pointer
4096 is released by `ABTU_free(4096)` from the stream 2, and a task allocated
from the pool of the stream 1 is returned to the pool of the stream 2. -/
theorem ABTI_mem_free_task_dispatch_witness :
    ABTI_mem_free_task mc_example (some 2)
        (ABTI_mem_alloc_task mc_example none (fun _ => 0) 4096).mem
        (ABTI_mem_alloc_task mc_example none (fun _ => 0) 4096).p_task =
      [MemEvent.ABTU_free 4096] ∧
    ABTI_mem_free_task mc_example (some 2)
        (ABTI_mem_alloc_task mc_example (some 1) (fun _ => 7) 4096).mem
        (ABTI_mem_alloc_task mc_example (some 1) (fun _ => 7) 4096).p_task =
      [MemEvent.ABTI_mem_pool_free (MemPool.local_task_desc 2) 4096] :=
  ⟨((ABTI_mem_free_task_dispatch mc_example none (some 2) (fun _ => 0) 4096).1 rfl).2.2,
    ((ABTI_mem_free_task_dispatch mc_example (some 1) (some 2) (fun _ => 7) 4096).2 1
      rfl).2.2.2.1 2 rfl⟩

/-- C11 (the code departs from the claim and from its own layout comment). With
a requested stack size of 16384 bytes, a descriptor of 192 bytes and a stack
header of 24 bytes, the claim and the comment of lines 92-94 give a stack size
of 16384 - 192 - 24 = 16168 in the attribute field. In the memory-pool build
`ABTI_mem_alloc_thread` without attribute records the full 16384, from a local
stream as well as from none; in the build without memory pool
`ABTI_mem_alloc_thread_with_stacksize` records 16384 - 192 = 16192. -/
theorem ABTI_mem_alloc_thread_stacksize_not_reduced :
    mc_example.thread_stacksize - mc_example.sizeof_ABTI_thread -
      mc_example.sizeof_ABTI_stack_header = 16168 ∧
    (ABTI_mem_alloc_thread mc_example (some 1) none 1048576).1 =
      Outcome.ret ⟨1048576, ⟨1048576 - 16384, 16384, ABTI_stack_type.MEMPOOL, true⟩⟩ ∧
    (ABTI_mem_alloc_thread mc_example none none 1048576).1 =
      Outcome.ret ⟨1048576 + 16384, ⟨1048576, 16384, ABTI_stack_type.MALLOC, true⟩⟩ ∧
    (NoMemPool.ABTI_mem_alloc_thread_with_stacksize mc_example 16384 1048576).1 =
      ⟨1048576, ⟨1048576 + 192, 16192, ABTI_stack_type.MALLOC, true⟩⟩ ∧
    (NoMemPool.ABTI_mem_alloc_thread_with_stacksize mc_example 16384 1048576).2.1 =
      16192 := by
  decide

/-- C12. For every descriptor size, header size and positive cache-line size,
`ABTI_MEM_SH_SIZE` is the least multiple of the cache-line size that is at
least the sum of the two sizes: it is divisible by the cache-line size, it is
at least the sum, it exceeds the sum by less than a cache line, and every
multiple of the cache-line size that is at least the sum is at least it. -/
theorem ABTI_MEM_SH_SIZE_least_multiple (mc : MemConfig)
    (hC : 0 < mc.ABT_CONFIG_STATIC_CACHELINE_SIZE) :
    mc.ABT_CONFIG_STATIC_CACHELINE_SIZE ∣ ABTI_MEM_SH_SIZE mc ∧
    mc.sizeof_ABTI_thread + mc.sizeof_ABTI_stack_header ≤ ABTI_MEM_SH_SIZE mc ∧
    ABTI_MEM_SH_SIZE mc <
      mc.sizeof_ABTI_thread + mc.sizeof_ABTI_stack_header +
        mc.ABT_CONFIG_STATIC_CACHELINE_SIZE ∧
    (∀ B, mc.ABT_CONFIG_STATIC_CACHELINE_SIZE ∣ B →
      mc.sizeof_ABTI_thread + mc.sizeof_ABTI_stack_header ≤ B → ABTI_MEM_SH_SIZE mc ≤ B) := by
  unfold ABTI_MEM_SH_SIZE
  generalize mc.ABT_CONFIG_STATIC_CACHELINE_SIZE = C at hC ⊢
  generalize mc.sizeof_ABTI_thread + mc.sizeof_ABTI_stack_header = n
  have h1 : (n + C - 1) / C * C ≤ n + C - 1 := Nat.div_mul_le_self _ _
  have h2 : n + C - 1 < (n + C - 1) / C * C + C := Nat.lt_div_mul_add hC
  refine ⟨Nat.dvd_mul_left _ _, by omega, by omega, ?_⟩
  rintro B ⟨j, rfl⟩ hB
  have h3 : (n + C - 1) / C < j + 1 := by
    apply Nat.div_lt_of_lt_mul
    have : C * (j + 1) = C * j + C := by ring
    omega
  calc (n + C - 1) / C * C ≤ j * C := Nat.mul_le_mul_right _ (Nat.lt_succ_iff.1 h3)
    _ = C * j := Nat.mul_comm _ _

/-- C12 at a concrete configuration: with a descriptor of 192 bytes, a header of
24 bytes and cache lines of 64 bytes the header size is 256. -/
theorem ABTI_MEM_SH_SIZE_least_multiple_witness :
    (64 ∣ ABTI_MEM_SH_SIZE mc_example ∧ 192 + 24 ≤ ABTI_MEM_SH_SIZE mc_example ∧
      ABTI_MEM_SH_SIZE mc_example < 192 + 24 + 64) ∧ ABTI_MEM_SH_SIZE mc_example = 256 :=
  ⟨⟨(ABTI_MEM_SH_SIZE_least_multiple mc_example (by decide)).1,
      (ABTI_MEM_SH_SIZE_least_multiple mc_example (by decide)).2.1,
      (ABTI_MEM_SH_SIZE_least_multiple mc_example (by decide)).2.2.1⟩, by decide⟩

/-- C14. For every attribute of stack type `USER` or `MAIN` and every caller
context, `ABTI_mem_alloc_thread` makes one allocation, of exactly
`sizeof(ABTI_thread)` bytes, for the descriptor alone, and the attribute of the
descriptor is a copy of the one given, so its stack pointer and stack size are
the values of the caller; `ABTI_mem_free_thread` on such a descriptor, from any
context, makes the single call `ABTU_free` on the descriptor pointer, and
passes the stack pointer to no deallocator. -/
theorem ABTI_mem_alloc_thread_user_main (mc : MemConfig) (x y : Option Nat)
    (p_attr : ABTI_thread_attr) (blk : Nat)
    (hty : p_attr.stacktype = ABTI_stack_type.USER ∨
      p_attr.stacktype = ABTI_stack_type.MAIN) :
    ABTI_mem_alloc_thread mc x (some p_attr) blk =
      (Outcome.ret ⟨blk, p_attr⟩, [MemEvent.ABTU_malloc mc.sizeof_ABTI_thread blk]) ∧
    ABTI_mem_free_thread y ⟨blk, p_attr⟩ = [MemEvent.ABTU_free blk] ∧
    (p_attr.p_stack ≠ blk →
      MemEvent.ABTU_free p_attr.p_stack ∉ ABTI_mem_free_thread y ⟨blk, p_attr⟩ ∧
      ∀ pool, MemEvent.ABTI_mem_pool_free pool p_attr.p_stack ∉
        ABTI_mem_free_thread y ⟨blk, p_attr⟩) := by
  have hfree : ABTI_mem_free_thread y ⟨blk, p_attr⟩ = [MemEvent.ABTU_free blk] := by
    rcases hty with hty | hty
    · simp [ABTI_mem_free_thread, hty]
    · simp [ABTI_mem_free_thread, hty]
  refine ⟨?_, hfree, ?_⟩
  · rcases hty with hty | hty
    · simp [ABTI_mem_alloc_thread, hty, ABTI_mem_alloc_thread_user, ABTI_thread_attr_copy]
    · simp [ABTI_mem_alloc_thread, hty, ABTI_mem_alloc_thread_main, ABTI_thread_attr_copy]
  · intro hne
    rw [hfree]
    simp [hne]

/-- C14 at a concrete call: a `USER` attribute with stack pointer 8192 and stack
size 4096; the descriptor allocated at 1048576 carries both values and is
released by `ABTU_free(1048576)` alone. -/
theorem ABTI_mem_alloc_thread_user_main_witness :
    ABTI_mem_alloc_thread mc_example (some 1) (some ⟨8192, 4096, ABTI_stack_type.USER, false⟩)
        1048576 =
      (Outcome.ret ⟨1048576, ⟨8192, 4096, ABTI_stack_type.USER, false⟩⟩,
        [MemEvent.ABTU_malloc mc_example.sizeof_ABTI_thread 1048576]) ∧
    ABTI_mem_free_thread none ⟨1048576, ⟨8192, 4096, ABTI_stack_type.USER, false⟩⟩ =
      [MemEvent.ABTU_free 1048576] :=
  ⟨(ABTI_mem_alloc_thread_user_main mc_example (some 1) none
      ⟨8192, 4096, ABTI_stack_type.USER, false⟩ 1048576 (Or.inl rfl)).1,
    (ABTI_mem_alloc_thread_user_main mc_example (some 1) none
      ⟨8192, 4096, ABTI_stack_type.USER, false⟩ 1048576 (Or.inl rfl)).2.1⟩

/-- C15. For every handle value and every table exponent (in particular every
exponent that is at least 1), `unit_get_hash_index` returns an index strictly
below the table size, two to the exponent; `unit_map_thread` and
`unit_unmap_thread` leave every element of the bucket array at or beyond the
table size untouched, however they end. -/
theorem unit_get_hash_index_in_table (cfg : Config) (unit : Nat) :
    unit_get_hash_index cfg unit < 2 ^ cfg.ABTI_UNIT_HASH_TABLE_SIZE_EXP ∧
    (∀ (m : ABTU_malloc_result) (g : ABTI_global) (t i : Nat),
      2 ^ cfg.ABTI_UNIT_HASH_TABLE_SIZE_EXP ≤ i →
      (unit_map_thread cfg m g unit t).global.unit_to_thread_entires i =
        g.unit_to_thread_entires i) ∧
    (∀ (g : ABTI_global) (i : Nat), 2 ^ cfg.ABTI_UNIT_HASH_TABLE_SIZE_EXP ≤ i →
      (unit_unmap_thread cfg g unit).2.unit_to_thread_entires i =
        g.unit_to_thread_entires i) := by
  have hlt : unit_get_hash_index cfg unit < 2 ^ cfg.ABTI_UNIT_HASH_TABLE_SIZE_EXP :=
    unit_get_hash_index_lt cfg unit
  refine ⟨hlt, ?_, ?_⟩
  · intro m g t i hi
    exact unit_map_thread_other_bucket cfg m g unit t i (by omega)
  · intro g i hi
    exact unit_unmap_thread_other_bucket cfg g unit i (by omega)

/-- C15 at a concrete table: with 256 buckets the handle `0xdeadbeef8` falls
into a bucket below 256, and a map of it on the empty table leaves the element
300 of the array as it was. -/
theorem unit_get_hash_index_in_table_witness :
    unit_get_hash_index ⟨8, 0, fun u => u % 2 == 1⟩ 59774856952 < 2 ^ 8 ∧
    (unit_map_thread ⟨8, 0, fun u => u % 2 == 1⟩ ⟨0, 100⟩ g_empty 59774856952
      5).global.unit_to_thread_entires 300 = g_empty.unit_to_thread_entires 300 :=
  ⟨(unit_get_hash_index_in_table ⟨8, 0, fun u => u % 2 == 1⟩ 59774856952).1,
    (unit_get_hash_index_in_table ⟨8, 0, fun u => u % 2 == 1⟩ 59774856952).2.1
      ⟨0, 100⟩ g_empty 5 300 (by decide)⟩

/-- C18. For every table state and handle `h`, however the call ends,
`unit_map_thread(h, t)` and `unit_unmap_thread(h)` leave the list, the entries
and the lock of every bucket other than `unit_get_hash_index h` identical, and
what they return and what they leave in the bucket of `h` is decided by that
bucket alone: two tables that agree on it give the same result. -/
theorem unit_map_unmap_thread_frame (cfg : Config) (m : ABTU_malloc_result)
    (g : ABTI_global) (h t : Nat) :
    (∀ i, i ≠ unit_get_hash_index cfg h →
      (unit_map_thread cfg m g h t).global.unit_to_thread_entires i =
        g.unit_to_thread_entires i) ∧
    (∀ i, i ≠ unit_get_hash_index cfg h →
      (unit_unmap_thread cfg g h).2.unit_to_thread_entires i =
        g.unit_to_thread_entires i) ∧
    (∀ g1 : ABTI_global,
      g.unit_to_thread_entires (unit_get_hash_index cfg h) =
        g1.unit_to_thread_entires (unit_get_hash_index cfg h) →
      (unit_map_thread cfg m g h t).out = (unit_map_thread cfg m g1 h t).out ∧
      (unit_map_thread cfg m g h t).global.unit_to_thread_entires
          (unit_get_hash_index cfg h) =
        (unit_map_thread cfg m g1 h t).global.unit_to_thread_entires
          (unit_get_hash_index cfg h) ∧
      (unit_unmap_thread cfg g h).1 = (unit_unmap_thread cfg g1 h).1 ∧
      (unit_unmap_thread cfg g h).2.unit_to_thread_entires (unit_get_hash_index cfg h) =
        (unit_unmap_thread cfg g1 h).2.unit_to_thread_entires
          (unit_get_hash_index cfg h)) := by
  refine ⟨fun i hi => unit_map_thread_other_bucket cfg m g h t i hi,
    fun i hi => unit_unmap_thread_other_bucket cfg g h i hi, ?_⟩
  intro g1 hsame
  exact ⟨(unit_map_thread_local cfg m g g1 h t hsame).1,
    (unit_map_thread_local cfg m g g1 h t hsame).2.2,
    (unit_unmap_thread_local cfg g g1 h hsame).1,
    (unit_unmap_thread_local cfg g g1 h hsame).2⟩

/-- C18 at concrete calls: a map and an unmap of the handle 8, of bucket 1, leave
bucket 0 of `g_live_locked` as it was, its held lock included, and the two
tables `g_live` and `g_live_locked`, which agree on bucket 1, give the same
return code for the map. -/
theorem unit_map_unmap_thread_frame_witness :
    (unit_map_thread cfg2 ⟨0, 200⟩ g_live_locked 8 9).global.unit_to_thread_entires 0 =
      g_live_locked.unit_to_thread_entires 0 ∧
    (unit_unmap_thread cfg2 g_live_locked 8).2.unit_to_thread_entires 0 =
      g_live_locked.unit_to_thread_entires 0 ∧
    (unit_map_thread cfg2 ⟨0, 200⟩ g_live 8 9).out =
      (unit_map_thread cfg2 ⟨0, 200⟩ g_live_locked 8 9).out :=
  ⟨(unit_map_unmap_thread_frame cfg2 ⟨0, 200⟩ g_live_locked 8 9).1 0 (by decide),
    (unit_map_unmap_thread_frame cfg2 ⟨0, 200⟩ g_live_locked 8 9).2.1 0 (by decide),
    ((unit_map_unmap_thread_frame cfg2 ⟨0, 200⟩ g_live 8 9).2.2 g_live_locked
      (by decide)).1⟩

/-- C20. In every table state reached from `unit_init_hash_table` by calls of
`unit_map_thread` and `unit_unmap_thread` that return, every entry of a bucket
of the table that holds a live handle `h` is in the bucket number
`unit_get_hash_index h`; so an entry that holds `h` is found in no other
bucket, and the scan of that single bucket meets every live mapping of `h`. -/
theorem live_entry_in_its_bucket (cfg : Config) (g0 g : ABTI_global) (calls : List Call)
    (b : Nat) (e : unit_to_thread)
    (hrun : run cfg (unit_init_hash_table cfg g0) calls = some g)
    (hb : b < ABTI_UNIT_HASH_TABLE_SIZE cfg)
    (he : e ∈ (g.unit_to_thread_entires b).list)
    (hlive : e.unit ≠ cfg.ABT_UNIT_NULL) :
    unit_get_hash_index cfg e.unit = b := by
  refine run_live_in_bucket cfg b calls (unit_init_hash_table cfg g0) g hrun ?_ e he hlive
  intro e0 he0
  rw [unit_init_hash_table_entry cfg g0 b hb] at he0
  simp at he0

/-- C20 at a concrete run: after map(8, 5), map(24, 6) and unmap(8) on the
initialised table, the entry holding 24 is in bucket 0, the bucket of 24. -/
theorem live_entry_in_its_bucket_witness :
    unit_get_hash_index cfg2 (⟨101, 24, 6⟩ : unit_to_thread).unit = 0 :=
  live_entry_in_its_bucket cfg2 g_empty
    (unit_unmap_thread cfg2
      (unit_map_thread cfg2 ⟨0, 101⟩
        (unit_map_thread cfg2 ⟨0, 100⟩ (unit_init_hash_table cfg2 g_empty) 8 5).global
        24 6).global 8).2
    [Call.map 8 5 ⟨0, 100⟩, Call.map 24 6 ⟨0, 101⟩, Call.unmap 8] 0 ⟨101, 24, 6⟩
    rfl (by decide) (by decide) (by decide)

/-- C13. For every stack size `s` and every cache-line size that is a power of
two, with `s` plus the cache-line size plus `sizeof(ABTI_thread)` below
`2 ^ 64`, `ABTI_mem_alloc_thread_malloc_impl` makes a single call of
`ABTU_malloc`, whose size is `A + sizeof(ABTI_thread)` with `A` the least
multiple of the cache-line size that is at least `s`; the stack region of `s`
bytes from the returned stack pointer and the descriptor region of
`sizeof(ABTI_thread)` bytes from the returned descriptor pointer both lie
inside the allocated region, and the stack region ends at or before the start
of the descriptor region. -/
theorem ABTI_mem_alloc_thread_malloc_impl_layout (mc : MemConfig) (s blk k : Nat)
    (hC : mc.ABT_CONFIG_STATIC_CACHELINE_SIZE = 2 ^ k)
    (hov : s + mc.ABT_CONFIG_STATIC_CACHELINE_SIZE + mc.sizeof_ABTI_thread < 2 ^ 64) :
    ∃ A, mc.ABT_CONFIG_STATIC_CACHELINE_SIZE ∣ A ∧ s ≤ A ∧
      A < s + mc.ABT_CONFIG_STATIC_CACHELINE_SIZE ∧
      (∀ B, mc.ABT_CONFIG_STATIC_CACHELINE_SIZE ∣ B → s ≤ B → A ≤ B) ∧
      (ABTI_mem_alloc_thread_malloc_impl mc s blk).2 =
        [MemEvent.ABTU_malloc (A + mc.sizeof_ABTI_thread) blk] ∧
      blk ≤ (ABTI_mem_alloc_thread_malloc_impl mc s blk).1.2 ∧
      (ABTI_mem_alloc_thread_malloc_impl mc s blk).1.2 + s ≤
        blk + (A + mc.sizeof_ABTI_thread) ∧
      blk ≤ (ABTI_mem_alloc_thread_malloc_impl mc s blk).1.1 ∧
      (ABTI_mem_alloc_thread_malloc_impl mc s blk).1.1 + mc.sizeof_ABTI_thread ≤
        blk + (A + mc.sizeof_ABTI_thread) ∧
      (ABTI_mem_alloc_thread_malloc_impl mc s blk).1.2 + s ≤
        (ABTI_mem_alloc_thread_malloc_impl mc s blk).1.1 := by
  have hpos : 0 < 2 ^ k := Nat.two_pow_pos k
  have hk : k ≤ 64 := by
    by_contra hcon
    have : 2 ^ 64 ≤ 2 ^ k := Nat.pow_le_pow_right (by norm_num) (by omega)
    omega
  have hlt : s + 2 ^ k - 1 < 2 ^ 64 := by omega
  have hround : ((s + 2 ^ k - 1) % 2 ^ 64) &&& (2 ^ 64 - 1 - (2 ^ k - 1)) =
      (s + 2 ^ k - 1) / 2 ^ k * 2 ^ k := by
    rw [Nat.mod_eq_of_lt hlt, and_not_low_mask _ k hlt hk]
  have h1 : (s + 2 ^ k - 1) / 2 ^ k * 2 ^ k ≤ s + 2 ^ k - 1 := Nat.div_mul_le_self _ _
  have h2 : s + 2 ^ k - 1 < (s + 2 ^ k - 1) / 2 ^ k * 2 ^ k + 2 ^ k := Nat.lt_div_mul_add hpos
  have hsize : ((s + 2 ^ k - 1) / 2 ^ k * 2 ^ k + mc.sizeof_ABTI_thread) % 2 ^ 64 =
      (s + 2 ^ k - 1) / 2 ^ k * 2 ^ k + mc.sizeof_ABTI_thread :=
    Nat.mod_eq_of_lt (by omega)
  refine ⟨(s + 2 ^ k - 1) / 2 ^ k * 2 ^ k, ?_, ?_, ?_, ?_, ?_, ?_, ?_, ?_, ?_, ?_⟩
  · rw [hC]
    exact Nat.dvd_mul_left _ _
  · omega
  · rw [hC]
    omega
  · rw [hC]
    rintro B ⟨j, rfl⟩ hB
    have h3 : (s + 2 ^ k - 1) / 2 ^ k < j + 1 := by
      apply Nat.div_lt_of_lt_mul
      have : 2 ^ k * (j + 1) = 2 ^ k * j + 2 ^ k := by ring
      omega
    calc (s + 2 ^ k - 1) / 2 ^ k * 2 ^ k ≤ j * 2 ^ k :=
          Nat.mul_le_mul_right _ (Nat.lt_succ_iff.1 h3)
      _ = 2 ^ k * j := Nat.mul_comm _ _
  · simp only [ABTI_mem_alloc_thread_malloc_impl, hC, hround, hsize]
  · simp [ABTI_mem_alloc_thread_malloc_impl]
  · simp only [ABTI_mem_alloc_thread_malloc_impl]
    omega
  · simp [ABTI_mem_alloc_thread_malloc_impl]
  · simp only [ABTI_mem_alloc_thread_malloc_impl, hC, hround]
    omega
  · simp only [ABTI_mem_alloc_thread_malloc_impl, hC, hround]
    omega

/-- C13 at a concrete call: a stack of 1000 bytes with cache lines of 64 bytes
and a descriptor of 192 bytes is served by one allocation of 1024 + 192 bytes,
the stack at the start of the block and the descriptor 1024 bytes further. -/
theorem ABTI_mem_alloc_thread_malloc_impl_layout_witness :
    ∃ A, mc_example.ABT_CONFIG_STATIC_CACHELINE_SIZE ∣ A ∧ 1000 ≤ A ∧
      A < 1000 + mc_example.ABT_CONFIG_STATIC_CACHELINE_SIZE ∧
      (∀ B, mc_example.ABT_CONFIG_STATIC_CACHELINE_SIZE ∣ B → 1000 ≤ B → A ≤ B) ∧
      (ABTI_mem_alloc_thread_malloc_impl mc_example 1000 4096).2 =
        [MemEvent.ABTU_malloc (A + mc_example.sizeof_ABTI_thread) 4096] ∧
      4096 ≤ (ABTI_mem_alloc_thread_malloc_impl mc_example 1000 4096).1.2 ∧
      (ABTI_mem_alloc_thread_malloc_impl mc_example 1000 4096).1.2 + 1000 ≤
        4096 + (A + mc_example.sizeof_ABTI_thread) ∧
      4096 ≤ (ABTI_mem_alloc_thread_malloc_impl mc_example 1000 4096).1.1 ∧
      (ABTI_mem_alloc_thread_malloc_impl mc_example 1000 4096).1.1 +
          mc_example.sizeof_ABTI_thread ≤
        4096 + (A + mc_example.sizeof_ABTI_thread) ∧
      (ABTI_mem_alloc_thread_malloc_impl mc_example 1000 4096).1.2 + 1000 ≤
        (ABTI_mem_alloc_thread_malloc_impl mc_example 1000 4096).1.1 :=
  ABTI_mem_alloc_thread_malloc_impl_layout mc_example 1000 4096 6 (by decide) (by decide)

/-- C19. For every table exponent of at most 29 (in particular from 1 to 29),
`unit_get_hash_index` depends only on the bits 3 to 31 of the handle: two
handle values that agree on these bits get the same bucket index, and so do two
handle values that differ only in their low 3 bits. -/
theorem unit_get_hash_index_bits (cfg : Config)
    (hE : cfg.ABTI_UNIT_HASH_TABLE_SIZE_EXP ≤ 29) :
    (∀ u v : Nat, (∀ i, 3 ≤ i → i ≤ 31 → u.testBit i = v.testBit i) →
      unit_get_hash_index cfg u = unit_get_hash_index cfg v) ∧
    (∀ u v : Nat, u / 8 = v / 8 →
      unit_get_hash_index cfg u = unit_get_hash_index cfg v) := by
  constructor
  · intro u v hbits
    exact unit_get_hash_index_of_key cfg u v hE (key_eq_of_bits u v hbits)
  · intro u v huv
    exact unit_get_hash_index_of_key cfg u v hE (by rw [huv])

/-- C19 at a concrete table of 256 buckets: the handles `0x1234560` and
`0x1234567`, which differ only in their low 3 bits, share a bucket. -/
theorem unit_get_hash_index_bits_witness :
    unit_get_hash_index ⟨8, 0, fun u => u % 2 == 1⟩ 19088736 =
      unit_get_hash_index ⟨8, 0, fun u => u % 2 == 1⟩ 19088743 :=
  (unit_get_hash_index_bits ⟨8, 0, fun u => u % 2 == 1⟩ (by decide)).2 19088736 19088743
    (by decide)

/-- C16 (as stated, refuted). From the initialised table the calls map(8, 5) and
unmap(8) both return successfully; they are about one handle, of bucket 1, and
the unmap follows the map. No handle is live at the end, and the list of
bucket 1 has length 1: the recycled node stays linked. -/
theorem bucket_length_not_live_count :
    distinct_serial cfg2 [] [] [Call.map 8 5 ⟨0, 100⟩, Call.unmap 8] = true ∧
    unit_get_hash_index cfg2 8 = 1 ∧
    (live_after [] [Call.map 8 5 ⟨0, 100⟩, Call.unmap 8]).length = 0 ∧
    (run_success cfg2 (unit_init_hash_table cfg2 g_empty)
        [Call.map 8 5 ⟨0, 100⟩, Call.unmap 8]).map
        (fun g => (g.unit_to_thread_entires 1).list) =
      some [⟨100, 0, 5⟩] ∧
    (run_success cfg2 (unit_init_hash_table cfg2 g_empty)
        [Call.map 8 5 ⟨0, 100⟩, Call.unmap 8]).map
        (fun g => (g.unit_to_thread_entires 1).list.length) =
      some 1 := by
  decide

/-- C16 (amended: the count is that of the entries holding a live handle, not
the length of the list). For every sequence of calls of map and unmap that all
return successfully, starting from an initialised table, on pairwise distinct
handles other than the sentinel that all hash to the bucket `b`, with each
unmap following the map of its handle: the handles held by the entries of the
bucket that hold a live handle are exactly the live handles, those mapped and
not yet unmapped, each one in one entry; so the number of such entries is the
number of live handles, and the length of the list is at least that number. -/
theorem live_entries_are_live_handles (cfg : Config) (g0 g : ABTI_global)
    (calls : List Call) (b : Nat)
    (hb : b < ABTI_UNIT_HASH_TABLE_SIZE cfg)
    (hrun : run_success cfg (unit_init_hash_table cfg g0) calls = some g)
    (hserial : distinct_serial cfg [] [] calls = true)
    (hbucket : ∀ c ∈ calls, unit_get_hash_index cfg c.unit = b) :
    (live_units cfg (g.unit_to_thread_entires b).list).Perm (live_after [] calls) ∧
    (live_units cfg (g.unit_to_thread_entires b).list).Nodup ∧
    (live_units cfg (g.unit_to_thread_entires b).list).length =
      (live_after [] calls).length ∧
    (live_after [] calls).length ≤ (g.unit_to_thread_entires b).list.length := by
  have hinit : (live_units cfg
      ((unit_init_hash_table cfg g0).unit_to_thread_entires b).list).Perm
      (([] : List Nat).filter (fun u => decide (unit_get_hash_index cfg u = b))) := by
    rw [unit_init_hash_table_entry cfg g0 b hb]
    simp [live_units]
  have hresp : respects cfg [] calls = true :=
    respects_of_distinct_serial cfg calls [] [] [] hserial (by simp) (by simp)
      List.nodup_nil
  have hperm := run_success_live_units cfg b calls _ g [] hrun hresp hinit
  have hall : (live_after [] calls).filter
      (fun u => decide (unit_get_hash_index cfg u = b)) = live_after [] calls := by
    rw [List.filter_eq_self]
    intro u hu
    rcases mem_live_after calls [] u hu with hin | ⟨c, hc, rfl⟩
    · simp at hin
    · simpa using hbucket c hc
  rw [hall] at hperm
  refine ⟨hperm, ?_, hperm.length_eq, ?_⟩
  · exact hperm.nodup_iff.2 (live_after_nodup cfg calls [] hresp List.nodup_nil)
  · rw [← hperm.length_eq]
    exact live_units_length_le cfg _

/-- C16 (amended) at a concrete run in bucket 1: after map(8, 5), map(16, 6),
unmap(8) and map(32, 7) the entries holding a live handle hold a rearrangement
of the live handles 32 and 16. -/
theorem live_entries_are_live_handles_witness :
    (live_units cfg2
      ((unit_map_thread cfg2 ⟨0, 102⟩
        (unit_unmap_thread cfg2
          (unit_map_thread cfg2 ⟨0, 101⟩
            (unit_map_thread cfg2 ⟨0, 100⟩ (unit_init_hash_table cfg2 g_empty) 8
              5).global 16 6).global 8).2
        32 7).global.unit_to_thread_entires 1).list).Perm
      (live_after []
        [Call.map 8 5 ⟨0, 100⟩, Call.map 16 6 ⟨0, 101⟩, Call.unmap 8,
          Call.map 32 7 ⟨0, 102⟩]) :=
  (live_entries_are_live_handles cfg2 g_empty _
    [Call.map 8 5 ⟨0, 100⟩, Call.map 16 6 ⟨0, 101⟩, Call.unmap 8, Call.map 32 7 ⟨0, 102⟩]
    1 (by decide) rfl (by decide) (by decide)).1

/-- C17. Starting from an initialised table, over every sequence of calls of map
and unmap that return successfully and respect the contract (a handle other
than the sentinel is mapped only while it is not live, and unmapped only while
it is live), for every bucket of the table: at every point of the sequence the
length of the list is the largest number of handles of the bucket that were
live at the same time so far, and from any point to the end no entry is
removed: the addresses of the nodes at that point are the tail of the
addresses at the end, so the length does not decrease. -/
theorem bucket_length_is_high_water (cfg : Config) (g0 g : ABTI_global)
    (calls : List Call) (b : Nat)
    (hb : b < ABTI_UNIT_HASH_TABLE_SIZE cfg)
    (hrun : run_success cfg (unit_init_hash_table cfg g0) calls = some g)
    (hresp : respects cfg [] calls = true) :
    (g.unit_to_thread_entires b).list.length = high_water cfg b [] calls ∧
    ∀ (pre post : List Call) (gp : ABTI_global), calls = pre ++ post →
      run_success cfg (unit_init_hash_table cfg g0) pre = some gp →
      (gp.unit_to_thread_entires b).list.length = high_water cfg b [] pre ∧
      (gp.unit_to_thread_entires b).list.map (fun e => e.addr) <:+
        (g.unit_to_thread_entires b).list.map (fun e => e.addr) ∧
      (gp.unit_to_thread_entires b).list.length ≤
        (g.unit_to_thread_entires b).list.length := by
  have hinit : (live_units cfg
      ((unit_init_hash_table cfg g0).unit_to_thread_entires b).list).Perm
      (([] : List Nat).filter (fun u => decide (unit_get_hash_index cfg u = b))) := by
    rw [unit_init_hash_table_entry cfg g0 b hb]
    simp [live_units]
  have hlen0 : ((unit_init_hash_table cfg g0).unit_to_thread_entires b).list.length = 0 := by
    rw [unit_init_hash_table_entry cfg g0 b hb]
    rfl
  have hmain : ∀ (cs : List Call) (g1 : ABTI_global),
      run_success cfg (unit_init_hash_table cfg g0) cs = some g1 →
      respects cfg [] cs = true →
      (g1.unit_to_thread_entires b).list.length = high_water cfg b [] cs := by
    intro cs g1 hr hre
    rw [run_success_length cfg b cs _ g1 [] hr hre hinit, hlen0]
    exact Nat.zero_max _
  refine ⟨hmain calls g hrun hresp, ?_⟩
  intro pre post gp hsplit hpre
  subst hsplit
  have hpost : run_success cfg gp post = some g := by
    rw [run_success_append, hpre] at hrun
    simpa using hrun
  have hsuf := run_success_addr_suffix cfg b post gp g hpost
  refine ⟨hmain pre gp hpre (respects_append_left cfg pre post [] hresp), hsuf, ?_⟩
  have := hsuf.length_le
  simpa using this

/-- C17 at a concrete run in bucket 1: after map(8, 5), map(16, 6), unmap(8),
unmap(16) and map(32, 7), at most two handles were live at once and the list
has length 2. -/
theorem bucket_length_is_high_water_witness :
    ((unit_map_thread cfg2 ⟨0, 102⟩
      (unit_unmap_thread cfg2
        (unit_unmap_thread cfg2
          (unit_map_thread cfg2 ⟨0, 101⟩
            (unit_map_thread cfg2 ⟨0, 100⟩ (unit_init_hash_table cfg2 g_empty) 8
              5).global 16 6).global 8).2 16).2
      32 7).global.unit_to_thread_entires 1).list.length =
      high_water cfg2 1 []
        [Call.map 8 5 ⟨0, 100⟩, Call.map 16 6 ⟨0, 101⟩, Call.unmap 8, Call.unmap 16,
          Call.map 32 7 ⟨0, 102⟩] ∧
    high_water cfg2 1 []
        [Call.map 8 5 ⟨0, 100⟩, Call.map 16 6 ⟨0, 101⟩, Call.unmap 8, Call.unmap 16,
          Call.map 32 7 ⟨0, 102⟩] = 2 :=
  ⟨(bucket_length_is_high_water cfg2 g_empty _
      [Call.map 8 5 ⟨0, 100⟩, Call.map 16 6 ⟨0, 101⟩, Call.unmap 8, Call.unmap 16,
        Call.map 32 7 ⟨0, 102⟩]
      1 (by decide) rfl (by decide)).1, by decide⟩

/-- C21. `unit_init_hash_table` leaves every bucket of the table empty and every
bucket lock free; after every sequence of completed calls of `unit_map_thread`
(returning `ABT_SUCCESS` or the error of a failed allocation) and of
`unit_unmap_thread` from there, every bucket lock is free; and when, at the end
of such a sequence, no handle is left that was mapped and not yet unmapped
(every mapping has been undone by an unmap of its handle),
`unit_finalize_hash_table` passes all its assertions. -/
theorem locks_free_and_teardown_passes (cfg : Config) (g0 : ABTI_global) :
    (∀ b, b < ABTI_UNIT_HASH_TABLE_SIZE cfg →
      (unit_init_hash_table cfg g0).unit_to_thread_entires b = ⟨[], false⟩) ∧
    (∀ (calls : List Call) (g : ABTI_global),
      run cfg (unit_init_hash_table cfg g0) calls = some g →
      ∀ b, b < ABTI_UNIT_HASH_TABLE_SIZE cfg → (g.unit_to_thread_entires b).lock = false) ∧
    (∀ (calls : List Call) (g : ABTI_global),
      run cfg (unit_init_hash_table cfg g0) calls = some g →
      pending_after cfg (unit_init_hash_table cfg g0) [] calls = [] →
      (unit_finalize_hash_table cfg g).1 = Outcome.ret ()) := by
  have hlocks : ∀ (calls : List Call) (g : ABTI_global),
      run cfg (unit_init_hash_table cfg g0) calls = some g →
      ∀ b, b < ABTI_UNIT_HASH_TABLE_SIZE cfg →
        (g.unit_to_thread_entires b).lock = false := by
    intro calls g hrun b hb
    refine run_lock_free cfg b calls _ g hrun ?_
    rw [unit_init_hash_table_entry cfg g0 b hb]
  refine ⟨fun b hb => unit_init_hash_table_entry cfg g0 b hb, hlocks, ?_⟩
  intro calls g hrun hpending
  unfold unit_finalize_hash_table
  rw [finalize_buckets_ret_iff]
  intro b hb
  have hb1 : b < ABTI_UNIT_HASH_TABLE_SIZE cfg := List.mem_range.1 hb
  refine ⟨hlocks calls g hrun b hb1, ?_⟩
  have hinit : (live_units cfg
      ((unit_init_hash_table cfg g0).unit_to_thread_entires b).list).Perm
      (([] : List Nat).filter (fun u => decide (unit_get_hash_index cfg u = b))) := by
    rw [unit_init_hash_table_entry cfg g0 b hb1]
    simp [live_units]
  have hperm := run_pending_live_units cfg b calls _ g [] hrun (by simp) hinit
  rw [hpending] at hperm
  exact all_null_of_live_units_nil cfg _ (List.Perm.eq_nil (by simpa using hperm))

/-- C21 at a concrete run from the initialised table: map(8, 5) succeeds,
map(16, 6) fails in the allocator with the code 2, unmap(8) returns; the lock
of bucket 1 is free, no mapping is pending and teardown passes. -/
theorem locks_free_and_teardown_passes_witness :
    ((unit_unmap_thread cfg2
      (unit_map_thread cfg2 ⟨2, 0⟩
        (unit_map_thread cfg2 ⟨0, 100⟩ (unit_init_hash_table cfg2 g_empty) 8 5).global
        16 6).global 8).2.unit_to_thread_entires 1).lock = false ∧
    (unit_finalize_hash_table cfg2
      (unit_unmap_thread cfg2
        (unit_map_thread cfg2 ⟨2, 0⟩
          (unit_map_thread cfg2 ⟨0, 100⟩ (unit_init_hash_table cfg2 g_empty) 8 5).global
          16 6).global 8).2).1 = Outcome.ret () :=
  ⟨(locks_free_and_teardown_passes cfg2 g_empty).2.1
      [Call.map 8 5 ⟨0, 100⟩, Call.map 16 6 ⟨2, 0⟩, Call.unmap 8] _ rfl 1 (by decide),
    (locks_free_and_teardown_passes cfg2 g_empty).2.2
      [Call.map 8 5 ⟨0, 100⟩, Call.map 16 6 ⟨2, 0⟩, Call.unmap 8] _ rfl (by decide)⟩

/-- C22. `unit_map_thread` does not check whether the handle is already mapped.
For every table state in which an entry holds the handle `h`, other than the
sentinel, a further call `unit_map_thread(h, t2)` that returns `ABT_SUCCESS`
leaves every node that holds `h` as it was and makes one more entry of the
bucket of `h` hold `h`, every other bucket being unchanged; a single
`unit_unmap_thread(h)` afterwards returns, brings the number of entries of the
bucket that hold `h` back to what it was before the map, and leaves `h` held by
an entry of the table. -/
theorem unit_map_thread_twice (cfg : Config) (m : ABTU_malloc_result) (g : ABTI_global)
    (h t2 : Nat) (hn : h ≠ cfg.ABT_UNIT_NULL)
    (hlive : ∃ b, ∃ e ∈ (g.unit_to_thread_entires b).list, e.unit = h)
    (hmap : (unit_map_thread cfg m g h t2).out = Outcome.ret ABT_SUCCESS) :
    (∀ b i e, node_at g b i = some e → e.unit = h →
      node_at (unit_map_thread cfg m g h t2).global b i = some e) ∧
    ((unit_map_thread cfg m g h t2).global.unit_to_thread_entires
        (unit_get_hash_index cfg h)).list.countP (fun e => decide (e.unit = h)) =
      (g.unit_to_thread_entires (unit_get_hash_index cfg h)).list.countP
        (fun e => decide (e.unit = h)) + 1 ∧
    (∀ b, b ≠ unit_get_hash_index cfg h →
      (unit_map_thread cfg m g h t2).global.unit_to_thread_entires b =
        g.unit_to_thread_entires b) ∧
    (unit_unmap_thread cfg (unit_map_thread cfg m g h t2).global h).1 = Outcome.ret () ∧
    ((unit_unmap_thread cfg (unit_map_thread cfg m g h t2).global h).2.unit_to_thread_entires
        (unit_get_hash_index cfg h)).list.countP (fun e => decide (e.unit = h)) =
      (g.unit_to_thread_entires (unit_get_hash_index cfg h)).list.countP
        (fun e => decide (e.unit = h)) ∧
    (∃ b, ∃ e ∈ ((unit_unmap_thread cfg
        (unit_map_thread cfg m g h t2).global h).2.unit_to_thread_entires b).list,
      e.unit = h) := by
  have hb := unit_map_thread_ret_not_builtin cfg m g h t2 _ hmap
  obtain ⟨hcount, hnodes⟩ := unit_map_thread_count cfg m g h t2 hn hmap
  have hheld : ∃ e ∈ ((unit_map_thread cfg m g h t2).global.unit_to_thread_entires
      (unit_get_hash_index cfg h)).list, e.unit = h := by
    have hpos : 0 < ((unit_map_thread cfg m g h t2).global.unit_to_thread_entires
        (unit_get_hash_index cfg h)).list.countP (fun e => decide (e.unit = h)) := by
      omega
    obtain ⟨e, he, hp⟩ := List.countP_pos_iff.1 hpos
    exact ⟨e, he, by simpa using hp⟩
  have hret := unit_unmap_thread_ret_of_held cfg _ h hb hheld
  have hcount2 := unit_unmap_thread_count cfg _ h hn hret
  refine ⟨hnodes, hcount, fun b hbk => unit_map_thread_other_bucket cfg m g h t2 b hbk,
    hret, by omega, ?_⟩
  obtain ⟨b, e, he, hu⟩ := hlive
  by_cases hbk : b = unit_get_hash_index cfg h
  · subst hbk
    have hpos0 : 0 < (g.unit_to_thread_entires (unit_get_hash_index cfg h)).list.countP
        (fun e => decide (e.unit = h)) :=
      List.countP_pos_iff.2 ⟨e, he, by simpa using hu⟩
    have hpos : 0 < ((unit_unmap_thread cfg
        (unit_map_thread cfg m g h t2).global h).2.unit_to_thread_entires
        (unit_get_hash_index cfg h)).list.countP (fun e => decide (e.unit = h)) := by
      omega
    obtain ⟨e1, he1, hp⟩ := List.countP_pos_iff.1 hpos
    exact ⟨_, e1, he1, by simpa using hp⟩
  · refine ⟨b, e, ?_, hu⟩
    rw [unit_unmap_thread_other_bucket cfg _ h b hbk,
      unit_map_thread_other_bucket cfg m g h t2 b hbk]
    exact he

/-- C22 at a concrete call: in `g_live` the entry of bucket 1 holds the handle
8; a second map of 8, to the thread 9, links a new entry, two entries then
hold 8, and after one unmap of 8 one entry still holds it. -/
theorem unit_map_thread_twice_witness :
    ((unit_map_thread cfg2 ⟨0, 200⟩ g_live 8 9).global.unit_to_thread_entires
        (unit_get_hash_index cfg2 8)).list.countP (fun e => decide (e.unit = 8)) =
      (g_live.unit_to_thread_entires (unit_get_hash_index cfg2 8)).list.countP
        (fun e => decide (e.unit = 8)) + 1 ∧
    ((unit_unmap_thread cfg2
        (unit_map_thread cfg2 ⟨0, 200⟩ g_live 8 9).global 8).2.unit_to_thread_entires
        (unit_get_hash_index cfg2 8)).list.countP (fun e => decide (e.unit = 8)) =
      (g_live.unit_to_thread_entires (unit_get_hash_index cfg2 8)).list.countP
        (fun e => decide (e.unit = 8)) :=
  ⟨(unit_map_thread_twice cfg2 ⟨0, 200⟩ g_live 8 9 (by decide)
      ⟨1, ⟨102, 8, 7⟩, by decide, rfl⟩ (by decide)).2.1,
    (unit_map_thread_twice cfg2 ⟨0, 200⟩ g_live 8 9 (by decide)
      ⟨1, ⟨102, 8, 7⟩, by decide, rfl⟩ (by decide)).2.2.2.2.1⟩

end Argobots
